import Mathlib

/-! # rvnbinresource: metadata codec, resource reader and resource writer

A shallow embedding of `include/common.h`, `include/metadata.h`, `src/metadata.cpp`,
`src/reader.cpp` and `src/writer.cpp`, followed by the properties proved about it.

Bytes are `Fin 256`, `std::uint32_t` is `Fin (2^32)`, `std::uint64_t` and `std::size_t`
are `Fin (2^64)` or a natural number reduced modulo `2^64`. Integers are laid out in
memory least significant byte first (the byte order of the hosts the library is built for).
-/

namespace reven.binresource

/-! ## Bytes and fixed-width integers -/

/-- One `char` of a stream or of a `std::string`. -/
abbrev Byte := Fin 256

/-- The type `std::uint32_t`. -/
abbrev U32 := Fin (2 ^ 32)

/-- The type `std::uint64_t`. -/
abbrev U64 := Fin (2 ^ 64)

/-- The `w` bytes found at the address of an unsigned integer `n` of width `w` bytes
(`reinterpret_cast<const char*>(&n)`), least significant byte first. -/
def le_bytes : Nat → Nat → List Byte
  | 0, _ => []
  | w + 1, n => ⟨n % 256, Nat.mod_lt n (by decide)⟩ :: le_bytes w (n / 256)

/-- The value of an unsigned integer variable that was zero-initialised and then had the
bytes `bs` stored at its address, least significant byte first. -/
def le_value : List Byte → Nat
  | [] => 0
  | b :: bs => b.val + 256 * le_value bs

/-! ## The byte stream

The streams handed to the library are `std::stringstream`s in the tests and
`std::fstream`s in the file helpers. The model is an in-memory stream with a get cursor,
a put cursor and one failure flag (`failbit`/`badbit`); its exception mask is the default
one, so a failing operation reports through the stream state and `gcount`, and throws
nothing. The model has no `eofbit`: it is a stream whose end-of-file flag is clear when it
is handed to the library. A stream with `eofbit` set is `EofStream` further down, where
`Writer::create` and `Writer::set_metadata` are embedded a second time. -/

/-- An in-memory `std::iostream`. -/
structure Stream where
  /-- The characters held by the stream buffer. -/
  data : List Byte
  /-- The get (read) cursor. -/
  gpos : Nat
  /-- The put (write) cursor. -/
  ppos : Nat
  /-- Whether `fail()` holds, i.e. whether `!stream` is true. -/
  fail : Bool
deriving DecidableEq, Repr

namespace Stream

/-- A freshly constructed, empty `std::stringstream`. -/
def empty : Stream := { data := [], gpos := 0, ppos := 0, fail := false }

/-- A good stream holding `bytes`, both cursors at the start. -/
def ofBytes (bytes : List Byte) : Stream := { data := bytes, gpos := 0, ppos := 0, fail := false }

/-- The characters between the get cursor and the end of the stream. -/
def remaining (s : Stream) : List Byte := s.data.drop s.gpos

/-- The call `read(buf, n)`: the characters stored into `buf` (their number is `gcount()`)
and the stream afterwards. On a failed stream nothing is read. A read that cannot
deliver `n` characters delivers those that are left and sets the failure flag. -/
def read (s : Stream) (n : Nat) : List Byte × Stream :=
  if s.fail then ([], s)
  else
    let got := s.remaining.take n
    (got, { s with gpos := s.gpos + got.length, fail := decide (got.length < n) })

/-- The call `write(buf, n)` with the `n` characters `bytes`. On a failed stream nothing
is written. Otherwise the characters overwrite the stream from the put cursor on and
extend it where they pass its end (a cursor beyond the end, which `seekp` never produces,
leaves a zero-filled gap). -/
def write (s : Stream) (bytes : List Byte) : Stream :=
  if s.fail then s
  else
    { s with
      data := s.data.take s.ppos ++ List.replicate (s.ppos - s.data.length) 0 ++ bytes
                ++ s.data.drop (s.ppos + bytes.length)
      ppos := s.ppos + bytes.length }

/-- The call `tellg()`: the get cursor, or `-1` on a failed stream. -/
def tellg (s : Stream) : Int := if s.fail then -1 else s.gpos

/-- The call `tellp()`: the put cursor, or `-1` on a failed stream. -/
def tellp (s : Stream) : Int := if s.fail then -1 else s.ppos

/-- The call `seekg(pos)`: no effect on a failed stream; a position outside the stream
sets the failure flag. -/
def seekg (s : Stream) (pos : Int) : Stream :=
  if s.fail then s
  else if 0 ≤ pos ∧ pos ≤ s.data.length then { s with gpos := pos.toNat }
  else { s with fail := true }

/-- The call `seekp(pos)`: no effect on a failed stream; a position outside the stream
sets the failure flag. -/
def seekp (s : Stream) (pos : Int) : Stream :=
  if s.fail then s
  else if 0 ≤ pos ∧ pos ≤ s.data.length then { s with ppos := pos.toNat }
  else { s with fail := true }

end Stream

/-- The conversion of a stream position to `std::size_t`. -/
def to_size_t (pos : Int) : Nat := (pos % (2 ^ 64 : Int)).toNat

/-! ## `common.h` -/

/-- The constant `metadata_version`. -/
def metadata_version : Nat := 1

/-- The constant `magic`, "rvnbinrs". -/
def magic : Nat := 0x72766e62696e7273

/-- The magic of resources written before the header had a version field. -/
def legacy_magic : Nat := 0x7262696e72737263

/-! ## `metadata.h` -/

/-- The exceptions of the library, each with its message. -/
inductive Error where
  | WriteMetadataError (msg : String)
  | ReadMetadataError (msg : String)
  | ReaderError (msg : String)
  | WriterError (msg : String)
deriving DecidableEq, Repr

/-- The text `what()` of an exception. -/
def Error.what : Error → String
  | .WriteMetadataError msg => msg
  | .ReadMetadataError msg => msg
  | .ReaderError msg => msg
  | .WriterError msg => msg

def format_version_max_size : Nat := 512

def tool_name_max_size : Nat := 512

def tool_version_max_size : Nat := 512

def tool_info_max_size : Nat := 2048

/-- The class `Metadata`. -/
structure Metadata where
  type_ : U32
  format_version_ : List Byte
  tool_name_ : List Byte
  tool_version_ : List Byte
  tool_info_ : List Byte
  generation_date_ : U64
deriving DecidableEq, Repr

/-- The builder `MetadataWriter::write`. -/
def MetadataWriter.write (type : U32) (format_version tool_name tool_version tool_info : List Byte)
    (generation_date : U64) : Except Error Metadata :=
  if format_version.length > format_version_max_size then
    .error (.WriteMetadataError
      ("Format version too long, max size is " ++ toString format_version_max_size))
  else if tool_name.length > tool_name_max_size then
    .error (.WriteMetadataError
      ("Tool name too long, max size is " ++ toString tool_name_max_size))
  else if tool_version.length > tool_version_max_size then
    .error (.WriteMetadataError
      ("Tool version too long, max size is " ++ toString tool_version_max_size))
  else if tool_info.length > tool_info_max_size then
    .error (.WriteMetadataError
      ("Tool info too long, max size is " ++ toString tool_info_max_size))
  else
    .ok { type_ := type, format_version_ := format_version, tool_name_ := tool_name,
          tool_version_ := tool_version, tool_info_ := tool_info,
          generation_date_ := generation_date }

/-! ## `metadata.cpp` -/

/-- The characters of a string literal of the source. -/
def chars (s : String) : List Byte :=
  s.toList.map fun c => ⟨c.toNat % 256, Nat.mod_lt _ (by decide)⟩

/-- The value stored into a `std::uint32_t`. -/
def to_u32 (n : Nat) : U32 := ⟨n % 2 ^ 32, Nat.mod_lt _ (by decide)⟩

/-- The value stored into a `std::uint64_t`. -/
def to_u64 (n : Nat) : U64 := ⟨n % 2 ^ 64, Nat.mod_lt _ (by decide)⟩

/-- The method `Metadata::serialize`. With the default exception mask no write throws, so
the call always returns; the result is the stream afterwards. -/
def Metadata.serialize (md : Metadata) (out : Stream) : Stream :=
  let out := out.write (le_bytes 4 md.type_.val)
  let format_version_size := md.format_version_.length
  let out := out.write (le_bytes 8 format_version_size)
  let out := out.write md.format_version_
  let out :=
    if format_version_size < format_version_max_size then
      out.write (List.replicate (format_version_max_size - format_version_size) 0)
    else out
  let tool_name_size := md.tool_name_.length
  let out := out.write (le_bytes 8 tool_name_size)
  let out := out.write md.tool_name_
  let out :=
    if tool_name_size < tool_name_max_size then
      out.write (List.replicate (tool_name_max_size - tool_name_size) 0)
    else out
  let tool_version_size := md.tool_version_.length
  let out := out.write (le_bytes 8 tool_version_size)
  let out := out.write md.tool_version_
  let out :=
    if tool_version_size < tool_version_max_size then
      out.write (List.replicate (tool_version_max_size - tool_version_size) 0)
    else out
  let tool_info_size := md.tool_info_.length
  let out := out.write (le_bytes 8 tool_info_size)
  let out := out.write md.tool_info_
  let out :=
    if tool_info_size < tool_info_max_size then
      out.write (List.replicate (tool_info_max_size - tool_info_size) 0)
    else out
  out.write (le_bytes 8 md.generation_date_.val)

/-- The block that `Metadata::deserialize` repeats for each string field of maximum size
`max_size`: the 8-byte size, the bound check, the content and the padding. The four
messages are those of the four `throw`s of the block, in order. The result is the string
read, or the exception thrown, and the stream afterwards. -/
def deserialize_string (max_size : Nat) (size_msg bound_msg content_msg padding_msg : String)
    (input : Stream) : Except Error (List Byte) × Stream :=
  let size_read := input.read 8
  if size_read.1.length ≠ 8 then
    (.error (.ReadMetadataError size_msg), size_read.2)
  else
    let size := le_value size_read.1
    if size > max_size then
      (.error (.ReadMetadataError bound_msg), size_read.2)
    else
      let content_read := size_read.2.read size
      if content_read.1.length ≤ 0 ∨ content_read.1.length ≠ size then
        (.error (.ReadMetadataError content_msg), content_read.2)
      else if size < max_size then
        let padding_size := max_size - size
        let padding_read := content_read.2.read padding_size
        if padding_read.1.length ≤ 0 ∨ padding_read.1.length ≠ padding_size then
          (.error (.ReadMetadataError padding_msg), padding_read.2)
        else
          (.ok content_read.1, padding_read.2)
      else
        (.ok content_read.1, content_read.2)

/-- The function `Metadata::deserialize`: the metadata read, or the exception thrown, and
the stream afterwards. -/
def Metadata.deserialize (metadata_version : Nat) (input : Stream) :
    Except Error Metadata × Stream :=
  let type_read := input.read 4
  if type_read.1.length ≠ 4 then
    (.error (.ReadMetadataError "Can't read enough data for the type"), type_read.2)
  else
    match deserialize_string format_version_max_size
        "Can't read enough data for the format version size"
        "Format version size is greater than the maximum value"
        "Can't read enough data for the format version"
        "Can't read enough data for the padding of the format version" type_read.2 with
    | (.error e, input) => (.error e, input)
    | (.ok format_version, input) =>
      match deserialize_string tool_name_max_size
          "Can't read enough data for the tool name size"
          "Tool name size is greater than the maximum value"
          "Can't read enough data for the tool name"
          "Can't read enough data for the padding of the tool name" input with
      | (.error e, input) => (.error e, input)
      | (.ok tool_name, input) =>
        match (if metadata_version ≥ 1 then
            deserialize_string tool_version_max_size
              "Can't read enough data for the tool version size"
              "Tool version size is greater than the maximum value"
              "Can't read enough data for the tool version"
              "Can't read enough data for the padding of the tool version" input
          else (.ok (chars "1.0.0-prerelease"), input)) with
        | (.error e, input) => (.error e, input)
        | (.ok tool_version, input) =>
          match deserialize_string tool_info_max_size
              "Can't read enough data for the tool info size"
              "Tool info size is greater than the maximum value"
              "Can't read enough data for the tool info"
              "Can't read enough data for the padding of the tool info" input with
          | (.error e, input) => (.error e, input)
          | (.ok tool_info, input) =>
            let date_read := input.read 8
            if date_read.1.length ≠ 8 then
              (.error (.ReadMetadataError "Can't read enough data for the generation date"),
                date_read.2)
            else
              (.ok { type_ := to_u32 (le_value type_read.1),
                     format_version_ := format_version,
                     tool_name_ := tool_name,
                     tool_version_ := tool_version,
                     tool_info_ := tool_info,
                     generation_date_ := to_u64 (le_value date_read.1) }, date_read.2)

/-! ## `reader.cpp` -/

/-- The class `Reader`. -/
structure Reader where
  stream_ : Stream
  md_ : Metadata
  md_size_ : Nat
deriving DecidableEq, Repr

/-- The method `Reader::read_metadata`, which wraps the exceptions of the codec. -/
def Reader.read_metadata (stream : Stream) (metadata_version : Nat) :
    Except Error Metadata × Stream :=
  match Metadata.deserialize metadata_version stream with
  | (.error e, stream) => (.error (.ReaderError ("While reading metadata: " ++ e.what)), stream)
  | (.ok md, stream) => (.ok md, stream)

/-- The function `Reader::open` on a stream. The constructor of `Reader` seeks the get
cursor to 0 first. -/
def Reader.open (stream : Stream) : Except Error Reader :=
  let stream := stream.seekg 0
  if stream.fail then .error (.ReaderError "Bad stream")
  else
    let magic_read := stream.read 8
    let magic_value := le_value magic_read.1
    let version : Except Error (Nat × Stream) :=
      if magic_value = magic then
        let version_read := magic_read.2.read 4
        if version_read.1.length ≠ 4 then
          .error (.ReaderError "Can't read enough data for the metadata version")
        else if le_value version_read.1 > metadata_version then
          .error (.ReaderError "Metadata version in the future")
        else .ok (le_value version_read.1, version_read.2)
      else if magic_value = legacy_magic then .ok (0, magic_read.2)
      else .error (.ReaderError "Wrong magic")
    match version with
    | .error e => .error e
    | .ok (version, stream) =>
      match Reader.read_metadata stream version with
      | (.error e, _) => .error e
      | (.ok md, stream) =>
        .ok { stream_ := stream, md_ := md, md_size_ := to_size_t stream.tellg }

/-! ## `writer.cpp` -/

/-- The class `Writer`. -/
structure Writer where
  stream_ : Stream
  md_size_ : Nat
deriving DecidableEq, Repr

/-- The method `Writer::write_metadata`. `Metadata::serialize` throws nothing here, so the
wrapping of its exceptions has nothing to wrap. -/
def Writer.write_metadata (stream : Stream) (md : Metadata) : Stream :=
  md.serialize stream

/-- The function `Writer::create` on a stream whose end-of-file flag is clear (with the
flag set it is `EofWriter.create`). The constructor of `Writer` seeks the put cursor to 0
first. -/
def Writer.create (stream : Stream) (md : Metadata) : Except Error Writer :=
  let stream := stream.seekp 0
  if stream.fail then .error (.WriterError "Bad stream")
  else
    let stream := stream.write (le_bytes 8 magic)
    let stream := stream.write (le_bytes 4 metadata_version)
    let stream := Writer.write_metadata stream md
    .ok { stream_ := stream, md_size_ := to_size_t stream.tellp }

/-- The function `Writer::open` on a stream. -/
def Writer.open (stream : Stream) : Except Error Writer :=
  if stream.fail then .error (.WriterError "Bad stream")
  else
    let stream := stream.seekg 0
    let magic_read := stream.read 8
    let magic_value := le_value magic_read.1
    let version : Except Error (Nat × Stream) :=
      if magic_value = magic then
        let version_read := magic_read.2.read 4
        if version_read.1.length ≠ 4 then
          .error (.WriterError "Can't read enough data for the metadata version")
        else .ok (le_value version_read.1, version_read.2)
      else if magic_value = legacy_magic then .ok (0, magic_read.2)
      else .error (.WriterError "Wrong magic")
    match version with
    | .error e => .error e
    | .ok (version, stream) =>
      if version ≠ metadata_version then
        .error (.WriterError
          "Writer can't open resource with different metadata version than the current")
      else
        match Metadata.deserialize version stream with
        | (.error e, _) => .error (.WriterError ("While reading metadata: " ++ e.what))
        | (.ok _, stream) =>
          let md_size := to_size_t stream.tellg
          let stream := stream.seekp 0
          let stream := stream.seekp md_size
          .ok { stream_ := stream, md_size_ := md_size }

/-- The method `Writer::set_metadata`. -/
def Writer.set_metadata (writer : Writer) (md : Metadata) : Writer :=
  let previous_pos := writer.stream_.tellp
  let stream := writer.stream_.seekp (8 + 4)
  let stream := Writer.write_metadata stream md
  { writer with stream_ := stream.seekp previous_pos }

/-! # Definitions used by the statements and their proofs -/

/-! ## Cursors -/

namespace Stream

/-- The stream with its get cursor moved `n` characters forward. -/
def advance (s : Stream) (n : Nat) : Stream := { s with gpos := s.gpos + n }

end Stream

/-! ## The string block of the decoder, as a function of the characters left -/

/-- What the string block of `Metadata::deserialize` yields on a good stream whose
characters from the get cursor on are `r`. -/
def string_outcome (max_size : Nat) (size_msg bound_msg content_msg padding_msg : String)
    (r : List Byte) : Except Error (List Byte) :=
  if r.length < 8 then .error (.ReadMetadataError size_msg)
  else if le_value (r.take 8) > max_size then .error (.ReadMetadataError bound_msg)
  else if le_value (r.take 8) = 0 ∨ r.length < 8 + le_value (r.take 8) then
    .error (.ReadMetadataError content_msg)
  else if r.length < 8 + max_size then .error (.ReadMetadataError padding_msg)
  else .ok ((r.drop 8).take (le_value (r.take 8)))

/-! ## The decoder, as a function of the characters left -/

/-- The number of characters `Metadata::deserialize` consumes when it succeeds. -/
def header_size (metadata_version : Nat) : Nat :=
  if metadata_version ≥ 1 then 4 + (8 + 512) + (8 + 512) + (8 + 512) + (8 + 2048) + 8
  else 4 + (8 + 512) + (8 + 512) + (8 + 2048) + 8

/-- The string block for `format_version`. -/
def format_version_outcome (r : List Byte) : Except Error (List Byte) :=
  string_outcome format_version_max_size
    "Can't read enough data for the format version size"
    "Format version size is greater than the maximum value"
    "Can't read enough data for the format version"
    "Can't read enough data for the padding of the format version" r

/-- The string block for `tool_name`. -/
def tool_name_outcome (r : List Byte) : Except Error (List Byte) :=
  string_outcome tool_name_max_size
    "Can't read enough data for the tool name size"
    "Tool name size is greater than the maximum value"
    "Can't read enough data for the tool name"
    "Can't read enough data for the padding of the tool name" r

/-- The string block for `tool_version`. -/
def tool_version_outcome (r : List Byte) : Except Error (List Byte) :=
  string_outcome tool_version_max_size
    "Can't read enough data for the tool version size"
    "Tool version size is greater than the maximum value"
    "Can't read enough data for the tool version"
    "Can't read enough data for the padding of the tool version" r

/-- The string block for `tool_info`. -/
def tool_info_outcome (r : List Byte) : Except Error (List Byte) :=
  string_outcome tool_info_max_size
    "Can't read enough data for the tool info size"
    "Tool info size is greater than the maximum value"
    "Can't read enough data for the tool info"
    "Can't read enough data for the padding of the tool info" r

/-- What `Metadata::deserialize` yields on a good stream whose characters from the get
cursor on are `r`. -/
def decode_outcome (metadata_version : Nat) (r : List Byte) : Except Error Metadata :=
  if r.length < 4 then .error (.ReadMetadataError "Can't read enough data for the type")
  else
    let r1 := r.drop 4
    match format_version_outcome r1 with
    | .error e => .error e
    | .ok format_version =>
      let r2 := r1.drop (8 + format_version_max_size)
      match tool_name_outcome r2 with
      | .error e => .error e
      | .ok tool_name =>
        let r3 := r2.drop (8 + tool_name_max_size)
        match (if metadata_version ≥ 1 then tool_version_outcome r3
          else .ok (chars "1.0.0-prerelease")) with
        | .error e => .error e
        | .ok tool_version =>
          let r4 := if metadata_version ≥ 1 then r3.drop (8 + tool_version_max_size) else r3
          match tool_info_outcome r4 with
          | .error e => .error e
          | .ok tool_info =>
            let r5 := r4.drop (8 + tool_info_max_size)
            if r5.length < 8 then
              .error (.ReadMetadataError "Can't read enough data for the generation date")
            else
              .ok { type_ := to_u32 (le_value (r.take 4)),
                    format_version_ := format_version,
                    tool_name_ := tool_name,
                    tool_version_ := tool_version,
                    tool_info_ := tool_info,
                    generation_date_ := to_u64 (le_value (r5.take 8)) }

/-- One string field on the wire: the 8-byte size, the content, the padding. -/
def field_bytes (str padding : List Byte) : List Byte :=
  le_bytes 8 str.length ++ (str ++ padding)

/-- The header bytes of a `Metadata` as the specification lays them out: the type, the
four string fields each padded with zero bytes to its maximum, the generation date. -/
def Metadata.wire (md : Metadata) : List Byte :=
  le_bytes 4 md.type_.val
    ++ (field_bytes md.format_version_
          (List.replicate (format_version_max_size - md.format_version_.length) 0)
    ++ (field_bytes md.tool_name_
          (List.replicate (tool_name_max_size - md.tool_name_.length) 0)
    ++ (field_bytes md.tool_version_
          (List.replicate (tool_version_max_size - md.tool_version_.length) 0)
    ++ (field_bytes md.tool_info_
          (List.replicate (tool_info_max_size - md.tool_info_.length) 0)
    ++ le_bytes 8 md.generation_date_.val))))

/-- The size invariant of a `Metadata`. -/
def Metadata.valid (md : Metadata) : Prop :=
  md.format_version_.length ≤ format_version_max_size
    ∧ md.tool_name_.length ≤ tool_name_max_size
    ∧ md.tool_version_.length ≤ tool_version_max_size
    ∧ md.tool_info_.length ≤ tool_info_max_size

instance (md : Metadata) : Decidable md.valid := by
  unfold Metadata.valid; infer_instance

/-! ## String fields on the wire -/

/-- A string field the decoder accepts: a content of 1 to `max_size` characters and a
padding that completes it to `max_size` characters. -/
def field_ok (max_size : Nat) (str padding : List Byte) : Prop :=
  1 ≤ str.length ∧ str.length ≤ max_size ∧ padding.length = max_size - str.length

instance (max_size : Nat) (str padding : List Byte) : Decidable (field_ok max_size str padding) := by
  unfold field_ok; infer_instance

/-! ## Metadata without an empty string -/

/-- All four strings of a `Metadata` hold at least one character. -/
def Metadata.nonempty (md : Metadata) : Prop :=
  1 ≤ md.format_version_.length ∧ 1 ≤ md.tool_name_.length
    ∧ 1 ≤ md.tool_version_.length ∧ 1 ≤ md.tool_info_.length

instance (md : Metadata) : Decidable md.nonempty := by
  unfold Metadata.nonempty; infer_instance

/-! ## Resources on the wire -/

/-- The bytes `Writer::create` puts in front of the payload: the magic, the header
version and the encoded metadata. -/
def resource_header (md : Metadata) : List Byte :=
  le_bytes 8 magic ++ (le_bytes 4 metadata_version ++ md.wire)

/-! ## The states of a writer -/

/-- The writers a client holds when the stream it handed over had its end-of-file flag
clear: those returned by `Writer::create` (on a `Metadata` that respects the size
invariant, as every `Metadata` of the library does) or by `Writer::open`, then used
through `stream()` (writes, moves of the put cursor, changes of the failure flag) and
through `set_metadata`. The writer that `Writer::create` returns on a stream with
`eofbit` alone set has no header and is not among them; it is an `EofWriter`. -/
inductive Writer.Reachable : Writer → Prop where
  | of_create (s : Stream) (md : Metadata) (w : Writer) :
      md.valid → Writer.create s md = .ok w → Writer.Reachable w
  | of_open (s : Stream) (w : Writer) : Writer.open s = .ok w → Writer.Reachable w
  | of_write (w : Writer) (bytes : List Byte) :
      Writer.Reachable w → Writer.Reachable { w with stream_ := w.stream_.write bytes }
  | of_seekp (w : Writer) (pos : Int) :
      Writer.Reachable w → Writer.Reachable { w with stream_ := w.stream_.seekp pos }
  | of_setstate (w : Writer) (failed : Bool) :
      Writer.Reachable w → Writer.Reachable { w with stream_ := { w.stream_ with fail := failed } }
  | of_set_metadata (w : Writer) (md : Metadata) :
      Writer.Reachable w → md.valid → Writer.Reachable (w.set_metadata md)

/-! ## The metadata of the test suite -/

/-- The metadata `TestMDWriter::dummy_md()` of the tests. -/
def dummy_md : Metadata :=
  { type_ := 42, format_version_ := chars "1.0.0-dummy", tool_name_ := chars "TestMetaDataWriter",
    tool_version_ := chars "1.0.0", tool_info_ := chars "Tests version 1.0.0",
    generation_date_ := 42424242 }

/-- The metadata `TestMDWriter::dummy_md2()` of the tests. -/
def dummy_md2 : Metadata :=
  { type_ := 24, format_version_ := chars "1.2.0-dummy", tool_name_ := chars "TestMetaDataWriter2",
    tool_version_ := chars "1.2.0", tool_info_ := chars "Tests version 1.2.0",
    generation_date_ := 42424243 }

/-- The metadata `dummy_md()` with an empty format version. -/
def empty_version_md : Metadata :=
  { type_ := 42, format_version_ := [], tool_name_ := chars "TestMetaDataWriter",
    tool_version_ := chars "1.0.0", tool_info_ := chars "Tests version 1.0.0",
    generation_date_ := 42424242 }

/-- The writer `Writer::create` returns for `dummy_md()` on an empty stream. -/
def dummy_writer : Writer :=
  { stream_ := { data := resource_header dummy_md ++ ([] : List Byte).drop 3640, gpos := 0,
                 ppos := 3640, fail := false },
    md_size_ := 3640 }

/-! ## Headers on the wire -/

/-- The parts of an encoded header: the bytes of the type, each string with its padding,
the bytes of the generation date. The tool version and its padding are on the wire from
header version 1 on. -/
structure WireHeader where
  type_bytes : List Byte
  format_version : List Byte
  format_version_padding : List Byte
  tool_name : List Byte
  tool_name_padding : List Byte
  tool_version : List Byte
  tool_version_padding : List Byte
  tool_info : List Byte
  tool_info_padding : List Byte
  generation_date_bytes : List Byte

/-- A header of version `v` is well formed when its type takes 4 bytes, each string
present at that version holds 1 to its maximum of bytes and is padded to that maximum,
and its generation date takes 8 bytes. -/
def WireHeader.well_formed (v : Nat) (h : WireHeader) : Prop :=
  h.type_bytes.length = 4
    ∧ field_ok format_version_max_size h.format_version h.format_version_padding
    ∧ field_ok tool_name_max_size h.tool_name h.tool_name_padding
    ∧ (v ≥ 1 → field_ok tool_version_max_size h.tool_version h.tool_version_padding)
    ∧ field_ok tool_info_max_size h.tool_info h.tool_info_padding
    ∧ h.generation_date_bytes.length = 8

instance (v : Nat) (h : WireHeader) : Decidable (h.well_formed v) := by
  unfold WireHeader.well_formed; infer_instance

/-- The tool version field of a header of version `v` on the wire. -/
def WireHeader.tool_version_bytes (v : Nat) (h : WireHeader) : List Byte :=
  if v ≥ 1 then field_bytes h.tool_version h.tool_version_padding else []

/-- The bytes of a header of version `v`. -/
def WireHeader.bytes (v : Nat) (h : WireHeader) : List Byte :=
  h.type_bytes ++ (field_bytes h.format_version h.format_version_padding
    ++ (field_bytes h.tool_name h.tool_name_padding
    ++ (h.tool_version_bytes v
    ++ (field_bytes h.tool_info h.tool_info_padding ++ h.generation_date_bytes))))

/-- The metadata a header of version `v` stands for. -/
def WireHeader.metadata (v : Nat) (h : WireHeader) : Metadata :=
  { type_ := to_u32 (le_value h.type_bytes),
    format_version_ := h.format_version,
    tool_name_ := h.tool_name,
    tool_version_ := if v ≥ 1 then h.tool_version else chars "1.0.0-prerelease",
    tool_info_ := h.tool_info,
    generation_date_ := to_u64 (le_value h.generation_date_bytes) }

/-- The header of version 1 that `Metadata::serialize` writes for `dummy_md()`. -/
def dummy_header : WireHeader :=
  { type_bytes := le_bytes 4 42,
    format_version := chars "1.0.0-dummy",
    format_version_padding := List.replicate 501 0,
    tool_name := chars "TestMetaDataWriter",
    tool_name_padding := List.replicate 494 0,
    tool_version := chars "1.0.0",
    tool_version_padding := List.replicate 507 0,
    tool_info := chars "Tests version 1.0.0",
    tool_info_padding := List.replicate 2029 0,
    generation_date_bytes := le_bytes 8 42424242 }

/-! ## Opening a resource, as a function of the bytes of the stream -/

/-- What `Reader::open` yields on a stream, read off its state and its bytes: the bytes
0 to 8 are the magic, with the current magic the bytes 8 to 12 are the header version
and the metadata starts at 12, with the legacy magic the metadata starts at 8. -/
def Reader.open_outcome (s : Stream) : Except Error Reader :=
  if s.fail then .error (.ReaderError "Bad stream")
  else if le_value (s.data.take 8) = magic then
    if s.data.length < 12 then
      .error (.ReaderError "Can't read enough data for the metadata version")
    else if le_value ((s.data.drop 8).take 4) > metadata_version then
      .error (.ReaderError "Metadata version in the future")
    else
      match decode_outcome (le_value ((s.data.drop 8).take 4)) (s.data.drop 12) with
      | .error e => .error (.ReaderError ("While reading metadata: " ++ e.what))
      | .ok md =>
        .ok { stream_ := { s with gpos := 12 + header_size (le_value ((s.data.drop 8).take 4)) },
              md_ := md,
              md_size_ := 12 + header_size (le_value ((s.data.drop 8).take 4)) }
  else if le_value (s.data.take 8) = legacy_magic then
    match decode_outcome 0 (s.data.drop 8) with
    | .error e => .error (.ReaderError ("While reading metadata: " ++ e.what))
    | .ok md => .ok { stream_ := { s with gpos := 8 + header_size 0 }, md_ := md,
                      md_size_ := 8 + header_size 0 }
  else .error (.ReaderError "Wrong magic")

/-- What `Writer::open` yields on a stream, read off its state and its bytes. -/
def Writer.open_outcome (s : Stream) : Except Error Writer :=
  if s.fail then .error (.WriterError "Bad stream")
  else if le_value (s.data.take 8) = magic then
    if s.data.length < 12 then
      .error (.WriterError "Can't read enough data for the metadata version")
    else if le_value ((s.data.drop 8).take 4) ≠ metadata_version then
      .error (.WriterError
        "Writer can't open resource with different metadata version than the current")
    else
      match decode_outcome metadata_version (s.data.drop 12) with
      | .error e => .error (.WriterError ("While reading metadata: " ++ e.what))
      | .ok _ => .ok { stream_ := { s with gpos := 3640, ppos := 3640 }, md_size_ := 3640 }
  else if le_value (s.data.take 8) = legacy_magic then
    .error (.WriterError
      "Writer can't open resource with different metadata version than the current")
  else .error (.WriterError "Wrong magic")

/-! ## The field a truncated header stops in -/

/-- The message for a string field of which only the first `j` bytes are there, `j` below
the `8 + max_size` bytes of the field: the size when `j` is inside the 8-byte size, the
content when it is inside the `len` bytes of the string, the padding otherwise. -/
def field_region_message (size_msg content_msg padding_msg : String) (len j : Nat) : String :=
  if j < 8 then size_msg else if j < 8 + len then content_msg else padding_msg

/-- The message of the region of a version-1 header that holds the offset `k`, in wire
order: the type, the four string fields, the generation date. -/
def region_message (h : WireHeader) (k : Nat) : String :=
  if k < 4 then "Can't read enough data for the type"
  else if k < 524 then
    field_region_message "Can't read enough data for the format version size"
      "Can't read enough data for the format version"
      "Can't read enough data for the padding of the format version"
      h.format_version.length (k - 4)
  else if k < 1044 then
    field_region_message "Can't read enough data for the tool name size"
      "Can't read enough data for the tool name"
      "Can't read enough data for the padding of the tool name"
      h.tool_name.length (k - 524)
  else if k < 1564 then
    field_region_message "Can't read enough data for the tool version size"
      "Can't read enough data for the tool version"
      "Can't read enough data for the padding of the tool version"
      h.tool_version.length (k - 1044)
  else if k < 3620 then
    field_region_message "Can't read enough data for the tool info size"
      "Can't read enough data for the tool info"
      "Can't read enough data for the padding of the tool info"
      h.tool_info.length (k - 1564)
  else "Can't read enough data for the generation date"

/-! ## `metadata.cpp` on a stream that throws

`Metadata::serialize` and `Metadata::deserialize` take any `std::ostream` and
`std::istream`. When the exception mask of the stream is set, its `write` and `read`
throw `std::ios_base::failure`. `Metadata.serialize` and `Metadata.deserialize` above are
the two functions on a stream with the default mask, whose operations throw nothing; the
definitions below are the same statements on a stream whose operations may throw. -/

/-- What leaves a function by an exception: a `std::ios_base::failure` of the stream,
with its text `what()`, or an exception of the library. -/
inductive Thrown where
  | failure (what : String)
  | error (e : Error)
deriving DecidableEq, Repr

/-- A stream whose operations may throw `std::ios_base::failure`. `write` gives the stream
afterwards, `read` the characters stored (their number is `gcount()`) and the stream
afterwards; either gives instead the text of the failure it throws. -/
structure ThrowingStream (σ : Type) where
  write : σ → List Byte → Except String σ
  read : σ → Nat → Except String (List Byte × σ)

/-- A call of the stream inside a `try` block: the failure it throws travels up to the
`catch`. -/
def in_try {α : Type} : Except String α → Except Thrown α
  | .ok a => .ok a
  | .error what => .error (.failure what)

/-- The `try` block of `Metadata::serialize`. -/
def Metadata.serialize_try {σ : Type} (io : ThrowingStream σ) (md : Metadata) (out : σ) :
    Except Thrown σ := do
  let out ← in_try (io.write out (le_bytes 4 md.type_.val))
  let format_version_size := md.format_version_.length
  let out ← in_try (io.write out (le_bytes 8 format_version_size))
  let out ← in_try (io.write out md.format_version_)
  let out ←
    (if format_version_size < format_version_max_size then
      in_try (io.write out (List.replicate (format_version_max_size - format_version_size) 0))
    else pure out)
  let tool_name_size := md.tool_name_.length
  let out ← in_try (io.write out (le_bytes 8 tool_name_size))
  let out ← in_try (io.write out md.tool_name_)
  let out ←
    (if tool_name_size < tool_name_max_size then
      in_try (io.write out (List.replicate (tool_name_max_size - tool_name_size) 0))
    else pure out)
  let tool_version_size := md.tool_version_.length
  let out ← in_try (io.write out (le_bytes 8 tool_version_size))
  let out ← in_try (io.write out md.tool_version_)
  let out ←
    (if tool_version_size < tool_version_max_size then
      in_try (io.write out (List.replicate (tool_version_max_size - tool_version_size) 0))
    else pure out)
  let tool_info_size := md.tool_info_.length
  let out ← in_try (io.write out (le_bytes 8 tool_info_size))
  let out ← in_try (io.write out md.tool_info_)
  let out ←
    (if tool_info_size < tool_info_max_size then
      in_try (io.write out (List.replicate (tool_info_max_size - tool_info_size) 0))
    else pure out)
  in_try (io.write out (le_bytes 8 md.generation_date_.val))

/-- The method `Metadata::serialize` on a stream that may throw: the `try` block and its
`catch (const std::ios_base::failure& e)`. -/
def Metadata.serialize_throwing {σ : Type} (io : ThrowingStream σ) (md : Metadata) (out : σ) :
    Except Thrown σ :=
  match Metadata.serialize_try io md out with
  | .error (.failure what) => .error (.error (.WriteMetadataError ("IO error: " ++ what)))
  | r => r

/-- The block that `Metadata::deserialize` repeats for each string field, on a stream
that may throw. -/
def deserialize_string_throwing {σ : Type} (io : ThrowingStream σ) (max_size : Nat)
    (size_msg bound_msg content_msg padding_msg : String) (input : σ) :
    Except Thrown (List Byte × σ) := do
  let size_read ← in_try (io.read input 8)
  if size_read.1.length ≠ 8 then
    throw (.error (.ReadMetadataError size_msg))
  else
    let size := le_value size_read.1
    if size > max_size then
      throw (.error (.ReadMetadataError bound_msg))
    else do
      let content_read ← in_try (io.read size_read.2 size)
      if content_read.1.length ≤ 0 ∨ content_read.1.length ≠ size then
        throw (.error (.ReadMetadataError content_msg))
      else if size < max_size then do
        let padding_size := max_size - size
        let padding_read ← in_try (io.read content_read.2 padding_size)
        if padding_read.1.length ≤ 0 ∨ padding_read.1.length ≠ padding_size then
          throw (.error (.ReadMetadataError padding_msg))
        else
          pure (content_read.1, padding_read.2)
      else
        pure (content_read.1, content_read.2)

/-- The `try` block of `Metadata::deserialize`. -/
def Metadata.deserialize_try {σ : Type} (io : ThrowingStream σ) (metadata_version : Nat)
    (input : σ) : Except Thrown (Metadata × σ) := do
  let type_read ← in_try (io.read input 4)
  if type_read.1.length ≠ 4 then
    throw (.error (.ReadMetadataError "Can't read enough data for the type"))
  else do
    let format_version ← deserialize_string_throwing io format_version_max_size
      "Can't read enough data for the format version size"
      "Format version size is greater than the maximum value"
      "Can't read enough data for the format version"
      "Can't read enough data for the padding of the format version" type_read.2
    let tool_name ← deserialize_string_throwing io tool_name_max_size
      "Can't read enough data for the tool name size"
      "Tool name size is greater than the maximum value"
      "Can't read enough data for the tool name"
      "Can't read enough data for the padding of the tool name" format_version.2
    let tool_version ←
      (if metadata_version ≥ 1 then
        deserialize_string_throwing io tool_version_max_size
          "Can't read enough data for the tool version size"
          "Tool version size is greater than the maximum value"
          "Can't read enough data for the tool version"
          "Can't read enough data for the padding of the tool version" tool_name.2
      else pure (chars "1.0.0-prerelease", tool_name.2))
    let tool_info ← deserialize_string_throwing io tool_info_max_size
      "Can't read enough data for the tool info size"
      "Tool info size is greater than the maximum value"
      "Can't read enough data for the tool info"
      "Can't read enough data for the padding of the tool info" tool_version.2
    let date_read ← in_try (io.read tool_info.2 8)
    if date_read.1.length ≠ 8 then
      throw (.error (.ReadMetadataError "Can't read enough data for the generation date"))
    else
      pure ({ type_ := to_u32 (le_value type_read.1),
              format_version_ := format_version.1,
              tool_name_ := tool_name.1,
              tool_version_ := tool_version.1,
              tool_info_ := tool_info.1,
              generation_date_ := to_u64 (le_value date_read.1) }, date_read.2)

/-- The function `Metadata::deserialize` on a stream that may throw: the `try` block and
its `catch (const std::ios_base::failure& e)`. -/
def Metadata.deserialize_throwing {σ : Type} (io : ThrowingStream σ) (metadata_version : Nat)
    (input : σ) : Except Thrown (Metadata × σ) :=
  match Metadata.deserialize_try io metadata_version input with
  | .error (.failure what) => .error (.error (.ReadMetadataError ("IO error: " ++ what)))
  | r => r

/-- A `std::stringstream` with the default exception mask: no operation throws. -/
def Stream.quiet : ThrowingStream Stream :=
  { write := fun s bytes => .ok (s.write bytes),
    read := fun s n => .ok (s.read n) }

/-- A `std::stringstream` after `exceptions(std::ios_base::failbit)`: a call of
`setstate(failbit)` throws `std::ios_base::failure`, whose text `what` is chosen by the
C++ library. `read` calls `setstate(failbit)` when the stream is not good and when it
cannot deliver the characters asked for, so it throws whenever it leaves the failure flag
set. `write` does not: the sentry of `write` calls `setstate` only when `badbit` is set,
and the failure flag of a `std::stringstream` is `failbit` (a failed seek or read); on a
failed stream `write` writes nothing and throws nothing, and on a good one it succeeds. -/
def Stream.failbit_mask (what : String) : ThrowingStream Stream :=
  { write := fun s bytes => .ok (s.write bytes),
    read := fun s n => if (s.read n).2.fail then .error what else .ok (s.read n) }

/-- The result of `Metadata::deserialize` with the default mask, as an outcome of the
function on a stream that may throw. -/
def as_thrown {α β : Type} : Except Error α × β → Except Thrown (α × β)
  | (.ok a, b) => .ok (a, b)
  | (.error e, _) => .error (.error e)

/-- Every exception of `x` is a failure that a `write` of the stream threw. -/
def only_write_failures {σ α : Type} (io : ThrowingStream σ) (x : Except Thrown α) : Prop :=
  ∀ t, x = .error t → ∃ what s bytes, io.write s bytes = .error what ∧ t = .failure what

/-- Every exception of `x` is a failure that a `read` of the stream threw, or a
`ReadMetadataError`. -/
def only_read_failures {σ α : Type} (io : ThrowingStream σ) (x : Except Thrown α) : Prop :=
  ∀ t, x = .error t →
    (∃ what s n, io.read s n = .error what ∧ t = .failure what)
      ∨ ∃ msg, t = .error (.ReadMetadataError msg)

/-! ## Padding regions -/

/-- The size that the 8 bytes at the offset `o` of `r` declare. -/
def declared_size (r : List Byte) (o : Nat) : Nat := le_value ((r.drop o).take 8)

/-- The offset `i` lies in a padding region of a header of version `v` whose bytes are
`r`: behind the declared content of a string field and before the end of that field. -/
def in_padding (v : Nat) (r : List Byte) (i : Nat) : Prop :=
  (12 + declared_size r 4 ≤ i ∧ i < 524)
    ∨ (532 + declared_size r 524 ≤ i ∧ i < 1044)
    ∨ (if v ≥ 1 then
        (1052 + declared_size r 1044 ≤ i ∧ i < 1564)
          ∨ (1572 + declared_size r 1564 ≤ i ∧ i < 3620)
      else 1052 + declared_size r 1044 ≤ i ∧ i < 3100)

/-- The byte strings `r1` and `r2` have the same length and differ only at offsets that
lie in a padding region. -/
def differ_only_in_padding (v : Nat) (r1 r2 : List Byte) : Prop :=
  r1.length = r2.length ∧ ∀ i : Nat, ¬ in_padding v r1 i → r1[i]? = r2[i]?

/-- The header of `dummy_header` with every padding byte set to `0xff`. -/
def dummy_header_ff : WireHeader :=
  { dummy_header with
    format_version_padding := List.replicate 501 255,
    tool_name_padding := List.replicate 494 255,
    tool_version_padding := List.replicate 507 255,
    tool_info_padding := List.replicate 2029 255 }

/-! ## `writer.cpp` on a stream whose end-of-file flag is set

`Stream` has no `eofbit`: it is a stream whose end-of-file flag is clear. The flag
matters to `Writer::create`: its check `!*stream` is `fail()`, which ignores `eofbit`,
while `write` needs `good()`, so on a stream with `eofbit` alone the check passes and
nothing is written. The definitions below are `Writer::create` and
`Writer::set_metadata` on a stream that carries its end-of-file flag; with the flag clear
they are `Writer.create` and `Writer.set_metadata` above. -/

/-- A `std::stringstream` with its end-of-file flag `eofbit` next to the failure flag. -/
structure EofStream where
  /-- The characters, the cursors and the failure flag. -/
  stream : Stream
  /-- Whether `eof()` holds. -/
  eof : Bool
deriving DecidableEq, Repr

namespace EofStream

/-- The call `write(buf, n)`: nothing is written unless the stream is `good()`, that is
neither failed nor at end of file; the state is left as it is. -/
def write (s : EofStream) (bytes : List Byte) : EofStream :=
  if s.eof then s else { s with stream := s.stream.write bytes }

/-- The call `read(buf, n)`: a stream that is not `good()` delivers nothing and gets
`failbit`; a read that cannot deliver `n` characters sets `eofbit` and `failbit`. -/
def read (s : EofStream) (n : Nat) : List Byte × EofStream :=
  if s.eof ∨ s.stream.fail then ([], { s with stream := { s.stream with fail := true } })
  else ((s.stream.read n).1, { stream := (s.stream.read n).2,
                               eof := decide ((s.stream.read n).1.length < n) })

/-- The call `tellp()`: the put cursor, or `-1` when `fail()` holds. -/
def tellp (s : EofStream) : Int := s.stream.tellp

/-- The call `seekp(pos)`, which looks at `fail()` only. -/
def seekp (s : EofStream) (pos : Int) : EofStream := { s with stream := s.stream.seekp pos }

/-- The call `clear()`. -/
def clear (s : EofStream) : EofStream :=
  { stream := { s.stream with fail := false }, eof := false }

/-- The operations of the stream with the default exception mask: nothing is thrown. -/
def ops : ThrowingStream EofStream :=
  { write := fun s bytes => .ok (s.write bytes),
    read := fun s n => .ok (s.read n) }

end EofStream

/-- The class `Writer` over a stream that carries its end-of-file flag. -/
structure EofWriter where
  stream_ : EofStream
  md_size_ : Nat
deriving DecidableEq, Repr

/-- The method `Writer::write_metadata`, with its `catch (const MetadataError& e)`. -/
def EofWriter.write_metadata (stream : EofStream) (md : Metadata) : Except Thrown EofStream :=
  match md.serialize_throwing EofStream.ops stream with
  | .error (.error (.WriteMetadataError msg)) =>
    .error (.error (.WriterError ("While writing metadata: " ++ msg)))
  | .error (.error (.ReadMetadataError msg)) =>
    .error (.error (.WriterError ("While writing metadata: " ++ msg)))
  | r => r

/-- The function `Writer::create`. The constructor of `Writer` seeks the put cursor to 0
first. -/
def EofWriter.create (stream : EofStream) (md : Metadata) : Except Thrown EofWriter :=
  let stream := stream.seekp 0
  if stream.stream.fail then .error (.error (.WriterError "Bad stream"))
  else
    let stream := stream.write (le_bytes 8 magic)
    let stream := stream.write (le_bytes 4 metadata_version)
    match EofWriter.write_metadata stream md with
    | .error t => .error t
    | .ok stream => .ok { stream_ := stream, md_size_ := to_size_t stream.tellp }

/-- The method `Writer::set_metadata`. -/
def EofWriter.set_metadata (writer : EofWriter) (md : Metadata) : Except Thrown EofWriter :=
  let previous_pos := writer.stream_.tellp
  let stream := writer.stream_.seekp (8 + 4)
  match EofWriter.write_metadata stream md with
  | .error t => .error t
  | .ok stream => .ok { writer with stream_ := stream.seekp previous_pos }

/-- A `std::stringstream` that holds the two characters `"ab"` and has `eofbit` alone
set, as after `seekg(0, std::ios::end)` and `peek()`. -/
def eof_short_stream : EofStream :=
  { stream := { data := [97, 98], gpos := 2, ppos := 0, fail := false }, eof := true }

/-- A `std::stringstream` that holds 4000 characters `'x'` and has `eofbit` alone set, as
after `seekg(0, std::ios::end)` and `peek()`. -/
def eof_long_stream : EofStream :=
  { stream := { data := List.replicate 4000 120, gpos := 4000, ppos := 0, fail := false },
    eof := true }

/-! ## Headers with an empty string -/

/-- A string field in the layout of the specification: a content of at most `max_size`
characters, which may be empty, and a padding that completes it to `max_size`
characters. -/
def field_fits (max_size : Nat) (str padding : List Byte) : Prop :=
  str.length ≤ max_size ∧ padding.length = max_size - str.length

instance (max_size : Nat) (str padding : List Byte) :
    Decidable (field_fits max_size str padding) := by
  unfold field_fits; infer_instance

/-- A header of version `v` in the layout of the specification: its type takes 4 bytes,
each string present at that version holds at most its maximum of bytes and is padded to
that maximum, and its generation date takes 8 bytes. -/
def WireHeader.in_layout (v : Nat) (h : WireHeader) : Prop :=
  h.type_bytes.length = 4
    ∧ field_fits format_version_max_size h.format_version h.format_version_padding
    ∧ field_fits tool_name_max_size h.tool_name h.tool_name_padding
    ∧ (v ≥ 1 → field_fits tool_version_max_size h.tool_version h.tool_version_padding)
    ∧ field_fits tool_info_max_size h.tool_info h.tool_info_padding
    ∧ h.generation_date_bytes.length = 8

/-- The header of `dummy_header` with an empty tool info: the size 0 and 2048 bytes of
padding. -/
def empty_info_header : WireHeader :=
  { dummy_header with tool_info := [], tool_info_padding := List.replicate 2048 0 }

/-! # Auxiliary facts -/

/-! ## The integer layout -/

theorem le_bytes_length (w n : Nat) : (le_bytes w n).length = w := by
  induction w generalizing n with
  | zero => rfl
  | succ w ih => simp [le_bytes, ih]

theorem le_value_le_bytes (w n : Nat) : le_value (le_bytes w n) = n % 256 ^ w := by
  induction w generalizing n with
  | zero => simp [le_bytes, le_value, Nat.mod_one]
  | succ w ih =>
    simp only [le_bytes, le_value, ih]
    rw [pow_succ, Nat.mul_comm (256 ^ w) 256, Nat.mod_mul]

theorem le_value_lt (bs : List Byte) : le_value bs < 256 ^ bs.length := by
  induction bs with
  | nil => simp [le_value]
  | cons b bs ih =>
    simp only [le_value, List.length_cons, pow_succ]
    have hb := b.isLt
    omega

theorem le_bytes_le_value (bs : List Byte) : le_bytes bs.length (le_value bs) = bs := by
  induction bs with
  | nil => rfl
  | cons b bs ih =>
    have hb := b.isLt
    have h1 : (b.val + 256 * le_value bs) % 256 = b.val := by omega
    have h2 : (b.val + 256 * le_value bs) / 256 = le_value bs := by omega
    simp only [List.length_cons, le_bytes, le_value, h1, h2, ih]

theorem le_value_le_bytes_of_lt (w n : Nat) (h : n < 256 ^ w) : le_value (le_bytes w n) = n := by
  rw [le_value_le_bytes, Nat.mod_eq_of_lt h]

/-! ## The stream operations -/

namespace Stream

@[simp] theorem advance_data (s : Stream) (n : Nat) : (s.advance n).data = s.data := rfl

@[simp] theorem advance_ppos (s : Stream) (n : Nat) : (s.advance n).ppos = s.ppos := rfl

@[simp] theorem advance_gpos (s : Stream) (n : Nat) : (s.advance n).gpos = s.gpos + n := rfl

@[simp] theorem advance_fail (s : Stream) (n : Nat) : (s.advance n).fail = s.fail := rfl

@[simp] theorem advance_remaining (s : Stream) (n : Nat) :
    (s.advance n).remaining = s.remaining.drop n := by
  simp [advance, remaining, Nat.add_comm]

theorem advance_advance (s : Stream) (n m : Nat) :
    (s.advance n).advance m = s.advance (n + m) := by
  simp [advance, Nat.add_assoc]

theorem read_of_fail (s : Stream) (n : Nat) (h : s.fail = true) : s.read n = ([], s) := by
  simp [read, h]

theorem read_fst (s : Stream) (n : Nat) (h : s.fail = false) :
    (s.read n).1 = s.remaining.take n := by
  simp [read, h]

theorem read_fst_length (s : Stream) (n : Nat) (h : s.fail = false) :
    (s.read n).1.length = min n s.remaining.length := by
  simp [read, h]

theorem read_fst_length_le (s : Stream) (n : Nat) : (s.read n).1.length ≤ n := by
  unfold read
  split
  · simp
  · simp

/-- A read that finds enough characters delivers them and moves the get cursor. -/
theorem read_of_le (s : Stream) (n : Nat) (h : s.fail = false) (hn : n ≤ s.remaining.length) :
    s.read n = (s.remaining.take n, s.advance n) := by
  have hmin : min n s.remaining.length = n := Nat.min_eq_left hn
  simp only [read, h, Bool.false_eq_true, if_false, List.length_take, hmin, advance]
  have : decide (n < n) = false := by simp
  rw [this]

/-- A read that does not find enough characters delivers fewer than were asked for. -/
theorem read_of_lt (s : Stream) (n : Nat) (hn : s.remaining.length < n) :
    (s.read n).1.length < n := by
  unfold read
  split
  · simp; omega
  · simp; omega

end Stream

theorem deserialize_string_of_fail (max_size : Nat) (m1 m2 m3 m4 : String) (s : Stream)
    (hs : s.fail = true) :
    deserialize_string max_size m1 m2 m3 m4 s = (.error (.ReadMetadataError m1), s) := by
  simp [deserialize_string, Stream.read_of_fail s 8 hs]

theorem Stream.read_length_ne_iff (s : Stream) (n : Nat) (hs : s.fail = false) :
    (s.read n).1.length ≠ n ↔ s.remaining.length < n := by
  rw [Stream.read_fst_length s n hs]
  omega

theorem Stream.read_check_iff (s : Stream) (n : Nat) (hs : s.fail = false) :
    ((s.read n).1.length ≤ 0 ∨ (s.read n).1.length ≠ n) ↔ (n = 0 ∨ s.remaining.length < n) := by
  rw [Stream.read_fst_length s n hs]
  omega

theorem deserialize_string_of_good (max_size : Nat) (m1 m2 m3 m4 : String) (s : Stream)
    (hs : s.fail = false) :
    (deserialize_string max_size m1 m2 m3 m4 s).1
        = string_outcome max_size m1 m2 m3 m4 s.remaining
      ∧ ∀ str, string_outcome max_size m1 m2 m3 m4 s.remaining = .ok str →
          (deserialize_string max_size m1 m2 m3 m4 s).2 = s.advance (8 + max_size) := by
  unfold deserialize_string string_outcome
  by_cases h8 : s.remaining.length < 8
  · rw [if_pos ((Stream.read_length_ne_iff s 8 hs).2 h8), if_pos h8]
    simp
  · have h8le : 8 ≤ s.remaining.length := by omega
    rw [if_neg (fun h => h8 ((Stream.read_length_ne_iff s 8 hs).1 h)), if_neg h8]
    rw [Stream.read_of_le s 8 hs h8le]
    generalize le_value (s.remaining.take 8) = L
    by_cases hbig : L > max_size
    · rw [if_pos hbig, if_pos hbig]
      simp
    · rw [if_neg hbig, if_neg hbig]
      have hs8 : (s.advance 8).fail = false := hs
      by_cases hc : L = 0 ∨ s.remaining.length < 8 + L
      · have hc1 : L = 0 ∨ (s.advance 8).remaining.length < L := by
          simp only [Stream.advance_remaining, List.length_drop]; omega
        rw [if_pos ((Stream.read_check_iff _ L hs8).2 hc1), if_pos hc]
        simp
      · have hc1 : ¬ (L = 0 ∨ (s.advance 8).remaining.length < L) := by
          simp only [Stream.advance_remaining, List.length_drop]; omega
        rw [if_neg (fun h => hc1 ((Stream.read_check_iff _ L hs8).1 h)), if_neg hc]
        have hle : L ≤ (s.advance 8).remaining.length := by omega
        rw [Stream.read_of_le _ L hs8 hle, Stream.advance_advance]
        have hsL : (s.advance (8 + L)).fail = false := hs
        by_cases hmax : L < max_size
        · rw [if_pos hmax]
          by_cases hpad : s.remaining.length < 8 + max_size
          · have hp1 : max_size - L = 0 ∨ (s.advance (8 + L)).remaining.length < max_size - L := by
              simp only [Stream.advance_remaining, List.length_drop]; omega
            rw [if_pos ((Stream.read_check_iff _ _ hsL).2 hp1), if_pos hpad]
            simp
          · have hp1 : ¬ (max_size - L = 0
                ∨ (s.advance (8 + L)).remaining.length < max_size - L) := by
              simp only [Stream.advance_remaining, List.length_drop]; omega
            rw [if_neg (fun h => hp1 ((Stream.read_check_iff _ _ hsL).1 h)), if_neg hpad]
            have hle2 : max_size - L ≤ (s.advance (8 + L)).remaining.length := by omega
            rw [Stream.read_of_le _ _ hsL hle2, Stream.advance_advance]
            have heq : 8 + L + (max_size - L) = 8 + max_size := by omega
            simp [heq]
        · rw [if_neg hmax]
          have hpad : ¬ s.remaining.length < 8 + max_size := by omega
          have heq : 8 + L = 8 + max_size := by omega
          rw [if_neg hpad, heq]
          simp

theorem deserialize_string_ok (max_size : Nat) (m1 m2 m3 m4 : String) (s : Stream)
    (hs : s.fail = false) (str : List Byte)
    (h : string_outcome max_size m1 m2 m3 m4 s.remaining = .ok str) :
    deserialize_string max_size m1 m2 m3 m4 s = (.ok str, s.advance (8 + max_size)) := by
  have hg := deserialize_string_of_good max_size m1 m2 m3 m4 s hs
  exact Prod.ext (hg.1.trans h) (hg.2 str h)

theorem deserialize_string_error (max_size : Nat) (m1 m2 m3 m4 : String) (s : Stream)
    (hs : s.fail = false) (e : Error)
    (h : string_outcome max_size m1 m2 m3 m4 s.remaining = .error e) :
    ∃ s2, deserialize_string max_size m1 m2 m3 m4 s = (.error e, s2) := by
  have hg := deserialize_string_of_good max_size m1 m2 m3 m4 s hs
  exact ⟨(deserialize_string max_size m1 m2 m3 m4 s).2, Prod.ext (hg.1.trans h) rfl⟩

theorem deserialize_of_fail (v : Nat) (s : Stream) (hs : s.fail = true) :
    Metadata.deserialize v s
      = (.error (.ReadMetadataError "Can't read enough data for the type"), s) := by
  simp [Metadata.deserialize, Stream.read_of_fail s 4 hs]

theorem deserialize_of_good (v : Nat) (s : Stream) (hs : s.fail = false) :
    (Metadata.deserialize v s).1 = decode_outcome v s.remaining
      ∧ ∀ md, decode_outcome v s.remaining = .ok md →
          (Metadata.deserialize v s).2 = s.advance (header_size v) := by
  unfold Metadata.deserialize decode_outcome format_version_outcome tool_name_outcome
    tool_version_outcome tool_info_outcome
  by_cases h4 : s.remaining.length < 4
  · rw [if_pos ((Stream.read_length_ne_iff s 4 hs).2 h4), if_pos h4]
    simp
  · have h4le : 4 ≤ s.remaining.length := by omega
    rw [if_neg (fun h => h4 ((Stream.read_length_ne_iff s 4 hs).1 h)), if_neg h4]
    rw [Stream.read_of_le s 4 hs h4le]
    simp only
    have hs1 : (s.advance 4).fail = false := hs
    rw [← Stream.advance_remaining s 4]
    cases h1 : string_outcome format_version_max_size
        "Can't read enough data for the format version size"
        "Format version size is greater than the maximum value"
        "Can't read enough data for the format version"
        "Can't read enough data for the padding of the format version" (s.advance 4).remaining with
    | error e =>
      obtain ⟨s2, h2⟩ := deserialize_string_error _ _ _ _ _ _ hs1 e h1
      simp [h2]
    | ok format_version =>
      rw [deserialize_string_ok _ _ _ _ _ _ hs1 _ h1]
      simp only
      generalize hsa : (s.advance 4).advance (8 + format_version_max_size) = sa
      have hsaf : sa.fail = false := by rw [← hsa]; exact hs
      have hsar : ((s.advance 4).remaining.drop (8 + format_version_max_size)) = sa.remaining := by
        rw [← hsa]; simp
      rw [hsar]
      cases h2 : string_outcome tool_name_max_size
          "Can't read enough data for the tool name size"
          "Tool name size is greater than the maximum value"
          "Can't read enough data for the tool name"
          "Can't read enough data for the padding of the tool name" sa.remaining with
      | error e =>
        obtain ⟨s2, h3⟩ := deserialize_string_error _ _ _ _ _ _ hsaf e h2
        simp [h3]
      | ok tool_name =>
        rw [deserialize_string_ok _ _ _ _ _ _ hsaf _ h2]
        simp only
        generalize hsb : sa.advance (8 + tool_name_max_size) = sb
        have hsbf : sb.fail = false := by rw [← hsb]; exact hsaf
        have hsbr : (sa.remaining.drop (8 + tool_name_max_size)) = sb.remaining := by
          rw [← hsb]; simp
        rw [hsbr]
        by_cases hv : v ≥ 1
        · rw [if_pos hv, if_pos hv, if_pos hv]
          cases h3 : string_outcome tool_version_max_size
              "Can't read enough data for the tool version size"
              "Tool version size is greater than the maximum value"
              "Can't read enough data for the tool version"
              "Can't read enough data for the padding of the tool version" sb.remaining with
          | error e =>
            obtain ⟨s2, h4⟩ := deserialize_string_error _ _ _ _ _ _ hsbf e h3
            simp [h4]
          | ok tool_version =>
            rw [deserialize_string_ok _ _ _ _ _ _ hsbf _ h3]
            simp only
            generalize hsc : sb.advance (8 + tool_version_max_size) = sc
            have hscf : sc.fail = false := by rw [← hsc]; exact hsbf
            have hscr : (sb.remaining.drop (8 + tool_version_max_size)) = sc.remaining := by
              rw [← hsc]; simp
            rw [hscr]
            cases h4 : string_outcome tool_info_max_size
                "Can't read enough data for the tool info size"
                "Tool info size is greater than the maximum value"
                "Can't read enough data for the tool info"
                "Can't read enough data for the padding of the tool info" sc.remaining with
            | error e =>
              obtain ⟨s2, h5⟩ := deserialize_string_error _ _ _ _ _ _ hscf e h4
              simp [h5]
            | ok tool_info =>
              rw [deserialize_string_ok _ _ _ _ _ _ hscf _ h4]
              simp only
              generalize hsd : sc.advance (8 + tool_info_max_size) = sd
              have hsdf : sd.fail = false := by rw [← hsd]; exact hscf
              have hsdr : (sc.remaining.drop (8 + tool_info_max_size)) = sd.remaining := by
                rw [← hsd]; simp
              rw [hsdr]
              by_cases h8 : sd.remaining.length < 8
              · rw [if_pos ((Stream.read_length_ne_iff sd 8 hsdf).2 h8), if_pos h8]
                simp
              · have h8le : 8 ≤ sd.remaining.length := by omega
                rw [if_neg (fun h => h8 ((Stream.read_length_ne_iff sd 8 hsdf).1 h)), if_neg h8]
                rw [Stream.read_of_le sd 8 hsdf h8le]
                refine ⟨rfl, fun _ _ => ?_⟩
                simp only
                rw [← hsd, ← hsc, ← hsb, ← hsa]
                simp [Stream.advance_advance, header_size, hv, format_version_max_size,
                  tool_name_max_size, tool_version_max_size, tool_info_max_size]
        · rw [if_neg hv, if_neg hv, if_neg hv]
          simp only
          generalize hsc : sb = sc
          have hscf : sc.fail = false := by rw [← hsc]; exact hsbf
          cases h4 : string_outcome tool_info_max_size
              "Can't read enough data for the tool info size"
              "Tool info size is greater than the maximum value"
              "Can't read enough data for the tool info"
              "Can't read enough data for the padding of the tool info" sc.remaining with
          | error e =>
            obtain ⟨s2, h5⟩ := deserialize_string_error _ _ _ _ _ _ hscf e h4
            simp [h5]
          | ok tool_info =>
            rw [deserialize_string_ok _ _ _ _ _ _ hscf _ h4]
            simp only
            generalize hsd : sc.advance (8 + tool_info_max_size) = sd
            have hsdf : sd.fail = false := by rw [← hsd]; exact hscf
            have hsdr : (sc.remaining.drop (8 + tool_info_max_size)) = sd.remaining := by
              rw [← hsd]; simp
            rw [hsdr]
            by_cases h8 : sd.remaining.length < 8
            · rw [if_pos ((Stream.read_length_ne_iff sd 8 hsdf).2 h8), if_pos h8]
              simp
            · have h8le : 8 ≤ sd.remaining.length := by omega
              rw [if_neg (fun h => h8 ((Stream.read_length_ne_iff sd 8 hsdf).1 h)), if_neg h8]
              rw [Stream.read_of_le sd 8 hsdf h8le]
              refine ⟨rfl, fun _ _ => ?_⟩
              simp only
              rw [← hsd, ← hsc, ← hsb, ← hsa]
              simp [Stream.advance_advance, header_size, hv, format_version_max_size,
                tool_name_max_size, tool_version_max_size, tool_info_max_size]

/-! ## Acceptance conditions of the decoder -/

theorem string_outcome_ok_iff (max_size : Nat) (m1 m2 m3 m4 : String) (r str : List Byte) :
    string_outcome max_size m1 m2 m3 m4 r = .ok str ↔
      8 + max_size ≤ r.length ∧ 1 ≤ le_value (r.take 8) ∧ le_value (r.take 8) ≤ max_size
        ∧ str = (r.drop 8).take (le_value (r.take 8)) := by
  unfold string_outcome
  constructor
  · intro h
    split at h
    · simp at h
    · split at h
      · simp at h
      · split at h
        · simp at h
        · split at h
          · simp at h
          · simp only [Except.ok.injEq] at h
            refine ⟨by omega, by omega, by omega, h.symm⟩
  · rintro ⟨h1, h2, h3, h4⟩
    rw [if_neg (by omega), if_neg (by omega), if_neg (by omega), if_neg (by omega), h4]

theorem string_outcome_error_kind (max_size : Nat) (m1 m2 m3 m4 : String) (r : List Byte)
    (e : Error) (h : string_outcome max_size m1 m2 m3 m4 r = .error e) :
    ∃ msg, e = .ReadMetadataError msg := by
  unfold string_outcome at h
  split at h
  · exact ⟨m1, by simpa using h.symm⟩
  · split at h
    · exact ⟨m2, by simpa using h.symm⟩
    · split at h
      · exact ⟨m3, by simpa using h.symm⟩
      · split at h
        · exact ⟨m4, by simpa using h.symm⟩
        · simp at h

theorem decode_outcome_ok_iff (v : Nat) (r : List Byte) (md : Metadata) :
    decode_outcome v r = .ok md ↔
      header_size v ≤ r.length
      ∧ md.type_ = to_u32 (le_value (r.take 4))
      ∧ format_version_outcome (r.drop 4) = .ok md.format_version_
      ∧ tool_name_outcome (r.drop 524) = .ok md.tool_name_
      ∧ (if v ≥ 1 then tool_version_outcome (r.drop 1044) else .ok (chars "1.0.0-prerelease"))
          = .ok md.tool_version_
      ∧ tool_info_outcome (r.drop (header_size v - 2064)) = .ok md.tool_info_
      ∧ md.generation_date_ = to_u64 (le_value ((r.drop (header_size v - 8)).take 8)) := by
  have hsz : header_size v = 3628 ∨ header_size v = 3108 := by
    unfold header_size; split <;> simp
  unfold decode_outcome
  by_cases h4 : r.length < 4
  · rw [if_pos h4]
    constructor
    · intro h; simp at h
    · rintro ⟨h, -⟩; omega
  · rw [if_neg h4]
    simp only [List.drop_drop, format_version_max_size, tool_name_max_size,
      tool_version_max_size, tool_info_max_size, Nat.reduceAdd]
    cases h1 : format_version_outcome (r.drop 4) with
    | error e => simp
    | ok fv =>
      cases h2 : tool_name_outcome (r.drop 524) with
      | error e => simp
      | ok tn =>
        have l1 := ((string_outcome_ok_iff _ _ _ _ _ _ _).1 h1).1
        have l2 := ((string_outcome_ok_iff _ _ _ _ _ _ _).1 h2).1
        simp only [List.length_drop, format_version_max_size, tool_name_max_size] at l1 l2
        by_cases hv : v ≥ 1
        · have hh : header_size v = 3628 := by simp [header_size, hv]
          simp only [if_pos hv, hh, List.drop_drop, Nat.reduceAdd, Nat.reduceSub]
          cases h3 : tool_version_outcome (r.drop 1044) with
          | error e => simp
          | ok tv =>
            cases h4 : tool_info_outcome (r.drop 1564) with
            | error e => simp
            | ok ti =>
              simp only [List.length_drop]
              by_cases h8 : r.length - 3620 < 8
              · rw [if_pos h8]
                constructor
                · intro h; simp at h
                · rintro ⟨h, -⟩; omega
              · rw [if_neg h8]
                cases md
                simp only [Except.ok.injEq, Metadata.mk.injEq]
                constructor
                · rintro ⟨rfl, rfl, rfl, rfl, rfl, rfl⟩
                  exact ⟨by omega, rfl, rfl, rfl, rfl, rfl, rfl⟩
                · rintro ⟨-, rfl, rfl, rfl, rfl, rfl, rfl⟩
                  exact ⟨rfl, rfl, rfl, rfl, rfl, rfl⟩
        · have hh : header_size v = 3108 := by simp [header_size, hv]
          simp only [if_neg hv, hh, List.drop_drop, Nat.reduceAdd, Nat.reduceSub]
          cases h4 : tool_info_outcome (r.drop 1044) with
          | error e => simp
          | ok ti =>
            simp only [List.length_drop]
            by_cases h8 : r.length - 3100 < 8
            · rw [if_pos h8]
              constructor
              · intro h; simp at h
              · rintro ⟨h, -⟩; omega
            · rw [if_neg h8]
              cases md
              simp only [Except.ok.injEq, Metadata.mk.injEq]
              constructor
              · rintro ⟨rfl, rfl, rfl, rfl, rfl, rfl⟩
                exact ⟨by omega, rfl, rfl, rfl, rfl, rfl, rfl⟩
              · rintro ⟨-, rfl, rfl, rfl, rfl, rfl, rfl⟩
                exact ⟨rfl, rfl, rfl, rfl, rfl, rfl⟩

theorem decode_outcome_ok_length_aux (v : Nat) (r : List Byte) (md : Metadata)
    (h : decode_outcome v r = .ok md) : header_size v ≤ r.length :=
  ((decode_outcome_ok_iff v r md).1 h).1

theorem decode_outcome_error_kind (v : Nat) (r : List Byte) (e : Error) :
    decode_outcome v r = .error e → ∃ msg, e = .ReadMetadataError msg := by
  unfold decode_outcome
  by_cases h4 : r.length < 4
  · rw [if_pos h4]
    intro h
    exact ⟨_, by simpa using h.symm⟩
  · rw [if_neg h4]
    simp only
    cases h1 : format_version_outcome (r.drop 4) with
    | error e1 =>
      intro h
      simp only [Except.error.injEq] at h
      exact h ▸ string_outcome_error_kind _ _ _ _ _ _ _ h1
    | ok fv =>
      simp only
      cases h2 : tool_name_outcome ((r.drop 4).drop (8 + format_version_max_size)) with
      | error e1 =>
        intro h
        simp only [Except.error.injEq] at h
        exact h ▸ string_outcome_error_kind _ _ _ _ _ _ _ h2
      | ok tn =>
        simp only
        by_cases hv : v ≥ 1
        · simp only [if_pos hv]
          cases h3 : tool_version_outcome
              (((r.drop 4).drop (8 + format_version_max_size)).drop (8 + tool_name_max_size)) with
          | error e1 =>
            intro h
            simp only [Except.error.injEq] at h
            exact h ▸ string_outcome_error_kind _ _ _ _ _ _ _ h3
          | ok tv =>
            simp only
            cases h5 : tool_info_outcome
                ((((r.drop 4).drop (8 + format_version_max_size)).drop
                  (8 + tool_name_max_size)).drop (8 + tool_version_max_size)) with
            | error e1 =>
              intro h
              simp only [Except.error.injEq] at h
              exact h ▸ string_outcome_error_kind _ _ _ _ _ _ _ h5
            | ok ti =>
              simp only
              split
              · intro h
                exact ⟨_, by simpa using h.symm⟩
              · intro h
                simp at h
        · simp only [if_neg hv]
          cases h5 : tool_info_outcome
              (((r.drop 4).drop (8 + format_version_max_size)).drop (8 + tool_name_max_size)) with
          | error e1 =>
            intro h
            simp only [Except.error.injEq] at h
            exact h ▸ string_outcome_error_kind _ _ _ _ _ _ _ h5
          | ok ti =>
            simp only
            split
            · intro h
              exact ⟨_, by simpa using h.symm⟩
            · intro h
              simp at h

/-! ## The decoder on streams -/

theorem deserialize_error_kind (v : Nat) (s : Stream) (e : Error)
    (h : (Metadata.deserialize v s).1 = .error e) : ∃ msg, e = .ReadMetadataError msg := by
  cases hs : s.fail with
  | true =>
    rw [deserialize_of_fail v s hs] at h
    exact ⟨_, by simpa using h.symm⟩
  | false =>
    rw [(deserialize_of_good v s hs).1] at h
    exact decode_outcome_error_kind v _ e h

theorem deserialize_ok_iff (v : Nat) (s : Stream) (md : Metadata) :
    (Metadata.deserialize v s).1 = .ok md ↔
      s.fail = false ∧ decode_outcome v s.remaining = .ok md := by
  cases hs : s.fail with
  | true => simp [deserialize_of_fail v s hs]
  | false => simp [(deserialize_of_good v s hs).1]

theorem deserialize_eq_of_ok (v : Nat) (s : Stream) (md : Metadata) (hs : s.fail = false)
    (h : decode_outcome v s.remaining = .ok md) :
    Metadata.deserialize v s = (.ok md, s.advance (header_size v)) :=
  Prod.ext ((deserialize_of_good v s hs).1.trans h) ((deserialize_of_good v s hs).2 md h)

theorem deserialize_eq_of_error (v : Nat) (s : Stream) (e : Error) (hs : s.fail = false)
    (h : decode_outcome v s.remaining = .error e) :
    ∃ s2, Metadata.deserialize v s = (.error e, s2) :=
  ⟨(Metadata.deserialize v s).2, Prod.ext ((deserialize_of_good v s hs).1.trans h) rfl⟩

/-- A stream with fewer characters left than a header holds is never decoded. -/
theorem deserialize_short (v : Nat) (s : Stream) (h : s.remaining.length < header_size v) :
    ∃ msg, (Metadata.deserialize v s).1 = .error (.ReadMetadataError msg) := by
  cases hr : (Metadata.deserialize v s).1 with
  | error e =>
    obtain ⟨msg, hmsg⟩ := deserialize_error_kind v s e hr
    exact ⟨msg, by rw [hmsg]⟩
  | ok md =>
    have := decode_outcome_ok_length_aux v s.remaining md ((deserialize_ok_iff v s md).1 hr).2
    omega

/-! ## The encoder -/

theorem Stream.write_of_fail (s : Stream) (bytes : List Byte) (h : s.fail = true) :
    s.write bytes = s := by
  simp [Stream.write, h]

@[simp] theorem Stream.write_fail (s : Stream) (bytes : List Byte) :
    (s.write bytes).fail = s.fail := by
  unfold Stream.write; split <;> simp_all

@[simp] theorem Stream.write_gpos (s : Stream) (bytes : List Byte) :
    (s.write bytes).gpos = s.gpos := by
  unfold Stream.write; split <;> simp_all

theorem Stream.write_ppos (s : Stream) (bytes : List Byte) (h : s.fail = false) :
    (s.write bytes).ppos = s.ppos + bytes.length := by
  simp [Stream.write, h]

theorem Stream.write_data (s : Stream) (bytes : List Byte) (h : s.fail = false) :
    (s.write bytes).data = s.data.take s.ppos ++ List.replicate (s.ppos - s.data.length) 0
      ++ bytes ++ s.data.drop (s.ppos + bytes.length) := by
  simp [Stream.write, h]

theorem List.drop_append_of_length_eq {α : Type} (x y : List α) (n k : Nat)
    (h : x.length = n) : (x ++ y).drop (n + k) = y.drop k := by
  subst h
  exact List.drop_append k

theorem write_data_aux (d a b x : List Byte) (p : Nat) (hx : x.length = p) :
    (x ++ a ++ d.drop (p + a.length)).take (p + a.length)
        ++ List.replicate (p + a.length - (x ++ a ++ d.drop (p + a.length)).length) 0
        ++ b ++ (x ++ a ++ d.drop (p + a.length)).drop (p + a.length + b.length)
      = x ++ (a ++ b) ++ d.drop (p + (a ++ b).length) := by
  have hl : (x ++ a).length = p + a.length := by simp [hx]
  have h1 : (x ++ a ++ d.drop (p + a.length)).take (p + a.length) = x ++ a :=
    List.take_left' hl
  have h2 : p + a.length - (x ++ a ++ d.drop (p + a.length)).length = 0 := by
    rw [List.length_append, hl]; omega
  have h3 : (x ++ a ++ d.drop (p + a.length)).drop (p + a.length + b.length)
      = d.drop (p + (a ++ b).length) := by
    rw [List.drop_append_of_length_eq _ _ _ _ hl, List.drop_drop, List.length_append]
    congr 1
    omega
  rw [h1, h2, h3]
  simp

/-- Two writes in a row are one write of the two buffers. -/
theorem Stream.write_write (s : Stream) (a b : List Byte) :
    (s.write a).write b = s.write (a ++ b) := by
  cases hs : s.fail with
  | true => simp [Stream.write_of_fail, hs]
  | false =>
    have hxl : (s.data.take s.ppos ++ List.replicate (s.ppos - s.data.length) (0 : Byte)).length
        = s.ppos := by
      simp only [List.length_append, List.length_take, List.length_replicate]; omega
    have hd := write_data_aux s.data a b _ s.ppos hxl
    simp only [Stream.write, hs, Bool.false_eq_true, if_false, Stream.mk.injEq, and_true,
      true_and]
    refine ⟨hd, ?_⟩
    rw [List.length_append]
    omega

theorem Stream.write_pad (s : Stream) (a : List Byte) (n m : Nat) :
    (if n < m then s.write (a ++ List.replicate (m - n) 0) else s.write a)
      = s.write (a ++ List.replicate (m - n) 0) := by
  split
  · rfl
  · have : m - n = 0 := by omega
    simp [this]

/-- The encoder writes the header bytes with one cursor movement. -/
theorem serialize_eq_write (md : Metadata) (out : Stream) :
    md.serialize out = out.write md.wire := by
  unfold Metadata.serialize Metadata.wire field_bytes
  simp only [Stream.write_write, Stream.write_pad]
  simp only [List.append_assoc]

theorem field_bytes_length (str padding : List Byte) :
    (field_bytes str padding).length = 8 + str.length + padding.length := by
  simp [field_bytes, le_bytes_length]; omega

theorem wire_length (md : Metadata) (h : md.valid) : md.wire.length = 3628 := by
  obtain ⟨h1, h2, h3, h4⟩ := h
  simp only [format_version_max_size, tool_name_max_size, tool_version_max_size,
    tool_info_max_size] at h1 h2 h3 h4
  simp only [Metadata.wire, List.length_append, field_bytes_length, le_bytes_length,
    List.length_replicate, format_version_max_size, tool_name_max_size, tool_version_max_size,
    tool_info_max_size]
  omega

theorem take_size_bytes (n : Nat) (rest : List Byte) :
    (le_bytes 8 n ++ rest).take 8 = le_bytes 8 n :=
  List.take_left' (le_bytes_length 8 n)

theorem drop_size_bytes (n : Nat) (rest : List Byte) :
    (le_bytes 8 n ++ rest).drop 8 = rest :=
  List.drop_left' (le_bytes_length 8 n)

theorem string_outcome_field (max_size : Nat) (m1 m2 m3 m4 : String) (str padding rest : List Byte)
    (h : field_ok max_size str padding) (hmax : max_size < 2 ^ 64) :
    string_outcome max_size m1 m2 m3 m4 (field_bytes str padding ++ rest) = .ok str := by
  obtain ⟨h1, h2, h3⟩ := h
  have hv : le_value (le_bytes 8 str.length) = str.length :=
    le_value_le_bytes_of_lt 8 _ (by norm_num; omega)
  rw [string_outcome_ok_iff]
  simp only [field_bytes, List.append_assoc, take_size_bytes, drop_size_bytes, hv,
    List.length_append, le_bytes_length]
  refine ⟨by omega, h1, h2, ?_⟩
  rw [List.take_left' rfl]

theorem drop_field (max_size : Nat) (str padding rest : List Byte)
    (h : field_ok max_size str padding) :
    (field_bytes str padding ++ rest).drop (8 + max_size) = rest := by
  obtain ⟨h1, h2, h3⟩ := h
  apply List.drop_left'
  rw [field_bytes_length]
  omega

theorem string_outcome_empty (max_size : Nat) (m1 m2 m3 m4 : String) (rest : List Byte) :
    string_outcome max_size m1 m2 m3 m4 (le_bytes 8 0 ++ rest)
      = .error (.ReadMetadataError m3) := by
  have hv : le_value (le_bytes 8 0) = 0 := le_value_le_bytes_of_lt 8 _ (by norm_num)
  unfold string_outcome
  rw [take_size_bytes, hv, if_neg (by simp [le_bytes_length]), if_neg (by omega),
    if_pos (Or.inl rfl)]

theorem string_outcome_oversize (max_size : Nat) (m1 m2 m3 m4 : String) (n : Nat)
    (rest : List Byte) (h : max_size < n) (hn : n < 2 ^ 64) :
    string_outcome max_size m1 m2 m3 m4 (le_bytes 8 n ++ rest)
      = .error (.ReadMetadataError m2) := by
  have hv : le_value (le_bytes 8 n) = n := le_value_le_bytes_of_lt 8 _ (by norm_num; omega)
  unfold string_outcome
  rw [take_size_bytes, hv, if_neg (by simp [le_bytes_length]), if_pos h]

/-- The decoder on the bytes of a header of version 1 or later, followed by anything. -/
theorem decode_outcome_layout (v : Nat) (hv : v ≥ 1)
    (t fv p1 tn p2 tv p3 ti p4 d rest : List Byte) (ht : t.length = 4)
    (h1 : field_ok format_version_max_size fv p1) (h2 : field_ok tool_name_max_size tn p2)
    (h3 : field_ok tool_version_max_size tv p3) (h4 : field_ok tool_info_max_size ti p4)
    (hd : d.length = 8) :
    decode_outcome v (t ++ (field_bytes fv p1 ++ (field_bytes tn p2 ++ (field_bytes tv p3
        ++ (field_bytes ti p4 ++ (d ++ rest))))))
      = .ok { type_ := to_u32 (le_value t), format_version_ := fv, tool_name_ := tn,
              tool_version_ := tv, tool_info_ := ti, generation_date_ := to_u64 (le_value d) } := by
  unfold decode_outcome
  rw [if_neg (by simp [ht])]
  simp only [if_pos hv, List.drop_left' ht, List.take_left' ht]
  unfold format_version_outcome
  rw [string_outcome_field _ _ _ _ _ _ _ _ h1 (by decide)]
  simp only [drop_field _ _ _ _ h1]
  unfold tool_name_outcome
  rw [string_outcome_field _ _ _ _ _ _ _ _ h2 (by decide)]
  simp only [drop_field _ _ _ _ h2]
  unfold tool_version_outcome
  rw [string_outcome_field _ _ _ _ _ _ _ _ h3 (by decide)]
  simp only [drop_field _ _ _ _ h3]
  unfold tool_info_outcome
  rw [string_outcome_field _ _ _ _ _ _ _ _ h4 (by decide)]
  simp only [drop_field _ _ _ _ h4]
  rw [if_neg (by simp [hd]), List.take_left' hd]

/-- The decoder on the bytes of a header of version 0, followed by anything. -/
theorem decode_outcome_layout_v0 (t fv p1 tn p2 ti p4 d rest : List Byte) (ht : t.length = 4)
    (h1 : field_ok format_version_max_size fv p1) (h2 : field_ok tool_name_max_size tn p2)
    (h4 : field_ok tool_info_max_size ti p4) (hd : d.length = 8) :
    decode_outcome 0 (t ++ (field_bytes fv p1 ++ (field_bytes tn p2
        ++ (field_bytes ti p4 ++ (d ++ rest)))))
      = .ok { type_ := to_u32 (le_value t), format_version_ := fv, tool_name_ := tn,
              tool_version_ := chars "1.0.0-prerelease", tool_info_ := ti,
              generation_date_ := to_u64 (le_value d) } := by
  unfold decode_outcome
  rw [if_neg (by simp [ht])]
  have hv : ¬ (0 ≥ 1) := by decide
  simp only [if_neg hv, List.drop_left' ht, List.take_left' ht]
  unfold format_version_outcome
  rw [string_outcome_field _ _ _ _ _ _ _ _ h1 (by decide)]
  simp only [drop_field _ _ _ _ h1]
  unfold tool_name_outcome
  rw [string_outcome_field _ _ _ _ _ _ _ _ h2 (by decide)]
  simp only [drop_field _ _ _ _ h2]
  unfold tool_info_outcome
  rw [string_outcome_field _ _ _ _ _ _ _ _ h4 (by decide)]
  simp only [drop_field _ _ _ _ h4]
  rw [if_neg (by simp [hd]), List.take_left' hd]

theorem to_u32_le_value (x : U32) : to_u32 (le_value (le_bytes 4 x.val)) = x := by
  have hx := x.isLt
  rw [le_value_le_bytes_of_lt 4 _ (by norm_num at hx ⊢; omega)]
  apply Fin.ext
  simp only [to_u32]
  exact Nat.mod_eq_of_lt hx

theorem to_u64_le_value (x : U64) : to_u64 (le_value (le_bytes 8 x.val)) = x := by
  have hx := x.isLt
  rw [le_value_le_bytes_of_lt 8 _ (by norm_num at hx ⊢; omega)]
  apply Fin.ext
  simp only [to_u64]
  exact Nat.mod_eq_of_lt hx

/-- The decoder reads back the header bytes of a `Metadata` whose strings are not empty. -/
theorem decode_outcome_wire (v : Nat) (hv : v ≥ 1) (md : Metadata) (h : md.valid)
    (hne : md.nonempty) (rest : List Byte) :
    decode_outcome v (md.wire ++ rest) = .ok md := by
  obtain ⟨a1, a2, a3, a4⟩ := h
  obtain ⟨b1, b2, b3, b4⟩ := hne
  simp only [Metadata.wire, List.append_assoc]
  rw [decode_outcome_layout v hv _ _ _ _ _ _ _ _ _ _ rest (le_bytes_length 4 _)
    ⟨b1, a1, by simp⟩ ⟨b2, a2, by simp⟩ ⟨b3, a3, by simp⟩ ⟨b4, a4, by simp⟩
    (le_bytes_length 8 _)]
  rw [to_u32_le_value, to_u64_le_value]

/-- The decoder rejects the header bytes of a `Metadata` whose format version is empty. -/
theorem decode_outcome_wire_empty (v : Nat) (md : Metadata) (h : md.format_version_ = [])
    (rest : List Byte) :
    decode_outcome v (md.wire ++ rest)
      = .error (.ReadMetadataError "Can't read enough data for the format version") := by
  simp only [Metadata.wire, field_bytes, h, List.length_nil, List.append_assoc, List.nil_append]
  unfold decode_outcome
  rw [if_neg (by simp [le_bytes_length])]
  simp only [List.drop_left' (le_bytes_length 4 _)]
  unfold format_version_outcome
  rw [string_outcome_empty]

theorem MetadataWriter.write_ok_iff (type : U32) (fv tn tv ti : List Byte) (gd : U64)
    (md : Metadata) :
    MetadataWriter.write type fv tn tv ti gd = .ok md ↔
      (fv.length ≤ format_version_max_size ∧ tn.length ≤ tool_name_max_size
        ∧ tv.length ≤ tool_version_max_size ∧ ti.length ≤ tool_info_max_size)
      ∧ md = { type_ := type, format_version_ := fv, tool_name_ := tn, tool_version_ := tv,
               tool_info_ := ti, generation_date_ := gd } := by
  unfold MetadataWriter.write
  constructor
  · intro h
    split at h
    · simp at h
    · split at h
      · simp at h
      · split at h
        · simp at h
        · split at h
          · simp at h
          · simp only [Except.ok.injEq] at h
            exact ⟨⟨by omega, by omega, by omega, by omega⟩, h.symm⟩
  · rintro ⟨⟨h1, h2, h3, h4⟩, rfl⟩
    rw [if_neg (by omega), if_neg (by omega), if_neg (by omega), if_neg (by omega)]

theorem MetadataWriter.write_valid (type : U32) (fv tn tv ti : List Byte) (gd : U64)
    (md : Metadata) (h : MetadataWriter.write type fv tn tv ti gd = .ok md) : md.valid := by
  obtain ⟨hs, rfl⟩ := (MetadataWriter.write_ok_iff _ _ _ _ _ _ _).1 h
  exact hs

/-! ## Cursor movements -/

theorem Stream.seekp_of_fail (s : Stream) (pos : Int) (h : s.fail = true) : s.seekp pos = s := by
  simp [Stream.seekp, h]

theorem Stream.seekp_of_le (s : Stream) (pos : Nat) (hs : s.fail = false)
    (h : pos ≤ s.data.length) : s.seekp pos = { s with ppos := pos } := by
  have h2 : (0 : Int) ≤ pos ∧ (pos : Int) ≤ s.data.length := ⟨by omega, by omega⟩
  simp only [Stream.seekp, hs, Bool.false_eq_true, if_false, if_pos h2, Int.toNat_ofNat]

theorem Stream.seekp_of_gt (s : Stream) (pos : Nat) (hs : s.fail = false)
    (h : s.data.length < pos) : s.seekp pos = { s with fail := true } := by
  have h2 : ¬ ((0 : Int) ≤ pos ∧ (pos : Int) ≤ s.data.length) := by omega
  simp only [Stream.seekp, hs, Bool.false_eq_true, if_false, if_neg h2]

theorem Stream.seekg_of_fail (s : Stream) (pos : Int) (h : s.fail = true) : s.seekg pos = s := by
  simp [Stream.seekg, h]

theorem Stream.seekg_of_le (s : Stream) (pos : Nat) (hs : s.fail = false)
    (h : pos ≤ s.data.length) : s.seekg pos = { s with gpos := pos } := by
  have h2 : (0 : Int) ≤ pos ∧ (pos : Int) ≤ s.data.length := ⟨by omega, by omega⟩
  simp only [Stream.seekg, hs, Bool.false_eq_true, if_false, if_pos h2, Int.toNat_ofNat]

theorem Stream.seekp_zero (s : Stream) (hs : s.fail = false) :
    s.seekp 0 = { s with ppos := 0 } := by
  simpa using Stream.seekp_of_le s 0 hs (Nat.zero_le _)

theorem Stream.seekg_zero (s : Stream) (hs : s.fail = false) :
    s.seekg 0 = { s with gpos := 0 } := by
  simpa using Stream.seekg_of_le s 0 hs (Nat.zero_le _)

theorem Stream.tellp_of_good (s : Stream) (hs : s.fail = false) : s.tellp = s.ppos := by
  simp [Stream.tellp, hs]

theorem Stream.tellg_of_good (s : Stream) (hs : s.fail = false) : s.tellg = s.gpos := by
  simp [Stream.tellg, hs]

theorem to_size_t_of_lt (n : Nat) (h : n < 2 ^ 64) : to_size_t (n : Int) = n := by
  unfold to_size_t
  have : ((n : Int) % (2 ^ 64 : Int)) = (n : Int) := by
    apply Int.emod_eq_of_lt <;> omega
  rw [this, Int.toNat_ofNat]

theorem resource_header_length (md : Metadata) (h : md.valid) :
    (resource_header md).length = 3640 := by
  simp [resource_header, le_bytes_length, wire_length md h]

/-- The writer that `Writer::create` returns on a good stream. -/
theorem Writer.create_of_good (s : Stream) (md : Metadata) (hs : s.fail = false)
    (hmd : md.valid) :
    Writer.create s md
      = .ok { stream_ := { s with data := resource_header md ++ s.data.drop 3640, ppos := 3640 },
              md_size_ := 3640 } := by
  have hl := resource_header_length md hmd
  obtain ⟨d, g, p, f⟩ := s
  simp only at hs
  subst hs
  unfold Writer.create Writer.write_metadata
  rw [Stream.seekp_zero _ rfl]
  simp only [serialize_eq_write, Stream.write_write, Bool.false_eq_true, if_false]
  have hw : ({ data := d, gpos := g, ppos := 0, fail := false } : Stream).write
      (le_bytes 8 magic ++ le_bytes 4 metadata_version ++ md.wire)
        = { data := resource_header md ++ d.drop 3640, gpos := g, ppos := 3640, fail := false } := by
    simp only [Stream.write, Bool.false_eq_true, if_false, List.take_zero, Nat.zero_sub,
      List.replicate_zero, List.nil_append, Nat.zero_add, List.append_assoc]
    simp only [resource_header] at hl ⊢
    simp only [List.append_assoc] at hl ⊢
    rw [hl]
  rw [hw]
  simp only [Stream.tellp, Bool.false_eq_true, if_false]
  rw [to_size_t_of_lt 3640 (by decide)]

/-! ## Opening a resource that starts with the current magic -/

theorem le_value_magic : le_value (le_bytes 8 magic) = magic := rfl

theorem magic_ne_legacy : magic ≠ legacy_magic := by decide

/-- The negotiation of `Reader::open` and `Writer::open` on a good stream positioned at 0
that starts with the current magic and a version field: both are read, and the get
cursor is left behind them. -/
theorem read_magic_version (d : List Byte) (p : Nat) (v : Nat) (hv : v < 2 ^ 32)
    (body : List Byte) (hd : d = le_bytes 8 magic ++ (le_bytes 4 v ++ body)) :
    let s : Stream := { data := d, gpos := 0, ppos := p, fail := false }
    le_value (s.read 8).1 = magic
      ∧ ((s.read 8).2.read 4).1.length = 4
      ∧ le_value ((s.read 8).2.read 4).1 = v
      ∧ ((s.read 8).2.read 4).2 = { data := d, gpos := 12, ppos := p, fail := false }
      ∧ ({ data := d, gpos := 12, ppos := p, fail := false } : Stream).remaining = body := by
  intro s
  have hr : s.remaining = le_bytes 8 magic ++ (le_bytes 4 v ++ body) := by
    simp [s, Stream.remaining, hd]
  have h8 : 8 ≤ s.remaining.length := by simp [hr, le_bytes_length]
  have hr8 : (s.advance 8).remaining = le_bytes 4 v ++ body := by
    rw [Stream.advance_remaining, hr]
    exact List.drop_left' (le_bytes_length 8 _)
  have h4 : 4 ≤ (s.advance 8).remaining.length := by simp [hr8, le_bytes_length]
  rw [Stream.read_of_le s 8 rfl h8]
  simp only
  rw [Stream.read_of_le (s.advance 8) 4 rfl h4, hr, hr8]
  simp only [List.take_left' (le_bytes_length 8 magic), List.take_left' (le_bytes_length 4 v),
    le_bytes_length, le_value_magic, true_and]
  refine ⟨le_value_le_bytes_of_lt 4 v (by norm_num at hv ⊢; omega), rfl, ?_⟩
  have : ({ data := d, gpos := 12, ppos := p, fail := false } : Stream) = (s.advance 8).advance 4 :=
    rfl
  rw [this, Stream.advance_remaining, hr8]
  exact List.drop_left' (le_bytes_length 4 _)

/-- The function `Reader::open` on a good stream that starts with the current magic and a
version field not above the current version. -/
theorem Reader.open_of_current_magic (s : Stream) (hs : s.fail = false) (v : Nat)
    (hv : v ≤ metadata_version) (body : List Byte)
    (hd : s.data = le_bytes 8 magic ++ (le_bytes 4 v ++ body)) :
    Reader.open s = match decode_outcome v body with
      | .ok md => .ok { stream_ := { s with gpos := 12 + header_size v }, md_ := md,
                        md_size_ := 12 + header_size v }
      | .error e => .error (.ReaderError ("While reading metadata: " ++ e.what)) := by
  obtain ⟨d, g, p, f⟩ := s
  simp only at hs hd
  subst hs
  have hv32 : v < 2 ^ 32 := by unfold metadata_version at hv; omega
  obtain ⟨e1, e2, e3, e4, e5⟩ := read_magic_version d p v hv32 body hd
  unfold Reader.open
  rw [Stream.seekg_zero _ rfl]
  simp only [Bool.false_eq_true, if_false, e1, if_true, e2, ne_eq, not_true_eq_false, e3,
    if_neg (Nat.not_lt.2 hv), e4]
  unfold Reader.read_metadata
  cases hdec : decode_outcome v body with
  | error e =>
    obtain ⟨s2, h2⟩ := deserialize_eq_of_error v
      { data := d, gpos := 12, ppos := p, fail := false } e rfl (e5 ▸ hdec)
    simp only [h2]
  | ok md =>
    rw [deserialize_eq_of_ok v { data := d, gpos := 12, ppos := p, fail := false } md rfl
      (e5 ▸ hdec)]
    have hsz : header_size v < 2 ^ 63 := by
      unfold header_size; split <;> decide
    simp only [Stream.tellg, Stream.advance, Bool.false_eq_true, if_false]
    rw [to_size_t_of_lt _ (by omega)]

/-- The function `Writer::open` on a good stream that starts with the current magic and
the current version. -/
theorem Writer.reopen_of_current_magic (s : Stream) (hs : s.fail = false) (body : List Byte)
    (hd : s.data = le_bytes 8 magic ++ (le_bytes 4 metadata_version ++ body)) :
    Writer.open s = match decode_outcome metadata_version body with
      | .ok _ => .ok { stream_ := { s with gpos := 3640, ppos := 3640 }, md_size_ := 3640 }
      | .error e => .error (.WriterError ("While reading metadata: " ++ e.what)) := by
  obtain ⟨d, g, p, f⟩ := s
  simp only at hs hd
  subst hs
  obtain ⟨e1, e2, e3, e4, e5⟩ := read_magic_version d p metadata_version (by decide) body hd
  unfold Writer.open
  simp only [Bool.false_eq_true, if_false]
  rw [Stream.seekg_zero _ rfl]
  simp only [e1, if_true, e2, ne_eq, not_true_eq_false, if_false, e3, e4]
  cases hdec : decode_outcome metadata_version body with
  | error e =>
    obtain ⟨s2, h2⟩ := deserialize_eq_of_error metadata_version
      { data := d, gpos := 12, ppos := p, fail := false } e rfl (e5 ▸ hdec)
    simp only [h2]
  | ok md =>
    rw [deserialize_eq_of_ok metadata_version { data := d, gpos := 12, ppos := p, fail := false }
      md rfl (e5 ▸ hdec)]
    have hlen := decode_outcome_ok_length_aux _ _ _ hdec
    have hdl : d.length = 12 + body.length := by
      rw [hd]; simp [le_bytes_length]; omega
    have hh : header_size metadata_version = 3628 := rfl
    simp only [Stream.tellg, Stream.advance, Bool.false_eq_true, if_false, hh]
    rw [to_size_t_of_lt _ (by omega)]
    rw [Stream.seekp_zero _ rfl]
    rw [Stream.seekp_of_le _ (12 + 3628) rfl (by simp only; omega)]

theorem Stream.read_snd_fail_of_lt (s : Stream) (n : Nat) (h : s.remaining.length < n) :
    (s.read n).2.fail = true := by
  unfold Stream.read
  split
  · assumption
  · simp only [List.length_take, decide_eq_true_eq]
    omega

/-- What a successful `Writer::open` has found and what it returns. -/
theorem Writer.open_ok (s : Stream) (w : Writer) (h : Writer.open s = .ok w) :
    s.fail = false ∧ 3640 ≤ s.data.length
      ∧ s.data.take 8 = le_bytes 8 magic
      ∧ (s.data.drop 8).take 4 = le_bytes 4 metadata_version
      ∧ (∃ md, decode_outcome metadata_version (s.data.drop 12) = .ok md)
      ∧ w = { stream_ := { s with gpos := 3640, ppos := 3640 }, md_size_ := 3640 } := by
  obtain ⟨d, g, p, f⟩ := s
  unfold Writer.open at h
  cases f with
  | true => simp at h
  | false =>
    simp only [Bool.false_eq_true, if_false] at h
    rw [Stream.seekg_zero _ rfl] at h
    simp only at h
    generalize hs0 : ({ data := d, gpos := 0, ppos := p, fail := false } : Stream) = s0 at h
    have hs0f : s0.fail = false := by rw [← hs0]
    have hs0r : s0.remaining = d := by rw [← hs0]; simp [Stream.remaining]
    by_cases h8 : s0.remaining.length < 8
    · have hf := Stream.read_snd_fail_of_lt s0 8 h8
      rw [Stream.read_of_fail _ 4 hf] at h
      by_cases hm : le_value (s0.read 8).1 = magic
      · simp [hm] at h
      · by_cases hl : le_value (s0.read 8).1 = legacy_magic
        · simp [hl, metadata_version, show ¬ legacy_magic = magic from by decide] at h
        · simp [hm, hl] at h
    · have h8le : 8 ≤ s0.remaining.length := by omega
      rw [Stream.read_of_le s0 8 hs0f h8le] at h
      simp only at h
      by_cases hm : le_value (s0.remaining.take 8) = magic
      · simp only [hm, if_true] at h
        by_cases h4 : (s0.advance 8).remaining.length < 4
        · rw [if_pos ((Stream.read_length_ne_iff (s0.advance 8) 4 hs0f).2 h4)] at h
          simp at h
        · have h4le : 4 ≤ (s0.advance 8).remaining.length := by omega
          rw [if_neg (fun hh => h4 ((Stream.read_length_ne_iff (s0.advance 8) 4 hs0f).1 hh))] at h
          rw [Stream.read_of_le (s0.advance 8) 4 hs0f h4le] at h
          simp only [Stream.advance_advance] at h
          by_cases hv : le_value ((s0.advance 8).remaining.take 4) = metadata_version
          · simp only [hv, ne_eq, not_true_eq_false, if_false] at h
            have hsf : (s0.advance (8 + 4)).fail = false := hs0f
            cases hdec : decode_outcome metadata_version (s0.advance (8 + 4)).remaining with
            | error e =>
              obtain ⟨s2, h2⟩ := deserialize_eq_of_error _ _ e hsf hdec
              simp [h2] at h
            | ok md =>
              rw [deserialize_eq_of_ok _ _ md hsf hdec] at h
              have hlen := decode_outcome_ok_length_aux _ _ _ hdec
              have hh : header_size metadata_version = 3628 := rfl
              simp only [Stream.advance_remaining, List.length_drop, hs0r, hh] at hlen hdec h8le
              simp only [Stream.advance_remaining, hs0r] at hv hm
              have hd12 : 3640 ≤ d.length := by omega
              simp only [Stream.tellg, Stream.advance, ← hs0, Bool.false_eq_true, if_false, hh,
                Nat.zero_add] at h
              rw [to_size_t_of_lt _ (by decide)] at h
              rw [Stream.seekp_zero _ rfl] at h
              rw [Stream.seekp_of_le _ (8 + 4 + 3628) rfl (by simp only; omega)] at h
              simp only [Except.ok.injEq] at h
              refine ⟨rfl, hd12, ?_, ?_, ⟨md, hdec⟩, h.symm⟩
              · have := le_bytes_le_value (d.take 8)
                rw [hm, List.length_take, Nat.min_eq_left (by omega)] at this
                exact this.symm
              · have := le_bytes_le_value ((d.drop 8).take 4)
                rw [hv, List.length_take, Nat.min_eq_left (by simp; omega)] at this
                exact this.symm
          · simp only [ne_eq, hv, not_false_eq_true, if_true] at h
            simp at h
      · by_cases hl : le_value (s0.remaining.take 8) = legacy_magic
        · simp [hl, metadata_version, show ¬ legacy_magic = magic from by decide] at h
        · simp [hm, hl] at h

/-- The method `Writer::set_metadata` on a writer whose stream has failed changes nothing. -/
theorem Writer.set_metadata_of_fail (w : Writer) (md : Metadata)
    (h : w.stream_.fail = true) : w.set_metadata md = w := by
  unfold Writer.set_metadata Writer.write_metadata
  simp only [Stream.seekp_of_fail _ _ h, serialize_eq_write, Stream.write_of_fail _ _ h]

/-- The method `Writer::set_metadata` on a writer whose stream is good and holds a header:
the bytes 12 to 3640 are replaced, nothing else changes. -/
theorem Writer.set_metadata_of_good (w : Writer) (md : Metadata) (hmd : md.valid)
    (hs : w.stream_.fail = false) (hlen : 3640 ≤ w.stream_.data.length)
    (hp : w.stream_.ppos ≤ w.stream_.data.length) :
    w.set_metadata md
      = { w with stream_ := { w.stream_ with
            data := w.stream_.data.take 12 ++ (md.wire ++ w.stream_.data.drop 3640) } } := by
  obtain ⟨⟨d, g, p, f⟩, sz⟩ := w
  simp only at hs hlen hp
  subst hs
  have hwl := wire_length md hmd
  unfold Writer.set_metadata Writer.write_metadata
  have h12 : ({ data := d, gpos := g, ppos := p, fail := false } : Stream).seekp (8 + 4)
      = { data := d, gpos := g, ppos := 12, fail := false } := by
    have := Stream.seekp_of_le { data := d, gpos := g, ppos := p, fail := false } 12 rfl
      (by simp only; omega)
    simpa using this
  simp only [h12, serialize_eq_write, Stream.tellp, Bool.false_eq_true, if_false]
  have hw : ({ data := d, gpos := g, ppos := 12, fail := false } : Stream).write md.wire
      = { data := d.take 12 ++ (md.wire ++ d.drop 3640), gpos := g, ppos := 3640,
          fail := false } := by
    have h0 : 12 - d.length = 0 := by omega
    simp only [Stream.write, Bool.false_eq_true, if_false, h0, List.replicate_zero,
      List.append_nil, hwl, List.append_assoc]
  rw [hw, Stream.seekp_of_le _ p rfl (by
    simp only [List.length_append, List.length_take, List.length_drop, hwl]; omega)]

theorem Writer.create_ok (s : Stream) (md : Metadata) (w : Writer) (hmd : md.valid)
    (h : Writer.create s md = .ok w) :
    s.fail = false
      ∧ w = { stream_ := { s with data := resource_header md ++ s.data.drop 3640, ppos := 3640 },
              md_size_ := 3640 } := by
  cases hs : s.fail with
  | true =>
    simp [Writer.create, Stream.seekp_of_fail s 0 hs, hs] at h
  | false =>
    rw [Writer.create_of_good s md hs hmd] at h
    simp only [Except.ok.injEq] at h
    exact ⟨rfl, by rw [← h, hs]⟩

/-- Every writer a client can hold records a header of 3640 bytes, its stream holds at
least that many, and its put cursor is inside the stream. -/
theorem Writer.Reachable.invariant (w : Writer) (h : Writer.Reachable w) :
    w.md_size_ = 3640 ∧ 3640 ≤ w.stream_.data.length
      ∧ w.stream_.ppos ≤ w.stream_.data.length := by
  induction h with
  | of_create s md w hmd hc =>
    obtain ⟨-, rfl⟩ := Writer.create_ok s md w hmd hc
    have hl := resource_header_length md hmd
    simp only [List.length_append, hl, List.length_drop, true_and]
    omega
  | of_open s w ho =>
    obtain ⟨-, hlen, -, -, -, rfl⟩ := Writer.open_ok s w ho
    exact ⟨rfl, hlen, hlen⟩
  | of_write w bytes _ ih =>
    obtain ⟨h1, h2, h3⟩ := ih
    refine ⟨h1, ?_⟩
    cases hs : w.stream_.fail with
    | true => rw [Stream.write_of_fail _ _ hs]; exact ⟨h2, h3⟩
    | false =>
      simp only [Stream.write_data _ _ hs, Stream.write_ppos _ _ hs, List.length_append,
        List.length_take, List.length_replicate, List.length_drop]
      omega
  | of_seekp w pos _ ih =>
    obtain ⟨h1, h2, h3⟩ := ih
    refine ⟨h1, ?_⟩
    unfold Stream.seekp
    split
    · exact ⟨h2, h3⟩
    · split
      · rename_i hpos
        simp only
        exact ⟨h2, by omega⟩
      · exact ⟨h2, h3⟩
  | of_setstate w failed _ ih => exact ih
  | of_set_metadata w md _ hmd ih =>
    obtain ⟨h1, h2, h3⟩ := ih
    cases hs : w.stream_.fail with
    | true => rw [Writer.set_metadata_of_fail w md hs]; exact ⟨h1, h2, h3⟩
    | false =>
      rw [Writer.set_metadata_of_good w md hmd hs h2 h3]
      have hwl := wire_length md hmd
      simp only [List.length_append, List.length_take, List.length_drop, hwl]
      omega

theorem dummy_md_valid : dummy_md.valid := by decide

theorem dummy_md2_valid : dummy_md2.valid := by decide

theorem dummy_writer_created : Writer.create Stream.empty dummy_md = .ok dummy_writer :=
  Writer.create_of_good Stream.empty dummy_md rfl dummy_md_valid

theorem dummy_writer_reachable : Writer.Reachable dummy_writer :=
  Writer.Reachable.of_create Stream.empty dummy_md dummy_writer dummy_md_valid dummy_writer_created

theorem WireHeader.bytes_length (v : Nat) (h : WireHeader) (hwf : h.well_formed v) :
    (h.bytes v).length = header_size v := by
  obtain ⟨h0, ⟨a1, a2, a3⟩, ⟨b1, b2, b3⟩, hv, ⟨d1, d2, d3⟩, h5⟩ := hwf
  simp only [format_version_max_size, tool_name_max_size, tool_info_max_size] at *
  by_cases hv1 : v ≥ 1
  · obtain ⟨c1, c2, c3⟩ := hv hv1
    simp only [tool_version_max_size] at *
    simp only [WireHeader.bytes, WireHeader.tool_version_bytes, if_pos hv1, List.length_append,
      field_bytes_length, header_size]
    omega
  · simp only [WireHeader.bytes, WireHeader.tool_version_bytes, if_neg hv1, List.length_append,
      field_bytes_length, header_size, List.length_nil]
    omega

/-- The decoder accepts a well-formed header, whatever follows it. -/
theorem WireHeader.decode (v : Nat) (h : WireHeader) (hwf : h.well_formed v) (rest : List Byte) :
    decode_outcome v (h.bytes v ++ rest) = .ok (h.metadata v) := by
  obtain ⟨h0, h1, h2, hv, h4, h5⟩ := hwf
  by_cases hv1 : v ≥ 1
  · simp only [WireHeader.bytes, WireHeader.tool_version_bytes, WireHeader.metadata, if_pos hv1,
      List.append_assoc]
    exact decode_outcome_layout v hv1 _ _ _ _ _ _ _ _ _ _ rest h0 h1 h2 (hv hv1) h4 h5
  · have hv0 : v = 0 := by omega
    subst hv0
    simp only [WireHeader.bytes, WireHeader.tool_version_bytes, WireHeader.metadata, if_neg hv1,
      List.append_assoc, List.nil_append]
    exact decode_outcome_layout_v0 _ _ _ _ _ _ _ _ rest h0 h1 h2 h4 h5

theorem Stream.ofBytes_remaining (bytes : List Byte) : (Stream.ofBytes bytes).remaining = bytes := by
  simp [Stream.ofBytes, Stream.remaining]

theorem dummy_header_well_formed : dummy_header.well_formed 1 := by
  unfold WireHeader.well_formed field_ok dummy_header
  simp only [List.length_replicate, le_bytes_length]
  decide

/-! ## The string block on streams -/

/-- The string block on a good stream that holds a size above the maximum: the block
throws once the size is read, with the get cursor right behind the size. -/
theorem deserialize_string_oversize (max_size : Nat) (m1 m2 m3 m4 : String) (s : Stream)
    (hs : s.fail = false) (size_bytes rest : List Byte) (hr : s.remaining = size_bytes ++ rest)
    (hlen : size_bytes.length = 8) (hbig : le_value size_bytes > max_size) :
    deserialize_string max_size m1 m2 m3 m4 s
      = (.error (.ReadMetadataError m2), s.advance 8) := by
  have h8 : 8 ≤ s.remaining.length := by rw [hr, List.length_append]; omega
  have ht : s.remaining.take 8 = size_bytes := by rw [hr]; exact List.take_left' hlen
  unfold deserialize_string
  rw [Stream.read_of_le s 8 hs h8, ht]
  simp only [hlen, ne_eq, not_true_eq_false, if_false, hbig, if_true]

/-- The string block on a good stream that holds a well-formed field: the block returns
the string, with the get cursor right behind the padding. -/
theorem deserialize_string_field (max_size : Nat) (m1 m2 m3 m4 : String) (s : Stream)
    (hs : s.fail = false) (str padding rest : List Byte)
    (hr : s.remaining = field_bytes str padding ++ rest) (hok : field_ok max_size str padding)
    (hmax : max_size < 2 ^ 64) :
    deserialize_string max_size m1 m2 m3 m4 s = (.ok str, s.advance (8 + max_size))
      ∧ (s.advance (8 + max_size)).fail = false
      ∧ (s.advance (8 + max_size)).remaining = rest := by
  refine ⟨?_, hs, ?_⟩
  · apply deserialize_string_ok _ _ _ _ _ _ hs
    rw [hr]
    exact string_outcome_field _ _ _ _ _ _ _ _ hok hmax
  · rw [Stream.advance_remaining, hr]
    exact drop_field _ _ _ _ hok

theorem Stream.read_type (s : Stream) (hs : s.fail = false) (t rest : List Byte)
    (hr : s.remaining = t ++ rest) (ht : t.length = 4) :
    s.read 4 = (t, s.advance 4) ∧ (s.advance 4).fail = false
      ∧ (s.advance 4).remaining = rest := by
  have h4 : 4 ≤ s.remaining.length := by rw [hr, List.length_append]; omega
  refine ⟨?_, hs, ?_⟩
  · rw [Stream.read_of_le s 4 hs h4, hr, List.take_left' ht]
  · rw [Stream.advance_remaining, hr]
    exact List.drop_left' ht

/-! ## Streams written by the library, read back -/

theorem dummy_md_nonempty : dummy_md.nonempty := by decide

theorem empty_version_md_valid : empty_version_md.valid := by decide

/-- The stream `Metadata::serialize` leaves when it starts from an empty one. -/
theorem serialize_empty_stream (md : Metadata) :
    md.serialize Stream.empty
      = { data := md.wire, gpos := 0, ppos := md.wire.length, fail := false } := by
  rw [serialize_eq_write]
  simp [Stream.write, Stream.empty]

/-- Encoding a `Metadata` whose strings are not empty and decoding the bytes at version 1
or later gives the `Metadata` back. -/
theorem round_trip_of_nonempty (v : Nat) (hv : v ≥ 1) (md : Metadata) (h : md.valid)
    (hne : md.nonempty) :
    (Metadata.deserialize v (md.serialize Stream.empty)).1 = .ok md := by
  rw [serialize_empty_stream, (deserialize_ok_iff v _ md).2]
  refine ⟨rfl, ?_⟩
  have := decode_outcome_wire v hv md h hne []
  simpa [Stream.remaining] using this

/-- The stream of a writer created on an empty stream, after the payload `payload` was
written through it. -/
theorem create_then_write (md : Metadata) (h : md.valid) (payload : List Byte) :
    ∃ w, Writer.create Stream.empty md = .ok w ∧ w.md_size_ = 3640
      ∧ w.stream_.write payload
          = { data := le_bytes 8 magic ++ (le_bytes 4 metadata_version ++ (md.wire ++ payload)),
              gpos := 0, ppos := 3640 + payload.length, fail := false } := by
  refine ⟨_, Writer.create_of_good Stream.empty md rfl h, rfl, ?_⟩
  have hl := resource_header_length md h
  have h1 : (resource_header md).take 3640 = resource_header md :=
    List.take_of_length_le (by omega)
  have h2 : (resource_header md).drop (3640 + payload.length) = [] :=
    List.drop_eq_nil_of_le (by omega)
  simp only [Stream.write, Stream.empty, List.drop_nil, List.append_nil, Bool.false_eq_true,
    if_false, hl, Nat.sub_self, List.replicate_zero, h1, h2]
  simp only [resource_header, List.append_assoc]

theorem resource_header_take (md : Metadata) (rest : List Byte) :
    (resource_header md ++ rest).take 12 = le_bytes 8 magic ++ le_bytes 4 metadata_version := by
  have : resource_header md ++ rest
      = (le_bytes 8 magic ++ le_bytes 4 metadata_version) ++ (md.wire ++ rest) := by
    simp only [resource_header, List.append_assoc]
  rw [this]
  exact List.take_left' (by simp [le_bytes_length])

/-- A resource created for a `Metadata` whose strings are not empty, with a payload
written behind the header, is read back by `Reader::open`: the metadata, the header size
and then the payload. -/
theorem end_to_end_of_nonempty (md : Metadata) (h : md.valid) (hne : md.nonempty)
    (payload : List Byte) :
    ∃ w r, Writer.create Stream.empty md = .ok w
      ∧ Reader.open (w.stream_.write payload) = .ok r
      ∧ r.md_ = md ∧ r.md_size_ = w.md_size_
      ∧ (r.stream_.read payload.length).1 = payload := by
  obtain ⟨w, hc, hsz, hw⟩ := create_then_write md h payload
  have hopen := Reader.open_of_current_magic (w.stream_.write payload) (by rw [hw])
    metadata_version (Nat.le_refl _) (md.wire ++ payload) (by rw [hw])
  rw [decode_outcome_wire metadata_version (Nat.le_refl _) md h hne payload] at hopen
  refine ⟨w, _, hc, hopen, rfl, by rw [hsz]; rfl, ?_⟩
  have hl := wire_length md h
  have hrem : ({ w.stream_.write payload with gpos := 12 + header_size metadata_version }
      : Stream).remaining = payload := by
    simp only [Stream.remaining, hw]
    have : le_bytes 8 magic ++ (le_bytes 4 metadata_version ++ (md.wire ++ payload))
        = (le_bytes 8 magic ++ (le_bytes 4 metadata_version ++ md.wire)) ++ payload := by
      simp only [List.append_assoc]
    rw [this]
    exact List.drop_left' (by simp [le_bytes_length, hl, header_size, metadata_version])
  rw [Stream.read_fst _ _ (by simp only [hw]), hrem, List.take_length]

theorem resource_bytes_take (w payload : List Byte) :
    (le_bytes 8 magic ++ (le_bytes 4 metadata_version ++ (w ++ payload))).take 12
      = le_bytes 8 magic ++ le_bytes 4 metadata_version := by
  rw [← List.append_assoc]
  exact List.take_left' (by simp [le_bytes_length])

theorem resource_bytes_drop (w payload : List Byte) (hw : w.length = 3628) :
    (le_bytes 8 magic ++ (le_bytes 4 metadata_version ++ (w ++ payload))).drop 3640
      = payload := by
  rw [← List.append_assoc, ← List.append_assoc]
  exact List.drop_left' (by simp [le_bytes_length, hw])

/-- A resource created for one `Metadata`, reopened by `Writer::open` and rewritten by
`set_metadata` with another, both without an empty string, is read back by
`Reader::open` with the second `Metadata`, and the payload is still behind the header. -/
theorem rewrite_of_nonempty (md1 md2 : Metadata) (h1 : md1.valid) (hne1 : md1.nonempty)
    (h2 : md2.valid) (hne2 : md2.nonempty) (payload : List Byte) :
    ∃ w1 w2 r, Writer.create Stream.empty md1 = .ok w1
      ∧ Writer.open (w1.stream_.write payload) = .ok w2
      ∧ Reader.open (w2.set_metadata md2).stream_ = .ok r
      ∧ r.md_ = md2 ∧ r.md_size_ = w2.md_size_
      ∧ (w2.set_metadata md2).stream_.data
          = le_bytes 8 magic ++ (le_bytes 4 metadata_version ++ (md2.wire ++ payload)) := by
  obtain ⟨w1, hc, -, hw⟩ := create_then_write md1 h1 payload
  have hl1 := wire_length md1 h1
  have hl2 := wire_length md2 h2
  have hopen := Writer.reopen_of_current_magic (w1.stream_.write payload) (by rw [hw])
    (md1.wire ++ payload) (by rw [hw])
  rw [decode_outcome_wire metadata_version (Nat.le_refl _) md1 h1 hne1 payload] at hopen
  simp only at hopen
  have hlen : 3640 ≤ (le_bytes 8 magic
      ++ (le_bytes 4 metadata_version ++ (md1.wire ++ payload))).length := by
    simp only [List.length_append, le_bytes_length, hl1]; omega
  have hset := Writer.set_metadata_of_good
    { stream_ := { data := le_bytes 8 magic ++ (le_bytes 4 metadata_version
                      ++ (md1.wire ++ payload)),
                   gpos := 3640, ppos := 3640, fail := false },
      md_size_ := 3640 } md2 h2 rfl hlen hlen
  simp only [resource_bytes_take, resource_bytes_drop _ _ hl1, List.append_assoc] at hset
  have hread := Reader.open_of_current_magic
    { data := le_bytes 8 magic ++ (le_bytes 4 metadata_version ++ (md2.wire ++ payload)),
      gpos := 3640, ppos := 3640, fail := false } rfl metadata_version (Nat.le_refl _)
    (md2.wire ++ payload) rfl
  rw [decode_outcome_wire metadata_version (Nat.le_refl _) md2 h2 hne2 payload] at hread
  have hsz : 12 + header_size metadata_version = 3640 := by decide
  rw [hsz] at hread
  simp only at hread
  refine ⟨w1, _,
    { stream_ := { data := le_bytes 8 magic ++ (le_bytes 4 metadata_version
                      ++ (md2.wire ++ payload)),
                   gpos := 3640, ppos := 3640, fail := false },
      md_ := md2, md_size_ := 3640 }, hc, hopen, ?_⟩
  simp only [hw]
  rw [hset]
  exact ⟨hread, trivial, trivial, rfl⟩

/-! ## Opening a resource, whatever the stream holds -/

theorem le_value_short_ne_magic (bs : List Byte) (h : bs.length < 8) :
    le_value bs ≠ magic ∧ le_value bs ≠ legacy_magic := by
  have h1 := le_value_lt bs
  have h2 : 256 ^ bs.length ≤ 256 ^ 7 := Nat.pow_le_pow_right (by decide) (by omega)
  have h3 : (256 : Nat) ^ 7 = 72057594037927936 := by norm_num
  unfold magic legacy_magic
  omega

theorem Stream.read_fst_take (d : List Byte) (p n : Nat) :
    (({ data := d, gpos := 0, ppos := p, fail := false } : Stream).read n).1 = d.take n := by
  rw [Stream.read_fst _ _ rfl]
  simp [Stream.remaining]

/-- The function `Reader::open` computes `Reader.open_outcome`. -/
theorem Reader.open_eq_reader_outcome (s : Stream) : Reader.open s = Reader.open_outcome s := by
  obtain ⟨d, g, p, f⟩ := s
  cases f with
  | true => simp [Reader.open, Reader.open_outcome, Stream.seekg_of_fail]
  | false =>
    unfold Reader.open Reader.open_outcome
    rw [Stream.seekg_zero _ rfl]
    simp only [Bool.false_eq_true, if_false]
    generalize hs0 : ({ data := d, gpos := 0, ppos := p, fail := false } : Stream) = s0
    have hs0f : s0.fail = false := by rw [← hs0]
    have hs0r : s0.remaining = d := by rw [← hs0]; simp [Stream.remaining]
    have hfst : (s0.read 8).1 = d.take 8 := by rw [← hs0]; exact Stream.read_fst_take d p 8
    by_cases h8 : d.length < 8
    · have hne := le_value_short_ne_magic (d.take 8) (by rw [List.length_take]; omega)
      simp only [hfst, hne.1, hne.2, if_false]
    · have h8le : 8 ≤ s0.remaining.length := by rw [hs0r]; omega
      rw [Stream.read_of_le s0 8 hs0f h8le, hs0r]
      simp only
      have hs8f : (s0.advance 8).fail = false := hs0f
      have hs8r : (s0.advance 8).remaining = d.drop 8 := by
        rw [Stream.advance_remaining, hs0r]
      by_cases hm : le_value (d.take 8) = magic
      · simp only [hm, if_true]
        by_cases h12 : d.length < 12
        · have h4 : (s0.advance 8).remaining.length < 4 := by
            rw [hs8r, List.length_drop]; omega
          rw [if_pos ((Stream.read_length_ne_iff (s0.advance 8) 4 hs8f).2 h4), if_pos h12]
        · have h4 : ¬ (s0.advance 8).remaining.length < 4 := by
            rw [hs8r, List.length_drop]; omega
          rw [if_neg (fun hh => h4 ((Stream.read_length_ne_iff (s0.advance 8) 4 hs8f).1 hh)),
            if_neg h12, Stream.read_of_le (s0.advance 8) 4 hs8f (by omega), hs8r,
            Stream.advance_advance]
          simp only
          by_cases hv : le_value ((d.drop 8).take 4) > metadata_version
          · simp only [hv, if_true]
          · simp only [hv, if_false]
            have hsf : (s0.advance (8 + 4)).fail = false := hs0f
            have hsr : (s0.advance (8 + 4)).remaining = d.drop 12 := by
              rw [Stream.advance_remaining, hs0r]
            unfold Reader.read_metadata
            have hv1 : le_value ((d.drop 8).take 4) ≤ 1 := by
              unfold metadata_version at hv; omega
            have hsz : header_size (le_value ((d.drop 8).take 4)) < 2 ^ 63 := by
              unfold header_size; split <;> decide
            cases hdec : decode_outcome (le_value ((d.drop 8).take 4)) (d.drop 12) with
            | error e =>
              obtain ⟨s2, h2⟩ := deserialize_eq_of_error _ _ e hsf (hsr ▸ hdec)
              simp only [h2]
            | ok md =>
              rw [deserialize_eq_of_ok _ _ md hsf (hsr ▸ hdec)]
              simp only [Stream.tellg, Stream.advance, ← hs0, Bool.false_eq_true, if_false,
                Nat.zero_add]
              rw [to_size_t_of_lt _ (by omega)]
      · simp only [hm, if_false]
        by_cases hl : le_value (d.take 8) = legacy_magic
        · simp only [hl, if_true]
          unfold Reader.read_metadata
          have hsz : header_size 0 < 2 ^ 63 := by decide
          cases hdec : decode_outcome 0 (d.drop 8) with
          | error e =>
            obtain ⟨s2, h2⟩ := deserialize_eq_of_error _ _ e hs8f (hs8r ▸ hdec)
            simp only [h2]
          | ok md =>
            rw [deserialize_eq_of_ok _ _ md hs8f (hs8r ▸ hdec)]
            simp only [Stream.tellg, Stream.advance, ← hs0, Bool.false_eq_true, if_false,
              Nat.zero_add]
            rw [to_size_t_of_lt _ (by omega)]
        · simp only [hl, if_false]

/-- The function `Writer::open` computes `Writer.open_outcome`. -/
theorem Writer.open_eq_writer_outcome (s : Stream) : Writer.open s = Writer.open_outcome s := by
  obtain ⟨d, g, p, f⟩ := s
  cases f with
  | true => simp [Writer.open, Writer.open_outcome]
  | false =>
    unfold Writer.open Writer.open_outcome
    simp only [Bool.false_eq_true, if_false]
    rw [Stream.seekg_zero _ rfl]
    simp only
    generalize hs0 : ({ data := d, gpos := 0, ppos := p, fail := false } : Stream) = s0
    have hs0f : s0.fail = false := by rw [← hs0]
    have hs0r : s0.remaining = d := by rw [← hs0]; simp [Stream.remaining]
    have hfst : (s0.read 8).1 = d.take 8 := by rw [← hs0]; exact Stream.read_fst_take d p 8
    by_cases h8 : d.length < 8
    · have hne := le_value_short_ne_magic (d.take 8) (by rw [List.length_take]; omega)
      simp only [hfst, hne.1, hne.2, if_false]
    · have h8le : 8 ≤ s0.remaining.length := by rw [hs0r]; omega
      rw [Stream.read_of_le s0 8 hs0f h8le, hs0r]
      simp only
      have hs8f : (s0.advance 8).fail = false := hs0f
      have hs8r : (s0.advance 8).remaining = d.drop 8 := by
        rw [Stream.advance_remaining, hs0r]
      by_cases hm : le_value (d.take 8) = magic
      · simp only [hm, if_true]
        by_cases h12 : d.length < 12
        · have h4 : (s0.advance 8).remaining.length < 4 := by
            rw [hs8r, List.length_drop]; omega
          rw [if_pos ((Stream.read_length_ne_iff (s0.advance 8) 4 hs8f).2 h4), if_pos h12]
        · have h4 : ¬ (s0.advance 8).remaining.length < 4 := by
            rw [hs8r, List.length_drop]; omega
          rw [if_neg (fun hh => h4 ((Stream.read_length_ne_iff (s0.advance 8) 4 hs8f).1 hh)),
            if_neg h12, Stream.read_of_le (s0.advance 8) 4 hs8f (by omega), hs8r,
            Stream.advance_advance]
          simp only
          by_cases hv : le_value ((d.drop 8).take 4) = metadata_version
          · simp only [hv, ne_eq, not_true_eq_false, if_false]
            have hsf : (s0.advance (8 + 4)).fail = false := hs0f
            have hsr : (s0.advance (8 + 4)).remaining = d.drop 12 := by
              rw [Stream.advance_remaining, hs0r]
            cases hdec : decode_outcome metadata_version (d.drop 12) with
            | error e =>
              obtain ⟨s2, h2⟩ := deserialize_eq_of_error _ _ e hsf (hsr ▸ hdec)
              simp only [h2]
            | ok md =>
              rw [deserialize_eq_of_ok _ _ md hsf (hsr ▸ hdec)]
              have hlen := decode_outcome_ok_length_aux _ _ _ hdec
              have hh : header_size metadata_version = 3628 := rfl
              rw [hh, List.length_drop] at hlen
              simp only [Stream.tellg, Stream.advance, ← hs0, Bool.false_eq_true, if_false, hh,
                Nat.zero_add]
              rw [to_size_t_of_lt _ (by decide), Stream.seekp_zero _ rfl,
                Stream.seekp_of_le _ (8 + 4 + 3628) rfl (by simp only; omega)]
          · simp only [ne_eq, hv, not_false_eq_true, if_true]
      · simp only [hm, if_false]
        by_cases hl : le_value (d.take 8) = legacy_magic
        · simp only [hl, if_true]
          rfl
        · simp only [hl, if_false]

/-! ## Resources that start with a magic and a version field -/

theorem resource_start (m v : Nat) (rest : List Byte) :
    (le_bytes 8 m ++ (le_bytes 4 v ++ rest)).take 8 = le_bytes 8 m
      ∧ 12 ≤ (le_bytes 8 m ++ (le_bytes 4 v ++ rest)).length
      ∧ ((le_bytes 8 m ++ (le_bytes 4 v ++ rest)).drop 8).take 4 = le_bytes 4 v
      ∧ (le_bytes 8 m ++ (le_bytes 4 v ++ rest)).drop 12 = rest := by
  have h8 := le_bytes_length 8 m
  have h4 := le_bytes_length 4 v
  refine ⟨List.take_left' h8, ?_, ?_, ?_⟩
  · simp only [List.length_append, h8, h4]; omega
  · rw [List.drop_left' h8]
    exact List.take_left' h4
  · rw [← List.append_assoc]
    exact List.drop_left' (by simp only [List.length_append, h8, h4])

theorem le_value_version (v : Nat) (h : v < 2 ^ 32) : le_value (le_bytes 4 v) = v :=
  le_value_le_bytes_of_lt 4 v (by norm_num at h ⊢; omega)

theorem le_value_legacy_magic : le_value (le_bytes 8 legacy_magic) = legacy_magic := rfl

/-! ## What a decoded `Metadata` holds -/

theorem string_outcome_ok_length (max_size : Nat) (m1 m2 m3 m4 : String) (r str : List Byte)
    (h : string_outcome max_size m1 m2 m3 m4 r = .ok str) :
    1 ≤ str.length ∧ str.length ≤ max_size := by
  obtain ⟨h1, h2, h3, h4⟩ := (string_outcome_ok_iff _ _ _ _ _ _ _).1 h
  rw [h4, List.length_take, List.length_drop]
  omega

theorem chars_prerelease_length : (chars "1.0.0-prerelease").length = 16 := by decide

/-- A decoded `Metadata` respects the size invariant and has no empty string. -/
theorem decode_outcome_valid (v : Nat) (r : List Byte) (md : Metadata)
    (h : decode_outcome v r = .ok md) : md.valid ∧ md.nonempty := by
  obtain ⟨-, -, h1, h2, h3, h4, -⟩ := (decode_outcome_ok_iff v r md).1 h
  have l1 := string_outcome_ok_length _ _ _ _ _ _ _ h1
  have l2 := string_outcome_ok_length _ _ _ _ _ _ _ h2
  have l4 := string_outcome_ok_length _ _ _ _ _ _ _ h4
  have l3 : 1 ≤ md.tool_version_.length ∧ md.tool_version_.length ≤ tool_version_max_size := by
    by_cases hv : v ≥ 1
    · rw [if_pos hv] at h3
      exact string_outcome_ok_length _ _ _ _ _ _ _ h3
    · rw [if_neg hv] at h3
      simp only [Except.ok.injEq] at h3
      rw [← h3, chars_prerelease_length]
      decide
  exact ⟨⟨l1.2, l2.2, l3.2, l4.2⟩, ⟨l1.1, l2.1, l3.1, l4.1⟩⟩

theorem dummy_header_well_formed_v0 : dummy_header.well_formed 0 := by
  unfold WireHeader.well_formed field_ok dummy_header
  simp only [List.length_replicate, le_bytes_length]
  decide

theorem dummy_header_decoded_v0 :
    (Metadata.deserialize 0 (Stream.ofBytes (dummy_header.bytes 0))).1
      = .ok (dummy_header.metadata 0) := by
  rw [(deserialize_ok_iff 0 _ _).2]
  refine ⟨rfl, ?_⟩
  rw [Stream.ofBytes_remaining]
  have := WireHeader.decode 0 dummy_header dummy_header_well_formed_v0 []
  rwa [List.append_nil] at this

theorem Reader.open_of_fail (s : Stream) (h : s.fail = true) :
    Reader.open s = .error (.ReaderError "Bad stream") := by
  rw [Reader.open_eq_reader_outcome]
  unfold Reader.open_outcome
  rw [if_pos h]

theorem Writer.reopen_of_fail (s : Stream) (h : s.fail = true) :
    Writer.open s = .error (.WriterError "Bad stream") := by
  rw [Writer.open_eq_writer_outcome]
  unfold Writer.open_outcome
  rw [if_pos h]

theorem legacy_resource_start (rest : List Byte) :
    (le_bytes 8 legacy_magic ++ rest).take 8 = le_bytes 8 legacy_magic
      ∧ (le_bytes 8 legacy_magic ++ rest).drop 8 = rest :=
  ⟨List.take_left' (le_bytes_length 8 _), List.drop_left' (le_bytes_length 8 _)⟩

theorem dummy_writer_reopened :
    Writer.open dummy_writer.stream_
      = .ok { stream_ := { dummy_writer.stream_ with gpos := 3640, ppos := 3640 },
              md_size_ := 3640 } := by
  rw [Writer.reopen_of_current_magic dummy_writer.stream_ rfl (dummy_md.wire ++ [])
    (by simp only [dummy_writer, resource_header, List.drop_nil, List.append_assoc]),
    decode_outcome_wire metadata_version (Nat.le_refl _) dummy_md dummy_md_valid
      dummy_md_nonempty []]

/-- What a successful `Reader::open` has found and what it returns. -/
theorem Reader.open_ok_cases (s : Stream) (r : Reader) (h : Reader.open s = .ok r) :
    s.fail = false
      ∧ ((le_value (s.data.take 8) = magic ∧ 12 ≤ s.data.length
            ∧ le_value ((s.data.drop 8).take 4) ≤ metadata_version
            ∧ decode_outcome (le_value ((s.data.drop 8).take 4)) (s.data.drop 12) = .ok r.md_
            ∧ r = { stream_ := { s with
                      gpos := 12 + header_size (le_value ((s.data.drop 8).take 4)) },
                    md_ := r.md_,
                    md_size_ := 12 + header_size (le_value ((s.data.drop 8).take 4)) })
        ∨ (le_value (s.data.take 8) = legacy_magic
            ∧ decode_outcome 0 (s.data.drop 8) = .ok r.md_
            ∧ r = { stream_ := { s with gpos := 8 + header_size 0 }, md_ := r.md_,
                    md_size_ := 8 + header_size 0 })) := by
  rw [Reader.open_eq_reader_outcome] at h
  unfold Reader.open_outcome at h
  rcases Bool.eq_false_or_eq_true s.fail with hs | hs
  · rw [if_pos hs] at h
    simp at h
  · rw [if_neg (by simp [hs])] at h
    refine ⟨hs, ?_⟩
    by_cases hm : le_value (s.data.take 8) = magic
    · rw [if_pos hm] at h
      by_cases h12 : s.data.length < 12
      · rw [if_pos h12] at h
        simp at h
      · rw [if_neg h12] at h
        by_cases hv : le_value ((s.data.drop 8).take 4) > metadata_version
        · rw [if_pos hv] at h
          simp at h
        · rw [if_neg hv] at h
          cases hdec : decode_outcome (le_value ((s.data.drop 8).take 4)) (s.data.drop 12) with
          | error e =>
            rw [hdec] at h
            simp at h
          | ok md =>
            rw [hdec] at h
            simp only [Except.ok.injEq] at h
            subst h
            exact Or.inl ⟨hm, by omega, by omega, rfl, rfl⟩
    · rw [if_neg hm] at h
      by_cases hl : le_value (s.data.take 8) = legacy_magic
      · rw [if_pos hl] at h
        cases hdec : decode_outcome 0 (s.data.drop 8) with
        | error e =>
          rw [hdec] at h
          simp at h
        | ok md =>
          rw [hdec] at h
          simp only [Except.ok.injEq] at h
          subst h
          exact Or.inr ⟨hl, rfl, rfl⟩
      · rw [if_neg hl] at h
        simp at h

theorem dummy_writer_read :
    Reader.open dummy_writer.stream_
      = .ok { stream_ := { dummy_writer.stream_ with gpos := 3640 }, md_ := dummy_md,
              md_size_ := 3640 } := by
  rw [Reader.open_of_current_magic dummy_writer.stream_ rfl metadata_version (Nat.le_refl _)
    (dummy_md.wire ++ [])
    (by simp only [dummy_writer, resource_header, List.drop_nil, List.append_assoc]),
    decode_outcome_wire metadata_version (Nat.le_refl _) dummy_md dummy_md_valid
      dummy_md_nonempty []]
  rfl

/-! ## Failures of the two opens -/

theorem short_version_start (tail : List Byte) (h : tail.length < 4) :
    (le_bytes 8 magic ++ tail).take 8 = le_bytes 8 magic
      ∧ (le_bytes 8 magic ++ tail).length < 12 := by
  refine ⟨List.take_left' (le_bytes_length 8 _), ?_⟩
  rw [List.length_append, le_bytes_length]
  omega

/-- Every exception of `Reader::open` is a `ReaderError`. -/
theorem Reader.open_error_kind (s : Stream) (e : Error) (h : Reader.open s = .error e) :
    ∃ msg, e = .ReaderError msg := by
  rw [Reader.open_eq_reader_outcome] at h
  unfold Reader.open_outcome at h
  split at h
  · exact ⟨_, by simpa using h.symm⟩
  · split at h
    · split at h
      · exact ⟨_, by simpa using h.symm⟩
      · split at h
        · exact ⟨_, by simpa using h.symm⟩
        · split at h
          · exact ⟨_, by simpa using h.symm⟩
          · simp at h
    · split at h
      · split at h
        · exact ⟨_, by simpa using h.symm⟩
        · simp at h
      · exact ⟨_, by simpa using h.symm⟩

/-- Every exception of `Writer::open` is a `WriterError`. -/
theorem Writer.reopen_error_kind (s : Stream) (e : Error) (h : Writer.open s = .error e) :
    ∃ msg, e = .WriterError msg := by
  rw [Writer.open_eq_writer_outcome] at h
  unfold Writer.open_outcome at h
  split at h
  · exact ⟨_, by simpa using h.symm⟩
  · split at h
    · split at h
      · exact ⟨_, by simpa using h.symm⟩
      · split at h
        · exact ⟨_, by simpa using h.symm⟩
        · split at h
          · exact ⟨_, by simpa using h.symm⟩
          · simp at h
    · split at h
      · exact ⟨_, by simpa using h.symm⟩
      · exact ⟨_, by simpa using h.symm⟩

theorem Writer.create_of_fail (s : Stream) (md : Metadata) (h : s.fail = true) :
    Writer.create s md = .error (.WriterError "Bad stream") := by
  unfold Writer.create
  rw [Stream.seekp_of_fail s 0 h]
  simp only [h, if_true]

/-! ## Where the decoder stops -/

/-- The string block on a size of 0: the content read is treated as a short read. -/
theorem string_outcome_zero (max_size : Nat) (m1 m2 m3 m4 : String)
    (size_bytes rest : List Byte) (hlen : size_bytes.length = 8)
    (hz : le_value size_bytes = 0) :
    string_outcome max_size m1 m2 m3 m4 (size_bytes ++ rest)
      = .error (.ReadMetadataError m3) := by
  unfold string_outcome
  rw [List.take_left' hlen, hz, if_neg (by simp [hlen]), if_neg (by omega),
    if_pos (Or.inl rfl)]

/-- The string block on the field of an empty string. -/
theorem string_outcome_empty_field (max_size : Nat) (m1 m2 m3 m4 : String)
    (str padding rest : List Byte) (h : str.length = 0) :
    string_outcome max_size m1 m2 m3 m4 (field_bytes str padding ++ rest)
      = .error (.ReadMetadataError m3) := by
  unfold field_bytes
  rw [List.append_assoc, h]
  exact string_outcome_empty _ _ _ _ _ _

/-- The decoder stops at the first string block that fails: the format version. -/
theorem decode_outcome_at_format_version (v : Nat) (t X : List Byte) (e : Error)
    (ht : t.length = 4) (h : format_version_outcome X = .error e) :
    decode_outcome v (t ++ X) = .error e := by
  unfold decode_outcome
  rw [if_neg (by simp [ht])]
  simp only [List.drop_left' ht, h]

/-- The decoder stops at the first string block that fails: the tool name. -/
theorem decode_outcome_at_tool_name (v : Nat) (t fv p1 X : List Byte) (e : Error)
    (ht : t.length = 4) (h1 : field_ok format_version_max_size fv p1)
    (h : tool_name_outcome X = .error e) :
    decode_outcome v (t ++ (field_bytes fv p1 ++ X)) = .error e := by
  unfold decode_outcome
  rw [if_neg (by simp [ht])]
  simp only [List.drop_left' ht]
  unfold format_version_outcome
  rw [string_outcome_field _ _ _ _ _ _ _ _ h1 (by decide)]
  simp only [drop_field _ _ _ _ h1, h]

/-- The decoder stops at the first string block that fails: the tool version. -/
theorem decode_outcome_at_tool_version (v : Nat) (hv : v ≥ 1) (t fv p1 tn p2 X : List Byte)
    (e : Error) (ht : t.length = 4) (h1 : field_ok format_version_max_size fv p1)
    (h2 : field_ok tool_name_max_size tn p2) (h : tool_version_outcome X = .error e) :
    decode_outcome v (t ++ (field_bytes fv p1 ++ (field_bytes tn p2 ++ X))) = .error e := by
  unfold decode_outcome
  rw [if_neg (by simp [ht])]
  simp only [if_pos hv, List.drop_left' ht]
  unfold format_version_outcome
  rw [string_outcome_field _ _ _ _ _ _ _ _ h1 (by decide)]
  simp only [drop_field _ _ _ _ h1]
  unfold tool_name_outcome
  rw [string_outcome_field _ _ _ _ _ _ _ _ h2 (by decide)]
  simp only [drop_field _ _ _ _ h2, h]

/-- The decoder stops at the first string block that fails: the tool info. -/
theorem decode_outcome_at_tool_info (v : Nat) (hv : v ≥ 1)
    (t fv p1 tn p2 tv p3 X : List Byte) (e : Error) (ht : t.length = 4)
    (h1 : field_ok format_version_max_size fv p1) (h2 : field_ok tool_name_max_size tn p2)
    (h3 : field_ok tool_version_max_size tv p3) (h : tool_info_outcome X = .error e) :
    decode_outcome v (t ++ (field_bytes fv p1 ++ (field_bytes tn p2 ++ (field_bytes tv p3 ++ X))))
      = .error e := by
  unfold decode_outcome
  rw [if_neg (by simp [ht])]
  simp only [if_pos hv, List.drop_left' ht]
  unfold format_version_outcome
  rw [string_outcome_field _ _ _ _ _ _ _ _ h1 (by decide)]
  simp only [drop_field _ _ _ _ h1]
  unfold tool_name_outcome
  rw [string_outcome_field _ _ _ _ _ _ _ _ h2 (by decide)]
  simp only [drop_field _ _ _ _ h2]
  unfold tool_version_outcome
  rw [string_outcome_field _ _ _ _ _ _ _ _ h3 (by decide)]
  simp only [drop_field _ _ _ _ h3, h]

/-- The decoder of version 0 stops at the tool info, which follows the tool name. -/
theorem decode_outcome_at_tool_info_v0 (t fv p1 tn p2 X : List Byte) (e : Error)
    (ht : t.length = 4) (h1 : field_ok format_version_max_size fv p1)
    (h2 : field_ok tool_name_max_size tn p2) (h : tool_info_outcome X = .error e) :
    decode_outcome 0 (t ++ (field_bytes fv p1 ++ (field_bytes tn p2 ++ X))) = .error e := by
  have hv0 : ¬ (0 ≥ 1) := by decide
  unfold decode_outcome
  rw [if_neg (by simp [ht])]
  simp only [if_neg hv0, List.drop_left' ht]
  unfold format_version_outcome
  rw [string_outcome_field _ _ _ _ _ _ _ _ h1 (by decide)]
  simp only [drop_field _ _ _ _ h1]
  unfold tool_name_outcome
  rw [string_outcome_field _ _ _ _ _ _ _ _ h2 (by decide)]
  simp only [drop_field _ _ _ _ h2, h]

/-- The decoder stops at a generation date of fewer than 8 characters. -/
theorem decode_outcome_at_generation_date (v : Nat) (hv : v ≥ 1)
    (t fv p1 tn p2 tv p3 ti p4 X : List Byte) (ht : t.length = 4)
    (h1 : field_ok format_version_max_size fv p1) (h2 : field_ok tool_name_max_size tn p2)
    (h3 : field_ok tool_version_max_size tv p3) (h4 : field_ok tool_info_max_size ti p4)
    (hX : X.length < 8) :
    decode_outcome v (t ++ (field_bytes fv p1 ++ (field_bytes tn p2 ++ (field_bytes tv p3
        ++ (field_bytes ti p4 ++ X)))))
      = .error (.ReadMetadataError "Can't read enough data for the generation date") := by
  unfold decode_outcome
  rw [if_neg (by simp [ht])]
  simp only [if_pos hv, List.drop_left' ht]
  unfold format_version_outcome
  rw [string_outcome_field _ _ _ _ _ _ _ _ h1 (by decide)]
  simp only [drop_field _ _ _ _ h1]
  unfold tool_name_outcome
  rw [string_outcome_field _ _ _ _ _ _ _ _ h2 (by decide)]
  simp only [drop_field _ _ _ _ h2]
  unfold tool_version_outcome
  rw [string_outcome_field _ _ _ _ _ _ _ _ h3 (by decide)]
  simp only [drop_field _ _ _ _ h3]
  unfold tool_info_outcome
  rw [string_outcome_field _ _ _ _ _ _ _ _ h4 (by decide)]
  simp only [drop_field _ _ _ _ h4]
  rw [if_pos hX]

/-- The stream `serialize` wrote from empty, after `rest` was written behind the header. -/
theorem serialize_then_write (md : Metadata) (rest : List Byte) :
    (md.serialize Stream.empty).write rest
      = { data := md.wire ++ rest, gpos := 0, ppos := md.wire.length + rest.length,
          fail := false } := by
  rw [serialize_empty_stream]
  simp [Stream.write]

/-- The decoder rejects the header bytes of a `Metadata` that has an empty string. -/
theorem decode_outcome_wire_some_empty (v : Nat) (hv : v ≥ 1) (md : Metadata) (h : md.valid)
    (hne : ¬ md.nonempty) (rest : List Byte) :
    ∃ msg, decode_outcome v (md.wire ++ rest) = .error (.ReadMetadataError msg) := by
  obtain ⟨a1, a2, a3, a4⟩ := h
  simp only [Metadata.wire, List.append_assoc]
  by_cases b1 : 1 ≤ md.format_version_.length
  · by_cases b2 : 1 ≤ md.tool_name_.length
    · by_cases b3 : 1 ≤ md.tool_version_.length
      · have b4 : md.tool_info_.length = 0 := by
          by_contra hc
          exact hne ⟨b1, b2, b3, by omega⟩
        exact ⟨_, decode_outcome_at_tool_info v hv _ _ _ _ _ _ _ _ _ (le_bytes_length 4 _)
          ⟨b1, a1, by simp⟩ ⟨b2, a2, by simp⟩ ⟨b3, a3, by simp⟩
          (string_outcome_empty_field _ _ _ _ _ _ _ _ b4)⟩
      · exact ⟨_, decode_outcome_at_tool_version v hv _ _ _ _ _ _ _ (le_bytes_length 4 _)
          ⟨b1, a1, by simp⟩ ⟨b2, a2, by simp⟩
          (string_outcome_empty_field _ _ _ _ _ _ _ _ (by omega))⟩
    · exact ⟨_, decode_outcome_at_tool_name v _ _ _ _ _ (le_bytes_length 4 _)
        ⟨b1, a1, by simp⟩ (string_outcome_empty_field _ _ _ _ _ _ _ _ (by omega))⟩
  · exact ⟨_, decode_outcome_at_format_version v _ _ _ (le_bytes_length 4 _)
      (string_outcome_empty_field _ _ _ _ _ _ _ _ (by omega))⟩

/-! ## The streams the decoder accepts -/

theorem header_size_of_ge (v : Nat) (hv : v ≥ 1) : header_size v = 3628 := by
  unfold header_size
  rw [if_pos hv]

/-- The string block succeeds exactly when the field is complete and its size is between
1 and the maximum. -/
theorem string_outcome_accepts_iff (max_size : Nat) (m1 m2 m3 m4 : String) (r : List Byte) :
    (∃ str, string_outcome max_size m1 m2 m3 m4 r = .ok str) ↔
      8 + max_size ≤ r.length ∧ 1 ≤ le_value (r.take 8) ∧ le_value (r.take 8) ≤ max_size := by
  constructor
  · rintro ⟨str, h⟩
    obtain ⟨h1, h2, h3, -⟩ := (string_outcome_ok_iff _ _ _ _ _ _ _).1 h
    exact ⟨h1, h2, h3⟩
  · rintro ⟨h1, h2, h3⟩
    exact ⟨_, (string_outcome_ok_iff _ _ _ _ _ _ _).2 ⟨h1, h2, h3, rfl⟩⟩

/-- The decoder of version 1 or later succeeds exactly on 3628 bytes or more whose four
sizes are between 1 and the maximum of their field. -/
theorem decode_outcome_accepts_iff (v : Nat) (hv : v ≥ 1) (r : List Byte) :
    (∃ md, decode_outcome v r = .ok md) ↔
      3628 ≤ r.length
        ∧ (1 ≤ le_value ((r.drop 4).take 8) ∧ le_value ((r.drop 4).take 8) ≤ 512)
        ∧ (1 ≤ le_value ((r.drop 524).take 8) ∧ le_value ((r.drop 524).take 8) ≤ 512)
        ∧ (1 ≤ le_value ((r.drop 1044).take 8) ∧ le_value ((r.drop 1044).take 8) ≤ 512)
        ∧ (1 ≤ le_value ((r.drop 1564).take 8) ∧ le_value ((r.drop 1564).take 8) ≤ 2048) := by
  have hsz := header_size_of_ge v hv
  constructor
  · rintro ⟨md, h⟩
    obtain ⟨h0, -, h1, h2, h3, h4, -⟩ := (decode_outcome_ok_iff v r md).1 h
    rw [if_pos hv] at h3
    rw [hsz] at h0 h4
    obtain ⟨-, a1, b1⟩ := (string_outcome_accepts_iff _ _ _ _ _ _).1 ⟨_, h1⟩
    obtain ⟨-, a2, b2⟩ := (string_outcome_accepts_iff _ _ _ _ _ _).1 ⟨_, h2⟩
    obtain ⟨-, a3, b3⟩ := (string_outcome_accepts_iff _ _ _ _ _ _).1 ⟨_, h3⟩
    obtain ⟨-, a4, b4⟩ := (string_outcome_accepts_iff _ _ _ _ _ _).1 ⟨_, h4⟩
    exact ⟨h0, ⟨a1, b1⟩, ⟨a2, b2⟩, ⟨a3, b3⟩, ⟨a4, b4⟩⟩
  · rintro ⟨h0, ⟨a1, b1⟩, ⟨a2, b2⟩, ⟨a3, b3⟩, ⟨a4, b4⟩⟩
    obtain ⟨fv, k1⟩ := (string_outcome_accepts_iff format_version_max_size
      "Can't read enough data for the format version size"
      "Format version size is greater than the maximum value"
      "Can't read enough data for the format version"
      "Can't read enough data for the padding of the format version" (r.drop 4)).2
      ⟨by rw [List.length_drop]; simp only [format_version_max_size]; omega, a1, b1⟩
    obtain ⟨tn, k2⟩ := (string_outcome_accepts_iff tool_name_max_size
      "Can't read enough data for the tool name size"
      "Tool name size is greater than the maximum value"
      "Can't read enough data for the tool name"
      "Can't read enough data for the padding of the tool name" (r.drop 524)).2
      ⟨by rw [List.length_drop]; simp only [tool_name_max_size]; omega, a2, b2⟩
    obtain ⟨tv, k3⟩ := (string_outcome_accepts_iff tool_version_max_size
      "Can't read enough data for the tool version size"
      "Tool version size is greater than the maximum value"
      "Can't read enough data for the tool version"
      "Can't read enough data for the padding of the tool version" (r.drop 1044)).2
      ⟨by rw [List.length_drop]; simp only [tool_version_max_size]; omega, a3, b3⟩
    obtain ⟨ti, k4⟩ := (string_outcome_accepts_iff tool_info_max_size
      "Can't read enough data for the tool info size"
      "Tool info size is greater than the maximum value"
      "Can't read enough data for the tool info"
      "Can't read enough data for the padding of the tool info" (r.drop 1564)).2
      ⟨by rw [List.length_drop]; simp only [tool_info_max_size]; omega, a4, b4⟩
    refine ⟨{ type_ := to_u32 (le_value (r.take 4)), format_version_ := fv, tool_name_ := tn,
              tool_version_ := tv, tool_info_ := ti,
              generation_date_ := to_u64 (le_value ((r.drop 3620).take 8)) },
      (decode_outcome_ok_iff v r _).2 ?_⟩
    rw [hsz, if_pos hv]
    exact ⟨h0, rfl, k1, k2, k3, k4, rfl⟩

/-- The decoder of version 0 succeeds exactly on 3108 bytes or more whose three sizes are
between 1 and the maximum of their field. -/
theorem decode_outcome_accepts_iff_v0 (r : List Byte) :
    (∃ md, decode_outcome 0 r = .ok md) ↔
      3108 ≤ r.length
        ∧ (1 ≤ le_value ((r.drop 4).take 8) ∧ le_value ((r.drop 4).take 8) ≤ 512)
        ∧ (1 ≤ le_value ((r.drop 524).take 8) ∧ le_value ((r.drop 524).take 8) ≤ 512)
        ∧ (1 ≤ le_value ((r.drop 1044).take 8) ∧ le_value ((r.drop 1044).take 8) ≤ 2048) := by
  have hsz : header_size 0 = 3108 := rfl
  have hv0 : ¬ (0 ≥ 1) := by decide
  constructor
  · rintro ⟨md, h⟩
    obtain ⟨h0, -, h1, h2, -, h4, -⟩ := (decode_outcome_ok_iff 0 r md).1 h
    rw [hsz] at h0 h4
    obtain ⟨-, a1, b1⟩ := (string_outcome_accepts_iff _ _ _ _ _ _).1 ⟨_, h1⟩
    obtain ⟨-, a2, b2⟩ := (string_outcome_accepts_iff _ _ _ _ _ _).1 ⟨_, h2⟩
    obtain ⟨-, a4, b4⟩ := (string_outcome_accepts_iff _ _ _ _ _ _).1 ⟨_, h4⟩
    exact ⟨h0, ⟨a1, b1⟩, ⟨a2, b2⟩, ⟨a4, b4⟩⟩
  · rintro ⟨h0, ⟨a1, b1⟩, ⟨a2, b2⟩, ⟨a4, b4⟩⟩
    obtain ⟨fv, k1⟩ := (string_outcome_accepts_iff format_version_max_size
      "Can't read enough data for the format version size"
      "Format version size is greater than the maximum value"
      "Can't read enough data for the format version"
      "Can't read enough data for the padding of the format version" (r.drop 4)).2
      ⟨by rw [List.length_drop]; simp only [format_version_max_size]; omega, a1, b1⟩
    obtain ⟨tn, k2⟩ := (string_outcome_accepts_iff tool_name_max_size
      "Can't read enough data for the tool name size"
      "Tool name size is greater than the maximum value"
      "Can't read enough data for the tool name"
      "Can't read enough data for the padding of the tool name" (r.drop 524)).2
      ⟨by rw [List.length_drop]; simp only [tool_name_max_size]; omega, a2, b2⟩
    obtain ⟨ti, k4⟩ := (string_outcome_accepts_iff tool_info_max_size
      "Can't read enough data for the tool info size"
      "Tool info size is greater than the maximum value"
      "Can't read enough data for the tool info"
      "Can't read enough data for the padding of the tool info" (r.drop 1044)).2
      ⟨by rw [List.length_drop]; simp only [tool_info_max_size]; omega, a4, b4⟩
    refine ⟨{ type_ := to_u32 (le_value (r.take 4)), format_version_ := fv, tool_name_ := tn,
              tool_version_ := chars "1.0.0-prerelease", tool_info_ := ti,
              generation_date_ := to_u64 (le_value ((r.drop 3100).take 8)) },
      (decode_outcome_ok_iff 0 r _).2 ?_⟩
    rw [hsz, if_neg hv0]
    exact ⟨h0, rfl, k1, k2, rfl, k4, rfl⟩

/-- The stream of a created writer, with the get cursor set behind the magic and the
header version: it is good and the header bytes of the metadata are what is left. -/
theorem Writer.created_seekg (s : Stream) (md : Metadata) (w : Writer) (hmd : md.valid)
    (h : Writer.create s md = .ok w) :
    (w.stream_.seekg 12).fail = false ∧ (w.stream_.seekg 12).gpos = 12
      ∧ (w.stream_.seekg 12).remaining = md.wire ++ s.data.drop 3640
      ∧ w.md_size_ = 3640 := by
  obtain ⟨hs, hw⟩ := Writer.create_ok s md w hmd h
  subst hw
  have hlen : 12 ≤ (resource_header md ++ s.data.drop 3640).length := by
    rw [List.length_append, resource_header_length md hmd]
    omega
  have hseek : ({ s with data := resource_header md ++ s.data.drop 3640, ppos := 3640 }
      : Stream).seekg 12
      = { s with data := resource_header md ++ s.data.drop 3640, ppos := 3640, gpos := 12 } := by
    simpa using Stream.seekg_of_le
      { s with data := resource_header md ++ s.data.drop 3640, ppos := 3640 } 12 hs hlen
  rw [hseek]
  refine ⟨hs, rfl, ?_, rfl⟩
  simp only [Stream.remaining, resource_header, List.append_assoc]
  exact (resource_start magic metadata_version _).2.2.2

/-! ## Truncated headers -/

theorem take_append_of_le (l1 l2 : List Byte) (n m : Nat) (h : l1.length + m = n) :
    (l1 ++ l2).take n = l1 ++ l2.take m := by
  subst h
  exact List.take_append m

theorem field_bytes_length_of_ok (max_size : Nat) (str padding : List Byte)
    (h : field_ok max_size str padding) : (field_bytes str padding).length = 8 + max_size := by
  obtain ⟨h1, h2, h3⟩ := h
  rw [field_bytes_length, h3]
  omega

/-- The string block on a field cut after `j` bytes. -/
theorem string_outcome_truncated (max_size : Nat) (m1 m2 m3 m4 : String)
    (str padding rest : List Byte) (j : Nat) (h : field_ok max_size str padding)
    (hmax : max_size < 2 ^ 64) (hj : j < 8 + max_size) :
    string_outcome max_size m1 m2 m3 m4 ((field_bytes str padding ++ rest).take j)
      = .error (.ReadMetadataError (field_region_message m1 m3 m4 str.length j)) := by
  have hlen := field_bytes_length_of_ok max_size str padding h
  obtain ⟨h1, h2, h3⟩ := h
  have hv : le_value (le_bytes 8 str.length) = str.length :=
    le_value_le_bytes_of_lt 8 _ (by norm_num; omega)
  have hl : ((field_bytes str padding ++ rest).take j).length = j := by
    rw [List.length_take, List.length_append, hlen]
    omega
  unfold string_outcome field_region_message
  rw [hl]
  by_cases c1 : j < 8
  · rw [if_pos c1, if_pos c1]
  · have ht : ((field_bytes str padding ++ rest).take j).take 8 = le_bytes 8 str.length := by
      rw [List.take_take, Nat.min_eq_left (by omega)]
      unfold field_bytes
      rw [List.append_assoc]
      exact take_size_bytes _ _
    rw [if_neg c1, if_neg c1, ht, hv, if_neg (by omega)]
    by_cases c2 : j < 8 + str.length
    · rw [if_pos (Or.inr c2), if_pos c2]
    · rw [if_neg (by omega), if_neg c2, if_pos hj]

/-- The decoder on a well-formed header of version 1 cut after `k` bytes. -/
theorem decode_outcome_truncated (h : WireHeader) (hwf : h.well_formed 1) (k : Nat)
    (hk : k < 3628) :
    decode_outcome 1 ((h.bytes 1).take k)
      = .error (.ReadMetadataError (region_message h k)) := by
  obtain ⟨h0, h1, h2, hv, h4, h5⟩ := hwf
  have hv1 : (1 : Nat) ≥ 1 := Nat.le_refl 1
  have h3 := hv hv1
  have l1 := field_bytes_length_of_ok _ _ _ h1
  have l2 := field_bytes_length_of_ok _ _ _ h2
  have l3 := field_bytes_length_of_ok _ _ _ h3
  have l4 := field_bytes_length_of_ok _ _ _ h4
  simp only [format_version_max_size, tool_name_max_size, tool_version_max_size,
    tool_info_max_size] at l1 l2 l3 l4
  simp only [WireHeader.bytes, WireHeader.tool_version_bytes, if_pos hv1]
  unfold region_message
  by_cases c0 : k < 4
  · rw [if_pos c0]
    unfold decode_outcome
    rw [if_pos (by rw [List.length_take]; omega)]
  rw [if_neg c0, take_append_of_le _ _ k (k - 4) (by omega)]
  by_cases c1 : k < 524
  · rw [if_pos c1]
    apply decode_outcome_at_format_version 1 _ _ _ h0
    unfold format_version_outcome
    exact string_outcome_truncated _ _ _ _ _ _ _ _ _ h1 (by decide)
      (by simp only [format_version_max_size]; omega)
  rw [if_neg c1, take_append_of_le _ _ (k - 4) (k - 524) (by omega)]
  by_cases c2 : k < 1044
  · rw [if_pos c2]
    apply decode_outcome_at_tool_name 1 _ _ _ _ _ h0 h1
    unfold tool_name_outcome
    exact string_outcome_truncated _ _ _ _ _ _ _ _ _ h2 (by decide)
      (by simp only [tool_name_max_size]; omega)
  rw [if_neg c2, take_append_of_le _ _ (k - 524) (k - 1044) (by omega)]
  by_cases c3 : k < 1564
  · rw [if_pos c3]
    apply decode_outcome_at_tool_version 1 hv1 _ _ _ _ _ _ _ h0 h1 h2
    unfold tool_version_outcome
    exact string_outcome_truncated _ _ _ _ _ _ _ _ _ h3 (by decide)
      (by simp only [tool_version_max_size]; omega)
  rw [if_neg c3, take_append_of_le _ _ (k - 1044) (k - 1564) (by omega)]
  by_cases c4 : k < 3620
  · rw [if_pos c4]
    apply decode_outcome_at_tool_info 1 hv1 _ _ _ _ _ _ _ _ _ h0 h1 h2 h3
    unfold tool_info_outcome
    exact string_outcome_truncated _ _ _ _ _ _ _ _ _ h4 (by decide)
      (by simp only [tool_info_max_size]; omega)
  rw [if_neg c4, take_append_of_le _ _ (k - 1564) (k - 3620) (by omega)]
  exact decode_outcome_at_generation_date 1 hv1 _ _ _ _ _ _ _ _ _ _ h0 h1 h2 h3 h4
    (by rw [List.length_take]; omega)

/-! ## The codec on a stream that throws -/

theorem only_write_failures_bind {σ α β : Type} (io : ThrowingStream σ) (x : Except Thrown α)
    (f : α → Except Thrown β) (hx : only_write_failures io x)
    (hf : ∀ a, only_write_failures io (f a)) : only_write_failures io (x >>= f) := by
  intro t h
  cases x with
  | error e =>
    have h2 : (Except.error e : Except Thrown β) = .error t := h
    exact hx t (by rw [Except.error.inj h2])
  | ok a => exact hf a t h

theorem only_write_failures_write {σ : Type} (io : ThrowingStream σ) (s : σ)
    (bytes : List Byte) : only_write_failures io (in_try (io.write s bytes)) := by
  intro t h
  cases hw : io.write s bytes with
  | error what =>
    rw [hw] at h
    exact ⟨what, s, bytes, hw, (Except.error.inj h).symm⟩
  | ok a =>
    rw [hw] at h
    cases h

theorem only_write_failures_pure {σ α : Type} (io : ThrowingStream σ) (a : α) :
    only_write_failures io (pure a : Except Thrown α) := by
  intro t h
  cases h

theorem only_write_failures_ite {σ α : Type} (io : ThrowingStream σ) (c : Prop) [Decidable c]
    (x y : Except Thrown α) (hx : only_write_failures io x) (hy : only_write_failures io y) :
    only_write_failures io (if c then x else y) := by
  by_cases hc : c
  · rw [if_pos hc]; exact hx
  · rw [if_neg hc]; exact hy

/-- Inside the `try` block of `Metadata::serialize` only the writes throw. -/
theorem serialize_try_failures {σ : Type} (io : ThrowingStream σ) (md : Metadata) (out : σ) :
    only_write_failures io (md.serialize_try io out) := by
  unfold Metadata.serialize_try
  refine only_write_failures_bind io _ _ (only_write_failures_write io _ _) (fun out => ?_)
  refine only_write_failures_bind io _ _ (only_write_failures_write io _ _) (fun out => ?_)
  refine only_write_failures_bind io _ _ (only_write_failures_write io _ _) (fun out => ?_)
  refine only_write_failures_bind io _ _ (by
      apply only_write_failures_ite
      · exact only_write_failures_write io _ _
      · exact only_write_failures_pure io _) (fun out => ?_)
  refine only_write_failures_bind io _ _ (only_write_failures_write io _ _) (fun out => ?_)
  refine only_write_failures_bind io _ _ (only_write_failures_write io _ _) (fun out => ?_)
  refine only_write_failures_bind io _ _ (by
      apply only_write_failures_ite
      · exact only_write_failures_write io _ _
      · exact only_write_failures_pure io _) (fun out => ?_)
  refine only_write_failures_bind io _ _ (only_write_failures_write io _ _) (fun out => ?_)
  refine only_write_failures_bind io _ _ (only_write_failures_write io _ _) (fun out => ?_)
  refine only_write_failures_bind io _ _ (by
      apply only_write_failures_ite
      · exact only_write_failures_write io _ _
      · exact only_write_failures_pure io _) (fun out => ?_)
  refine only_write_failures_bind io _ _ (only_write_failures_write io _ _) (fun out => ?_)
  refine only_write_failures_bind io _ _ (only_write_failures_write io _ _) (fun out => ?_)
  refine only_write_failures_bind io _ _ (by
      apply only_write_failures_ite
      · exact only_write_failures_write io _ _
      · exact only_write_failures_pure io _) (fun out => ?_)
  exact only_write_failures_write io _ _

theorem only_read_failures_bind {σ α β : Type} (io : ThrowingStream σ) (x : Except Thrown α)
    (f : α → Except Thrown β) (hx : only_read_failures io x)
    (hf : ∀ a, only_read_failures io (f a)) : only_read_failures io (x >>= f) := by
  intro t h
  cases x with
  | error e =>
    have h2 : (Except.error e : Except Thrown β) = .error t := h
    exact hx t (by rw [Except.error.inj h2])
  | ok a => exact hf a t h

theorem only_read_failures_read {σ : Type} (io : ThrowingStream σ) (s : σ) (n : Nat) :
    only_read_failures io (in_try (io.read s n)) := by
  intro t h
  cases hw : io.read s n with
  | error what =>
    rw [hw] at h
    exact Or.inl ⟨what, s, n, hw, (Except.error.inj h).symm⟩
  | ok a =>
    rw [hw] at h
    cases h

theorem only_read_failures_pure {σ α : Type} (io : ThrowingStream σ) (a : α) :
    only_read_failures io (pure a : Except Thrown α) := by
  intro t h
  cases h

theorem only_read_failures_throw {σ α : Type} (io : ThrowingStream σ) (msg : String) :
    only_read_failures io
      (throw (Thrown.error (.ReadMetadataError msg)) : Except Thrown α) := by
  intro t h
  exact Or.inr ⟨msg, (Except.error.inj h).symm⟩

theorem only_read_failures_ite {σ α : Type} (io : ThrowingStream σ) (c : Prop) [Decidable c]
    (x y : Except Thrown α) (hx : only_read_failures io x) (hy : only_read_failures io y) :
    only_read_failures io (if c then x else y) := by
  by_cases hc : c
  · rw [if_pos hc]; exact hx
  · rw [if_neg hc]; exact hy

/-- Inside the string block only the reads throw a failure; its own exceptions are
`ReadMetadataError`s. -/
theorem deserialize_string_throwing_failures {σ : Type} (io : ThrowingStream σ)
    (max_size : Nat) (m1 m2 m3 m4 : String) (input : σ) :
    only_read_failures io (deserialize_string_throwing io max_size m1 m2 m3 m4 input) := by
  unfold deserialize_string_throwing
  refine only_read_failures_bind io _ _ (only_read_failures_read io _ _) (fun size_read => ?_)
  apply only_read_failures_ite
  · exact only_read_failures_throw io _
  apply only_read_failures_ite
  · exact only_read_failures_throw io _
  refine only_read_failures_bind io _ _ (only_read_failures_read io _ _) (fun content_read => ?_)
  apply only_read_failures_ite
  · exact only_read_failures_throw io _
  apply only_read_failures_ite
  · refine only_read_failures_bind io _ _ (only_read_failures_read io _ _)
      (fun padding_read => ?_)
    apply only_read_failures_ite
    · exact only_read_failures_throw io _
    · exact only_read_failures_pure io _
  · exact only_read_failures_pure io _

/-- Inside the `try` block of `Metadata::deserialize` only the reads throw a failure; its
own exceptions are `ReadMetadataError`s. -/
theorem deserialize_try_failures {σ : Type} (io : ThrowingStream σ) (v : Nat) (input : σ) :
    only_read_failures io (Metadata.deserialize_try io v input) := by
  unfold Metadata.deserialize_try
  refine only_read_failures_bind io _ _ (only_read_failures_read io _ _) (fun type_read => ?_)
  apply only_read_failures_ite
  · exact only_read_failures_throw io _
  refine only_read_failures_bind io _ _ (deserialize_string_throwing_failures io _ _ _ _ _ _)
    (fun format_version => ?_)
  refine only_read_failures_bind io _ _ (deserialize_string_throwing_failures io _ _ _ _ _ _)
    (fun tool_name => ?_)
  refine only_read_failures_bind io _ _ (by
      apply only_read_failures_ite
      · exact deserialize_string_throwing_failures io _ _ _ _ _ _
      · exact only_read_failures_pure io _) (fun tool_version => ?_)
  refine only_read_failures_bind io _ _ (deserialize_string_throwing_failures io _ _ _ _ _ _)
    (fun tool_info => ?_)
  refine only_read_failures_bind io _ _ (only_read_failures_read io _ _) (fun date_read => ?_)
  apply only_read_failures_ite
  · exact only_read_failures_throw io _
  · exact only_read_failures_pure io _

/-- On a stream that throws nothing, `Metadata::serialize` is the function embedded for the
default mask. -/
theorem serialize_throwing_quiet (md : Metadata) (out : Stream) :
    md.serialize_throwing Stream.quiet out = .ok (md.serialize out) := by
  unfold Metadata.serialize_throwing Metadata.serialize_try Metadata.serialize
  simp only [Stream.quiet, in_try, bind, Except.bind]
  split_ifs <;> rfl

theorem deserialize_string_throwing_quiet (max_size : Nat) (m1 m2 m3 m4 : String)
    (s : Stream) :
    deserialize_string_throwing Stream.quiet max_size m1 m2 m3 m4 s
      = as_thrown (deserialize_string max_size m1 m2 m3 m4 s) := by
  unfold deserialize_string_throwing deserialize_string
  simp only [Stream.quiet, in_try, bind, Except.bind]
  split_ifs <;> rfl

/-- On a stream that throws nothing, `Metadata::deserialize` is the function embedded for
the default mask. -/
theorem deserialize_throwing_quiet (v : Nat) (s : Stream) :
    Metadata.deserialize_throwing Stream.quiet v s = as_thrown (Metadata.deserialize v s) := by
  unfold Metadata.deserialize_throwing Metadata.deserialize_try Metadata.deserialize
  simp only [deserialize_string_throwing_quiet]
  simp only [Stream.quiet, in_try, bind, Except.bind, pure, Except.pure, as_thrown]
  by_cases h0 : (s.read 4).1.length ≠ 4
  · simp only [if_pos h0]
  simp only [if_neg h0]
  by_cases hv : v ≥ 1
  · simp only [if_pos hv]
    rcases h1 : deserialize_string format_version_max_size
        "Can't read enough data for the format version size"
        "Format version size is greater than the maximum value"
        "Can't read enough data for the format version"
        "Can't read enough data for the padding of the format version" (s.read 4).2 with ⟨r1, s1⟩
    cases r1 with
    | error e => rfl
    | ok str1 =>
      simp only []
      rcases h2 : deserialize_string tool_name_max_size
          "Can't read enough data for the tool name size"
          "Tool name size is greater than the maximum value"
          "Can't read enough data for the tool name"
          "Can't read enough data for the padding of the tool name" s1 with ⟨r2, s2⟩
      cases r2 with
      | error e => rfl
      | ok str2 =>
        simp only []
        rcases h3 : deserialize_string tool_version_max_size
            "Can't read enough data for the tool version size"
            "Tool version size is greater than the maximum value"
            "Can't read enough data for the tool version"
            "Can't read enough data for the padding of the tool version" s2 with ⟨r3, s3⟩
        cases r3 with
        | error e => rfl
        | ok str3 =>
          simp only []
          rcases h4 : deserialize_string tool_info_max_size
              "Can't read enough data for the tool info size"
              "Tool info size is greater than the maximum value"
              "Can't read enough data for the tool info"
              "Can't read enough data for the padding of the tool info" s3 with ⟨r4, s4⟩
          cases r4 with
          | error e => rfl
          | ok str4 =>
            simp only []
            by_cases hd : (s4.read 8).1.length ≠ 8
            · simp only [if_pos hd]
            · simp only [if_neg hd]
  · simp only [if_neg hv]
    rcases h1 : deserialize_string format_version_max_size
        "Can't read enough data for the format version size"
        "Format version size is greater than the maximum value"
        "Can't read enough data for the format version"
        "Can't read enough data for the padding of the format version" (s.read 4).2 with ⟨r1, s1⟩
    cases r1 with
    | error e => rfl
    | ok str1 =>
      simp only []
      rcases h2 : deserialize_string tool_name_max_size
          "Can't read enough data for the tool name size"
          "Tool name size is greater than the maximum value"
          "Can't read enough data for the tool name"
          "Can't read enough data for the padding of the tool name" s1 with ⟨r2, s2⟩
      cases r2 with
      | error e => rfl
      | ok str2 =>
        simp only []
        rcases h3 : deserialize_string tool_info_max_size
            "Can't read enough data for the tool info size"
            "Tool info size is greater than the maximum value"
            "Can't read enough data for the tool info"
            "Can't read enough data for the padding of the tool info" s2 with ⟨r3, s3⟩
        cases r3 with
        | error e => rfl
        | ok str3 =>
          simp only []
          by_cases hd : (s3.read 8).1.length ≠ 8
          · simp only [if_pos hd]
          · simp only [if_neg hd]


/-- An exception of `Metadata::serialize` is a `WriteMetadataError` that holds the text of
a failure thrown by a `write` of the stream. -/
theorem serialize_throwing_error {σ : Type} (io : ThrowingStream σ) (md : Metadata) (out : σ)
    (t : Thrown) (h : md.serialize_throwing io out = .error t) :
    ∃ what s bytes, io.write s bytes = .error what
      ∧ t = .error (.WriteMetadataError ("IO error: " ++ what)) := by
  unfold Metadata.serialize_throwing at h
  cases hb : md.serialize_try io out with
  | ok r =>
    rw [hb] at h
    cases h
  | error t2 =>
    obtain ⟨what, s, bytes, hw, ht⟩ := serialize_try_failures io md out t2 hb
    subst ht
    rw [hb] at h
    exact ⟨what, s, bytes, hw, (Except.error.inj h).symm⟩

/-- A failure thrown inside the `try` block of `Metadata::serialize` leaves the function
as a `WriteMetadataError` with the text of the failure. -/
theorem serialize_throwing_of_failure {σ : Type} (io : ThrowingStream σ) (md : Metadata)
    (out : σ) (what : String) (h : md.serialize_try io out = .error (.failure what)) :
    md.serialize_throwing io out
      = .error (.error (.WriteMetadataError ("IO error: " ++ what))) := by
  unfold Metadata.serialize_throwing
  rw [h]

/-- The first `write` of `Metadata::serialize` throwing. -/
theorem serialize_try_first_write {σ : Type} (io : ThrowingStream σ) (md : Metadata) (out : σ)
    (what : String) (h : io.write out (le_bytes 4 md.type_.val) = .error what) :
    md.serialize_try io out = .error (.failure what) := by
  unfold Metadata.serialize_try
  rw [h]
  rfl

/-- An exception of `Metadata::deserialize` is a `ReadMetadataError`; when it comes from a
failure of the stream it holds the text of a failure thrown by a `read`. -/
theorem deserialize_throwing_error {σ : Type} (io : ThrowingStream σ) (v : Nat) (input : σ)
    (t : Thrown) (h : Metadata.deserialize_throwing io v input = .error t) :
    (∃ what s n, io.read s n = .error what
        ∧ Metadata.deserialize_try io v input = .error (.failure what)
        ∧ t = .error (.ReadMetadataError ("IO error: " ++ what)))
      ∨ (∃ msg, Metadata.deserialize_try io v input = .error (.error (.ReadMetadataError msg))
        ∧ t = .error (.ReadMetadataError msg)) := by
  unfold Metadata.deserialize_throwing at h
  cases hb : Metadata.deserialize_try io v input with
  | ok r =>
    rw [hb] at h
    cases h
  | error t2 =>
    rw [hb] at h
    rcases deserialize_try_failures io v input t2 hb with ⟨what, s, n, hw, ht⟩ | ⟨msg, ht⟩
    · subst ht
      exact Or.inl ⟨what, s, n, hw, rfl, (Except.error.inj h).symm⟩
    · subst ht
      exact Or.inr ⟨msg, rfl, (Except.error.inj h).symm⟩

/-- A failure thrown inside the `try` block of `Metadata::deserialize` leaves the function
as a `ReadMetadataError` with the text of the failure. -/
theorem deserialize_throwing_of_failure {σ : Type} (io : ThrowingStream σ) (v : Nat)
    (input : σ) (what : String)
    (h : Metadata.deserialize_try io v input = .error (.failure what)) :
    Metadata.deserialize_throwing io v input
      = .error (.error (.ReadMetadataError ("IO error: " ++ what))) := by
  unfold Metadata.deserialize_throwing
  rw [h]

/-- The first `read` of `Metadata::deserialize` throwing. -/
theorem deserialize_try_first_read {σ : Type} (io : ThrowingStream σ) (v : Nat) (input : σ)
    (what : String) (h : io.read input 4 = .error what) :
    Metadata.deserialize_try io v input = .error (.failure what) := by
  unfold Metadata.deserialize_try
  rw [h]
  rfl

/-- With the mask `failbit`, `read` on a failed stream throws. -/
theorem failbit_mask_of_fail (what : String) (s : Stream) (hs : s.fail = true) (n : Nat) :
    (Stream.failbit_mask what).read s n = .error what := by
  show (if (s.read n).2.fail then _ else _) = _
  rw [Stream.read_of_fail s n hs, if_pos hs]

/-- With the mask `failbit`, `Metadata::serialize` throws nothing: it is the function
embedded for the default mask. -/
theorem serialize_throwing_failbit_mask (what : String) (md : Metadata) (out : Stream) :
    md.serialize_throwing (Stream.failbit_mask what) out = .ok (md.serialize out) := by
  unfold Metadata.serialize_throwing Metadata.serialize_try Metadata.serialize
  simp only [Stream.failbit_mask, in_try, bind, Except.bind]
  split_ifs <;> rfl

/-- On a failed stream `Metadata::serialize` writes nothing. -/
theorem serialize_of_fail (md : Metadata) (out : Stream) (hs : out.fail = true) :
    md.serialize out = out := by
  rw [serialize_eq_write, Stream.write_of_fail out _ hs]

/-! ## Bytes the decoder does not look at -/

theorem take_drop_congr (a b : List Byte) (o n : Nat)
    (h : ∀ i : Nat, o ≤ i → i < o + n → a[i]? = b[i]?) :
    (a.drop o).take n = (b.drop o).take n := by
  apply List.ext_getElem?
  intro j
  rw [List.getElem?_take, List.getElem?_take]
  by_cases hj : j < n
  · rw [if_pos hj, if_pos hj, List.getElem?_drop, List.getElem?_drop]
    exact h (o + j) (by omega) (by omega)
  · rw [if_neg hj, if_neg hj]

/-- The string block looks at the length of what is left, at the size and at the content
the size declares. -/
theorem string_outcome_congr (max_size : Nat) (m1 m2 m3 m4 : String) (a b : List Byte)
    (hl : a.length = b.length) (h8 : a.take 8 = b.take 8)
    (hc : le_value (a.take 8) ≤ max_size →
      (a.drop 8).take (le_value (a.take 8)) = (b.drop 8).take (le_value (a.take 8))) :
    string_outcome max_size m1 m2 m3 m4 a = string_outcome max_size m1 m2 m3 m4 b := by
  unfold string_outcome
  rw [← h8, ← hl]
  by_cases c1 : a.length < 8
  · rw [if_pos c1, if_pos c1]
  rw [if_neg c1, if_neg c1]
  by_cases c2 : le_value (a.take 8) > max_size
  · rw [if_pos c2, if_pos c2]
  rw [if_neg c2, if_neg c2, hc (by omega)]

/-- The decoder looks at the type, at the four string blocks and at the generation date. -/
theorem decode_outcome_congr (v : Nat) (a b : List Byte) (hl : a.length = b.length)
    (h0 : a.take 4 = b.take 4)
    (h1 : format_version_outcome (a.drop 4) = format_version_outcome (b.drop 4))
    (h2 : tool_name_outcome (a.drop 524) = tool_name_outcome (b.drop 524))
    (h3 : v ≥ 1 → tool_version_outcome (a.drop 1044) = tool_version_outcome (b.drop 1044))
    (h4 : tool_info_outcome (a.drop (header_size v - 2064))
      = tool_info_outcome (b.drop (header_size v - 2064)))
    (h5 : (a.drop (header_size v - 8)).take 8 = (b.drop (header_size v - 8)).take 8) :
    decode_outcome v a = decode_outcome v b := by
  by_cases hv : v ≥ 1
  · rw [header_size_of_ge v hv] at h4 h5
    simp only [Nat.reduceSub] at h4 h5
    unfold decode_outcome
    simp only [if_pos hv, List.drop_drop, List.length_drop, format_version_max_size,
      tool_name_max_size, tool_version_max_size, tool_info_max_size, Nat.reduceAdd]
    rw [hl, h0, h1, h2, h3 hv, h4, h5]
  · have hv0 : v = 0 := by omega
    subst hv0
    have hsz : header_size 0 = 3108 := rfl
    rw [hsz] at h4 h5
    simp only [Nat.reduceSub] at h4 h5
    unfold decode_outcome
    simp only [if_neg hv, List.drop_drop, List.length_drop, format_version_max_size,
      tool_name_max_size, tool_version_max_size, tool_info_max_size, Nat.reduceAdd]
    rw [hl, h0, h1, h2, h4, h5]

/-- The string block at the offset `o` gives the same on two byte strings of one length
that agree on the size and, when the size is within the maximum, on the declared
content. -/
theorem string_outcome_at_offset (max_size : Nat) (m1 m2 m3 m4 : String) (a b : List Byte)
    (o : Nat) (hl : a.length = b.length)
    (h : ∀ i : Nat, o ≤ i →
      (i < o + 8 ∨ (declared_size a o ≤ max_size ∧ i < o + 8 + declared_size a o)) →
      a[i]? = b[i]?) :
    string_outcome max_size m1 m2 m3 m4 (a.drop o)
      = string_outcome max_size m1 m2 m3 m4 (b.drop o) := by
  apply string_outcome_congr
  · rw [List.length_drop, List.length_drop, hl]
  · exact take_drop_congr a b o 8 (fun i h1 h2 => h i h1 (Or.inl h2))
  · intro hle
    rw [List.drop_drop, List.drop_drop]
    exact take_drop_congr a b (o + 8) _ (fun i h1 h2 => h i (by omega) (Or.inr ⟨hle, h2⟩))

/-- The decoder gives the same on two byte strings that differ only in padding regions. -/
theorem decode_outcome_padding (v : Nat) (r1 r2 : List Byte)
    (h : differ_only_in_padding v r1 r2) : decode_outcome v r1 = decode_outcome v r2 := by
  obtain ⟨hl, hp⟩ := h
  have h0 : r1.take 4 = r2.take 4 := by
    have := take_drop_congr r1 r2 0 4 (fun i _ h2 => hp i (by
      intro hc
      unfold in_padding at hc
      split_ifs at hc <;> omega))
    simpa using this
  by_cases hv : v ≥ 1
  · have hsz := header_size_of_ge v hv
    apply decode_outcome_congr v r1 r2 hl h0
    · exact string_outcome_at_offset _ _ _ _ _ r1 r2 4 hl (fun i h1 h2 => hp i (by
        intro hc
        unfold in_padding at hc
        simp only [if_pos hv, format_version_max_size] at hc h2
        omega))
    · exact string_outcome_at_offset _ _ _ _ _ r1 r2 524 hl (fun i h1 h2 => hp i (by
        intro hc
        unfold in_padding at hc
        simp only [if_pos hv, tool_name_max_size] at hc h2
        omega))
    · intro _
      exact string_outcome_at_offset _ _ _ _ _ r1 r2 1044 hl (fun i h1 h2 => hp i (by
        intro hc
        unfold in_padding at hc
        simp only [if_pos hv, tool_version_max_size] at hc h2
        omega))
    · rw [hsz]
      exact string_outcome_at_offset _ _ _ _ _ r1 r2 1564 hl (fun i h1 h2 => hp i (by
        intro hc
        unfold in_padding at hc
        simp only [if_pos hv, tool_info_max_size] at hc h2
        omega))
    · rw [hsz]
      exact take_drop_congr r1 r2 3620 8 (fun i h1 h2 => hp i (by
        intro hc
        unfold in_padding at hc
        simp only [if_pos hv] at hc
        omega))
  · have hv0 : v = 0 := by omega
    subst hv0
    have hsz : header_size 0 = 3108 := rfl
    apply decode_outcome_congr 0 r1 r2 hl h0
    · exact string_outcome_at_offset _ _ _ _ _ r1 r2 4 hl (fun i h1 h2 => hp i (by
        intro hc
        unfold in_padding at hc
        simp only [if_neg hv, format_version_max_size] at hc h2
        omega))
    · exact string_outcome_at_offset _ _ _ _ _ r1 r2 524 hl (fun i h1 h2 => hp i (by
        intro hc
        unfold in_padding at hc
        simp only [if_neg hv, tool_name_max_size] at hc h2
        omega))
    · intro hc
      exact absurd hc hv
    · rw [hsz]
      exact string_outcome_at_offset _ _ _ _ _ r1 r2 1044 hl (fun i h1 h2 => hp i (by
        intro hc
        unfold in_padding at hc
        simp only [if_neg hv, tool_info_max_size] at hc h2
        omega))
    · rw [hsz]
      exact take_drop_congr r1 r2 3100 8 (fun i h1 h2 => hp i (by
        intro hc
        unfold in_padding at hc
        simp only [if_neg hv] at hc
        omega))

theorem append_same_getElem (A X Y : List Byte) (i : Nat)
    (h : A.length ≤ i → X[i - A.length]? = Y[i - A.length]?) :
    (A ++ X)[i]? = (A ++ Y)[i]? := by
  rcases Nat.lt_or_ge i A.length with c | c
  · rw [List.getElem?_append_left c, List.getElem?_append_left c]
  · rw [List.getElem?_append_right c, List.getElem?_append_right c]
    exact h c

theorem append_skip_getElem (P Q X Y : List Byte) (i : Nat) (hl : P.length = Q.length)
    (hi : P.length ≤ i) (h : X[i - P.length]? = Y[i - P.length]?) :
    (P ++ X)[i]? = (Q ++ Y)[i]? := by
  rw [List.getElem?_append_right hi, List.getElem?_append_right (hl ▸ hi), ← hl]
  exact h

/-- The size declared at the start of a field. -/
theorem declared_size_field (a str padding rest : List Byte) (hs : str.length < 2 ^ 64) :
    declared_size (a ++ (field_bytes str padding ++ rest)) a.length = str.length := by
  unfold declared_size field_bytes
  rw [List.drop_left, List.append_assoc, take_size_bytes]
  exact le_value_le_bytes_of_lt 8 _ (by norm_num at hs ⊢; omega)

/-- Two fields with the same string differ only in their padding. -/
theorem field_bytes_getElem (max_size : Nat) (str p q X Y : List Byte) (j : Nat)
    (hp : field_ok max_size str p) (hq : field_ok max_size str q)
    (hj : ¬ (8 + str.length ≤ j ∧ j < 8 + max_size))
    (h : 8 + max_size ≤ j → X[j - (8 + max_size)]? = Y[j - (8 + max_size)]?) :
    (field_bytes str p ++ X)[j]? = (field_bytes str q ++ Y)[j]? := by
  obtain ⟨a1, a2, a3⟩ := hp
  obtain ⟨b1, b2, b3⟩ := hq
  have e8 := le_bytes_length 8 str.length
  unfold field_bytes
  simp only [List.append_assoc]
  apply append_same_getElem
  intro c1
  apply append_same_getElem
  intro c2
  apply append_skip_getElem _ _ _ _ _ (by omega) (by omega)
  have e : j - (le_bytes 8 str.length).length - str.length - p.length = j - (8 + max_size) := by
    omega
  rw [e]
  exact h (by omega)

/-- Two headers of version 1 or later with the same type, strings and generation date
differ only in padding regions. -/
theorem layout_differ_only_in_padding (v : Nat) (hv : v ≥ 1)
    (t f1 p1 q1 f2 p2 q2 f3 p3 q3 f4 p4 q4 d : List Byte) (ht : t.length = 4)
    (k1 : field_ok format_version_max_size f1 p1) (j1 : field_ok format_version_max_size f1 q1)
    (k2 : field_ok tool_name_max_size f2 p2) (j2 : field_ok tool_name_max_size f2 q2)
    (k3 : field_ok tool_version_max_size f3 p3) (j3 : field_ok tool_version_max_size f3 q3)
    (k4 : field_ok tool_info_max_size f4 p4) (j4 : field_ok tool_info_max_size f4 q4) :
    differ_only_in_padding v
      (t ++ (field_bytes f1 p1 ++ (field_bytes f2 p2 ++ (field_bytes f3 p3
        ++ (field_bytes f4 p4 ++ d)))))
      (t ++ (field_bytes f1 q1 ++ (field_bytes f2 q2 ++ (field_bytes f3 q3
        ++ (field_bytes f4 q4 ++ d))))) := by
  have l1 := field_bytes_length_of_ok _ _ _ k1
  have l2 := field_bytes_length_of_ok _ _ _ k2
  have l3 := field_bytes_length_of_ok _ _ _ k3
  have m1 := field_bytes_length_of_ok _ _ _ j1
  have m2 := field_bytes_length_of_ok _ _ _ j2
  have m3 := field_bytes_length_of_ok _ _ _ j3
  have l4 := field_bytes_length_of_ok _ _ _ k4
  have m4 := field_bytes_length_of_ok _ _ _ j4
  have b1 := k1.2.1
  have b2 := k2.2.1
  have b3 := k3.2.1
  have b4 := k4.2.1
  simp only [format_version_max_size, tool_name_max_size, tool_version_max_size,
    tool_info_max_size] at l1 l2 l3 l4 m1 m2 m3 m4 b1 b2 b3 b4
  constructor
  · simp only [List.length_append, l1, l2, l3, l4, m1, m2, m3, m4]
  · intro i hi
    have s1 : declared_size (t ++ (field_bytes f1 p1 ++ (field_bytes f2 p2 ++ (field_bytes f3 p3
        ++ (field_bytes f4 p4 ++ d))))) 4 = f1.length := by
      have := declared_size_field t f1 p1 (field_bytes f2 p2 ++ (field_bytes f3 p3
        ++ (field_bytes f4 p4 ++ d))) (by norm_num; omega)
      rwa [ht] at this
    have s2 : declared_size (t ++ (field_bytes f1 p1 ++ (field_bytes f2 p2 ++ (field_bytes f3 p3
        ++ (field_bytes f4 p4 ++ d))))) 524 = f2.length := by
      have := declared_size_field (t ++ field_bytes f1 p1) f2 p2 (field_bytes f3 p3
        ++ (field_bytes f4 p4 ++ d)) (by norm_num; omega)
      rwa [List.length_append, ht, l1, List.append_assoc] at this
    have s3 : declared_size (t ++ (field_bytes f1 p1 ++ (field_bytes f2 p2 ++ (field_bytes f3 p3
        ++ (field_bytes f4 p4 ++ d))))) 1044 = f3.length := by
      have := declared_size_field (t ++ (field_bytes f1 p1 ++ field_bytes f2 p2)) f3 p3
        (field_bytes f4 p4 ++ d) (by norm_num; omega)
      rwa [List.length_append, List.length_append, ht, l1, l2, List.append_assoc,
        List.append_assoc] at this
    have s4 : declared_size (t ++ (field_bytes f1 p1 ++ (field_bytes f2 p2 ++ (field_bytes f3 p3
        ++ (field_bytes f4 p4 ++ d))))) 1564 = f4.length := by
      have := declared_size_field (t ++ (field_bytes f1 p1 ++ (field_bytes f2 p2
        ++ field_bytes f3 p3))) f4 p4 d (by norm_num; omega)
      rwa [List.length_append, List.length_append, List.length_append, ht, l1, l2, l3,
        List.append_assoc, List.append_assoc, List.append_assoc] at this
    unfold in_padding at hi
    rw [s1, s2, s3, s4, if_pos hv] at hi
    apply append_same_getElem
    intro c0
    apply field_bytes_getElem format_version_max_size _ _ _ _ _ _ k1 j1
      (by simp only [format_version_max_size]; omega)
    intro c1
    apply field_bytes_getElem tool_name_max_size _ _ _ _ _ _ k2 j2
      (by simp only [format_version_max_size, tool_name_max_size] at c1 ⊢; omega)
    intro c2
    apply field_bytes_getElem tool_version_max_size _ _ _ _ _ _ k3 j3
      (by simp only [format_version_max_size, tool_name_max_size, tool_version_max_size]
            at c1 c2 ⊢
          omega)
    intro c3
    apply field_bytes_getElem tool_info_max_size _ _ _ _ _ _ k4 j4
      (by simp only [format_version_max_size, tool_name_max_size, tool_version_max_size,
            tool_info_max_size] at c1 c2 c3 ⊢
          omega)
    intro _
    rfl

/-- Two headers of version 0 with the same type, strings and generation date differ only
in padding regions. -/
theorem layout_differ_only_in_padding_v0 (t f1 p1 q1 f2 p2 q2 f4 p4 q4 d : List Byte)
    (ht : t.length = 4)
    (k1 : field_ok format_version_max_size f1 p1) (j1 : field_ok format_version_max_size f1 q1)
    (k2 : field_ok tool_name_max_size f2 p2) (j2 : field_ok tool_name_max_size f2 q2)
    (k4 : field_ok tool_info_max_size f4 p4) (j4 : field_ok tool_info_max_size f4 q4) :
    differ_only_in_padding 0
      (t ++ (field_bytes f1 p1 ++ (field_bytes f2 p2 ++ (field_bytes f4 p4 ++ d))))
      (t ++ (field_bytes f1 q1 ++ (field_bytes f2 q2 ++ (field_bytes f4 q4 ++ d)))) := by
  have hv0 : ¬ (0 ≥ 1) := by decide
  have l1 := field_bytes_length_of_ok _ _ _ k1
  have l2 := field_bytes_length_of_ok _ _ _ k2
  have m1 := field_bytes_length_of_ok _ _ _ j1
  have m2 := field_bytes_length_of_ok _ _ _ j2
  have l4 := field_bytes_length_of_ok _ _ _ k4
  have m4 := field_bytes_length_of_ok _ _ _ j4
  have b1 := k1.2.1
  have b2 := k2.2.1
  have b4 := k4.2.1
  simp only [format_version_max_size, tool_name_max_size, tool_info_max_size]
    at l1 l2 l4 m1 m2 m4 b1 b2 b4
  constructor
  · simp only [List.length_append, l1, l2, l4, m1, m2, m4]
  · intro i hi
    have s1 : declared_size (t ++ (field_bytes f1 p1 ++ (field_bytes f2 p2
        ++ (field_bytes f4 p4 ++ d)))) 4 = f1.length := by
      have := declared_size_field t f1 p1 (field_bytes f2 p2 ++ (field_bytes f4 p4 ++ d))
        (by norm_num; omega)
      rwa [ht] at this
    have s2 : declared_size (t ++ (field_bytes f1 p1 ++ (field_bytes f2 p2
        ++ (field_bytes f4 p4 ++ d)))) 524 = f2.length := by
      have := declared_size_field (t ++ field_bytes f1 p1) f2 p2 (field_bytes f4 p4 ++ d)
        (by norm_num; omega)
      rwa [List.length_append, ht, l1, List.append_assoc] at this
    have s4 : declared_size (t ++ (field_bytes f1 p1 ++ (field_bytes f2 p2
        ++ (field_bytes f4 p4 ++ d)))) 1044 = f4.length := by
      have := declared_size_field (t ++ (field_bytes f1 p1 ++ field_bytes f2 p2)) f4 p4 d
        (by norm_num; omega)
      rwa [List.length_append, List.length_append, ht, l1, l2, List.append_assoc,
        List.append_assoc] at this
    unfold in_padding at hi
    rw [s1, s2, s4, if_neg hv0] at hi
    apply append_same_getElem
    intro c0
    apply field_bytes_getElem format_version_max_size _ _ _ _ _ _ k1 j1
      (by simp only [format_version_max_size]; omega)
    intro c1
    apply field_bytes_getElem tool_name_max_size _ _ _ _ _ _ k2 j2
      (by simp only [format_version_max_size, tool_name_max_size] at c1 ⊢; omega)
    intro c2
    apply field_bytes_getElem tool_info_max_size _ _ _ _ _ _ k4 j4
      (by simp only [format_version_max_size, tool_name_max_size, tool_info_max_size]
            at c1 c2 ⊢
          omega)
    intro _
    rfl

/-- Two well-formed headers with the same type, strings and generation date differ only
in padding regions, whatever their padding bytes. -/
theorem WireHeader.bytes_differ_only_in_padding (v : Nat) (h g : WireHeader)
    (hwf : h.well_formed v) (gwf : g.well_formed v) (e0 : g.type_bytes = h.type_bytes)
    (e1 : g.format_version = h.format_version) (e2 : g.tool_name = h.tool_name)
    (e3 : g.tool_version = h.tool_version) (e4 : g.tool_info = h.tool_info)
    (e5 : g.generation_date_bytes = h.generation_date_bytes) :
    differ_only_in_padding v (h.bytes v) (g.bytes v) := by
  obtain ⟨h0, h1, h2, hv, h4, -⟩ := hwf
  obtain ⟨-, g1, g2, gv, g4, -⟩ := gwf
  rw [e1] at g1
  rw [e2] at g2
  rw [e4] at g4
  by_cases hv1 : v ≥ 1
  · have g3 := gv hv1
    rw [e3] at g3
    simp only [WireHeader.bytes, WireHeader.tool_version_bytes, if_pos hv1, e0, e1, e2, e3, e4,
      e5]
    exact layout_differ_only_in_padding v hv1 _ _ _ _ _ _ _ _ _ _ _ _ _ _ h0 h1 g1 h2 g2
      (hv hv1) g3 h4 g4
  · have hv0 : v = 0 := by omega
    subst hv0
    simp only [WireHeader.bytes, WireHeader.tool_version_bytes, if_neg hv1, e0, e1, e2, e4, e5,
      List.nil_append]
    exact layout_differ_only_in_padding_v0 _ _ _ _ _ _ _ _ _ _ _ h0 h1 g1 h2 g2 h4 g4

theorem dummy_header_ff_well_formed : dummy_header_ff.well_formed 1 := by
  unfold WireHeader.well_formed field_ok dummy_header_ff dummy_header
  simp only [List.length_replicate, le_bytes_length]
  decide

/-! ## Rewriting the header twice -/

/-- The method `Writer::set_metadata` applied twice: the second header replaces the first. -/
theorem Writer.set_metadata_twice (w : Writer) (m1 m2 : Metadata) (h1 : m1.valid)
    (h2 : m2.valid) (hlen : 3640 ≤ w.stream_.data.length)
    (hp : w.stream_.ppos ≤ w.stream_.data.length) :
    (w.set_metadata m1).set_metadata m2 = w.set_metadata m2 := by
  rcases Bool.eq_false_or_eq_true w.stream_.fail with hs | hs
  · rw [Writer.set_metadata_of_fail w m1 hs, Writer.set_metadata_of_fail w m2 hs]
  · have hl1 := wire_length m1 h1
    have e1 := Writer.set_metadata_of_good w m1 h1 hs hlen hp
    have hlen1 : (w.stream_.data.take 12 ++ (m1.wire ++ w.stream_.data.drop 3640)).length
        = w.stream_.data.length := by
      simp only [List.length_append, List.length_take, List.length_drop, hl1]
      omega
    have ht : (w.stream_.data.take 12 ++ (m1.wire ++ w.stream_.data.drop 3640)).take 12
        = w.stream_.data.take 12 :=
      List.take_left' (by rw [List.length_take]; omega)
    have hd : (w.stream_.data.take 12 ++ (m1.wire ++ w.stream_.data.drop 3640)).drop 3640
        = w.stream_.data.drop 3640 := by
      rw [← List.append_assoc]
      exact List.drop_left' (by
        simp only [List.length_append, List.length_take, hl1]
        omega)
    have e2 := Writer.set_metadata_of_good
      { w with stream_ := { w.stream_ with
          data := w.stream_.data.take 12 ++ (m1.wire ++ w.stream_.data.drop 3640) } }
      m2 h2 hs (le_of_le_of_eq hlen hlen1.symm) (le_of_le_of_eq hp hlen1.symm)
    rw [Writer.set_metadata_of_good w m2 h2 hs hlen hp, e1, e2]
    simp only [ht, hd]

/-! ## `Writer::create` and `Writer::set_metadata` with the end-of-file flag -/

theorem EofStream.write_of_eof (s : EofStream) (bytes : List Byte) (h : s.eof = true) :
    s.write bytes = s := by
  simp [EofStream.write, h]

theorem EofStream.write_of_not_eof (s : Stream) (bytes : List Byte) :
    ({ stream := s, eof := false } : EofStream).write bytes
      = { stream := s.write bytes, eof := false } := by
  simp [EofStream.write]

/-- On a stream at end of file `Metadata::serialize` writes nothing and throws nothing. -/
theorem serialize_throwing_of_eof (md : Metadata) (s : EofStream) (h : s.eof = true) :
    md.serialize_throwing EofStream.ops s = .ok s := by
  obtain ⟨st, e⟩ := s
  simp only at h
  subst h
  have hw : ∀ bytes : List Byte, ({ stream := st, eof := true } : EofStream).write bytes
      = { stream := st, eof := true } := fun bytes => EofStream.write_of_eof _ bytes rfl
  unfold Metadata.serialize_throwing Metadata.serialize_try
  simp only [EofStream.ops, in_try, bind, Except.bind, pure, Except.pure, hw]
  split_ifs <;> rfl

/-- On a stream whose end-of-file flag is clear `Metadata::serialize` is the function
embedded on `Stream`. -/
theorem serialize_throwing_of_not_eof (md : Metadata) (s : Stream) :
    md.serialize_throwing EofStream.ops { stream := s, eof := false }
      = .ok { stream := md.serialize s, eof := false } := by
  unfold Metadata.serialize_throwing Metadata.serialize_try Metadata.serialize
  by_cases c1 : md.format_version_.length < format_version_max_size <;>
  by_cases c2 : md.tool_name_.length < tool_name_max_size <;>
  by_cases c3 : md.tool_version_.length < tool_version_max_size <;>
  by_cases c4 : md.tool_info_.length < tool_info_max_size <;>
  simp only [EofStream.ops, in_try, bind, Except.bind, pure, Except.pure, c1, c2, c3, c4,
    if_true, if_false, EofStream.write_of_not_eof]

theorem EofWriter.write_metadata_of_eof (s : EofStream) (md : Metadata) (h : s.eof = true) :
    EofWriter.write_metadata s md = .ok s := by
  unfold EofWriter.write_metadata
  rw [serialize_throwing_of_eof md s h]

theorem EofWriter.write_metadata_of_not_eof (s : Stream) (md : Metadata) :
    EofWriter.write_metadata { stream := s, eof := false } md
      = .ok { stream := md.serialize s, eof := false } := by
  unfold EofWriter.write_metadata
  rw [serialize_throwing_of_not_eof md s]

/-- The function `Writer::create` on a stream with `eofbit` alone: the check `!*stream`
passes, no write writes, and `md_size` is the put position 0. -/
theorem EofWriter.create_of_eof (s : EofStream) (md : Metadata) (he : s.eof = true)
    (hf : s.stream.fail = false) :
    EofWriter.create s md
      = .ok { stream_ := { s with stream := { s.stream with ppos := 0 } }, md_size_ := 0 } := by
  obtain ⟨st, e⟩ := s
  simp only at he hf
  subst he
  unfold EofWriter.create
  simp only [EofStream.seekp, Stream.seekp_zero st hf]
  rw [if_neg (by simp [hf]), EofStream.write_of_eof _ _ rfl, EofStream.write_of_eof _ _ rfl,
    EofWriter.write_metadata_of_eof _ md rfl]
  simp only [EofStream.tellp, Stream.tellp, hf]
  rfl

/-- With the end-of-file flag clear, `Writer::create` is the function embedded on
`Stream`. -/
theorem EofWriter.create_of_not_eof (s : Stream) (md : Metadata) :
    EofWriter.create { stream := s, eof := false } md
      = match Writer.create s md with
        | .ok w => .ok { stream_ := { stream := w.stream_, eof := false }, md_size_ := w.md_size_ }
        | .error e => .error (.error e) := by
  unfold EofWriter.create Writer.create Writer.write_metadata
  simp only [EofStream.seekp]
  by_cases hf : (s.seekp 0).fail = true
  · rw [if_pos hf, if_pos hf]
  · rw [if_neg hf, if_neg hf]
    simp only [EofStream.write_of_not_eof, EofWriter.write_metadata_of_not_eof, EofStream.tellp]

/-- With the end-of-file flag clear, `Writer::set_metadata` is the method embedded on
`Stream`. -/
theorem EofWriter.set_metadata_of_not_eof (s : Stream) (n : Nat) (md : Metadata) :
    EofWriter.set_metadata { stream_ := { stream := s, eof := false }, md_size_ := n } md
      = .ok { stream_ := { stream := (Writer.set_metadata { stream_ := s, md_size_ := n } md).stream_,
                           eof := false },
              md_size_ := n } := by
  unfold EofWriter.set_metadata Writer.set_metadata Writer.write_metadata
  simp only [EofStream.seekp, EofStream.tellp, EofWriter.write_metadata_of_not_eof]

/-! ## Headers with an empty tool info -/

theorem empty_info_header_in_layout : empty_info_header.in_layout 0 := by
  unfold WireHeader.in_layout field_fits empty_info_header dummy_header
  simp only [List.length_replicate, le_bytes_length]
  decide

theorem empty_info_header_length : (empty_info_header.bytes 0).length = 3108 := by
  have hv0 : ¬ (0 ≥ 1) := by decide
  simp only [WireHeader.bytes, WireHeader.tool_version_bytes, if_neg hv0, List.length_append,
    field_bytes_length, List.length_nil, empty_info_header, dummy_header,
    List.length_replicate, le_bytes_length]
  decide

/-- The decoder of version 0 rejects the header with an empty tool info, whatever follows
it. -/
theorem decode_outcome_empty_info_header (rest : List Byte) :
    decode_outcome 0 (empty_info_header.bytes 0 ++ rest)
      = .error (.ReadMetadataError "Can't read enough data for the tool info") := by
  have hv0 : ¬ (0 ≥ 1) := by decide
  obtain ⟨h0, h1, h2, -⟩ := dummy_header_well_formed_v0
  simp only [WireHeader.bytes, WireHeader.tool_version_bytes, if_neg hv0, List.nil_append,
    List.append_assoc]
  exact decode_outcome_at_tool_info_v0 _ _ _ _ _ _ _ h0 h1 h2
    (string_outcome_empty_field _ _ _ _ _ _ _ _ rfl)

/-! ## Properties that hold on the streams of `Stream` -/

/-- Frame of `set_metadata` on a stream whose end-of-file flag was clear at creation: for
every writer of `Writer.Reachable` and every `Metadata` the builder returns,
`Writer::set_metadata` leaves `md_size` and the stream length unchanged, leaves every byte
at an offset below 12 (magic and header version) unchanged and leaves every byte at an
offset of `md_size` or more (the payload) unchanged: only the bytes of `[12, md_size)` may
change. -/
theorem set_metadata_frame (w : Writer) (hw : Writer.Reachable w) (type : U32)
    (format_version tool_name tool_version tool_info : List Byte) (generation_date : U64)
    (md : Metadata)
    (hmd : MetadataWriter.write type format_version tool_name tool_version tool_info
      generation_date = .ok md) :
    (w.set_metadata md).md_size_ = w.md_size_
      ∧ (w.set_metadata md).stream_.data.length = w.stream_.data.length
      ∧ (∀ i, i < 8 + 4 → (w.set_metadata md).stream_.data[i]? = w.stream_.data[i]?)
      ∧ (∀ i, w.md_size_ ≤ i → (w.set_metadata md).stream_.data[i]? = w.stream_.data[i]?) := by
  have hv := MetadataWriter.write_valid _ _ _ _ _ _ _ hmd
  obtain ⟨h1, h2, h3⟩ := Writer.Reachable.invariant w hw
  cases hs : w.stream_.fail with
  | true =>
    rw [Writer.set_metadata_of_fail w md hs]
    exact ⟨rfl, rfl, fun _ _ => rfl, fun _ _ => rfl⟩
  | false =>
    rw [Writer.set_metadata_of_good w md hv hs h2 h3]
    have hwl := wire_length md hv
    refine ⟨rfl, ?_, fun i hi => ?_, fun i hi => ?_⟩
    · simp only [List.length_append, List.length_take, List.length_drop, hwl]
      omega
    · simp only
      rw [List.getElem?_append_left (by simp; omega), List.getElem?_take]
      simp only [ite_eq_left_iff]
      omega
    · simp only
      rw [h1] at hi
      rw [List.getElem?_append_right (by simp; omega),
        List.getElem?_append_right (by simp; omega), List.getElem?_drop]
      congr 1
      simp only [List.length_take, hwl]
      omega

/-- The frame of `set_metadata` at the writer created in the tests, rewritten with the
second metadata. -/
theorem set_metadata_frame_witness :
    (dummy_writer.set_metadata dummy_md2).md_size_ = dummy_writer.md_size_
      ∧ (dummy_writer.set_metadata dummy_md2).stream_.data.length
          = dummy_writer.stream_.data.length
      ∧ (∀ i, i < 8 + 4 →
          (dummy_writer.set_metadata dummy_md2).stream_.data[i]? = dummy_writer.stream_.data[i]?)
      ∧ (∀ i, dummy_writer.md_size_ ≤ i →
          (dummy_writer.set_metadata dummy_md2).stream_.data[i]? = dummy_writer.stream_.data[i]?) :=
  set_metadata_frame dummy_writer dummy_writer_reachable 24 (chars "1.2.0-dummy")
    (chars "TestMetaDataWriter2") (chars "1.2.0") (chars "Tests version 1.2.0") 42424243
    dummy_md2 rfl

/-- The put cursor across `set_metadata` on a stream whose end-of-file flag was clear at
creation: for every writer of `Writer.Reachable` and every `Metadata` the builder returns,
`tellp()` after `Writer::set_metadata` is `tellp()` before the call; right after
`Writer::open` it therefore stays at `md_size`. -/
theorem set_metadata_restores_cursor (w : Writer) (hw : Writer.Reachable w) (type : U32)
    (format_version tool_name tool_version tool_info : List Byte) (generation_date : U64)
    (md : Metadata)
    (hmd : MetadataWriter.write type format_version tool_name tool_version tool_info
      generation_date = .ok md) :
    (w.set_metadata md).stream_.tellp = w.stream_.tellp
      ∧ (w.set_metadata md).stream_.ppos = w.stream_.ppos
      ∧ ((∃ s, Writer.open s = .ok w) →
          w.stream_.tellp = w.md_size_ ∧ (w.set_metadata md).stream_.tellp = w.md_size_) := by
  have hv := MetadataWriter.write_valid _ _ _ _ _ _ _ hmd
  obtain ⟨h1, h2, h3⟩ := Writer.Reachable.invariant w hw
  have hkeep : (w.set_metadata md).stream_.tellp = w.stream_.tellp
      ∧ (w.set_metadata md).stream_.ppos = w.stream_.ppos := by
    cases hs : w.stream_.fail with
    | true =>
      rw [Writer.set_metadata_of_fail w md hs]
      exact ⟨rfl, rfl⟩
    | false =>
      rw [Writer.set_metadata_of_good w md hv hs h2 h3]
      simp [Stream.tellp, hs]
  refine ⟨hkeep.1, hkeep.2, ?_⟩
  rintro ⟨s, ho⟩
  obtain ⟨-, -, -, -, -, hw2⟩ := Writer.open_ok s w ho
  have ht : w.stream_.tellp = w.md_size_ := by
    rw [hw2]
    simp [Stream.tellp, (Writer.open_ok s w ho).1]
  exact ⟨ht, hkeep.1.trans ht⟩

/-- The put cursor across `set_metadata` at the writer created in the tests, rewritten
with the second metadata. -/
theorem set_metadata_restores_cursor_witness :
    (dummy_writer.set_metadata dummy_md2).stream_.tellp = dummy_writer.stream_.tellp
      ∧ (dummy_writer.set_metadata dummy_md2).stream_.ppos = dummy_writer.stream_.ppos :=
  ⟨(set_metadata_restores_cursor dummy_writer dummy_writer_reachable 24 (chars "1.2.0-dummy")
      (chars "TestMetaDataWriter2") (chars "1.2.0") (chars "Tests version 1.2.0") 42424243
      dummy_md2 rfl).1,
    (set_metadata_restores_cursor dummy_writer dummy_writer_reachable 24 (chars "1.2.0-dummy")
      (chars "TestMetaDataWriter2") (chars "1.2.0") (chars "Tests version 1.2.0") 42424243
      dummy_md2 rfl).2.1⟩

/-- Legacy magic, for a header none of whose strings is empty: for every good stream that
begins with the legacy magic `0x7262696e72737263` immediately followed by a header of
version 0 whose strings hold 1 to their maximum of bytes, `Reader::open` succeeds; no
header version field is consumed (the header decoded is the one that starts at offset 8),
the metadata is that of the header read at version 0, with the tool version
`"1.0.0-prerelease"`, `md_size` is `8 + 3108 = 3116`, and the bytes `rest` behind the
header are what the stream of the reader delivers next. -/
theorem legacy_magic_accepted (s : Stream) (hs : s.fail = false) (h : WireHeader)
    (hwf : h.well_formed 0) (rest : List Byte)
    (hd : s.data = le_bytes 8 legacy_magic ++ (h.bytes 0 ++ rest)) :
    Reader.open s
        = .ok { stream_ := { s with gpos := 3116 }, md_ := h.metadata 0, md_size_ := 3116 }
      ∧ (h.metadata 0).tool_version_ = chars "1.0.0-prerelease"
      ∧ (h.metadata 0).format_version_ = h.format_version
      ∧ (h.metadata 0).tool_name_ = h.tool_name
      ∧ (h.metadata 0).tool_info_ = h.tool_info
      ∧ s.data.drop 8 = h.bytes 0 ++ rest
      ∧ 8 + (h.bytes 0).length = 3116
      ∧ ({ s with gpos := 3116 } : Stream).remaining = rest := by
  obtain ⟨e1, e2⟩ := legacy_resource_start (h.bytes 0 ++ rest)
  have hl := WireHeader.bytes_length 0 h hwf
  have hsz : header_size 0 = 3108 := rfl
  refine ⟨?_, rfl, rfl, rfl, rfl, by rw [hd, e2], by rw [hl, hsz], ?_⟩
  · rw [Reader.open_eq_reader_outcome]
    unfold Reader.open_outcome
    rw [hd, e1, e2, le_value_legacy_magic, if_neg (by simp [hs]),
      if_neg (Ne.symm magic_ne_legacy), if_pos rfl, WireHeader.decode 0 h hwf rest]
    simp only [hsz]
  · simp only [Stream.remaining, hd]
    rw [← List.append_assoc]
    exact List.drop_left' (by simp only [List.length_append, le_bytes_length, hl, hsz])

/-- The legacy magic followed by the header of the tests, encoded without its tool
version field. -/
theorem legacy_magic_accepted_witness :
    Reader.open (Stream.ofBytes (le_bytes 8 legacy_magic ++ (dummy_header.bytes 0 ++ [])))
      = .ok { stream_ := { Stream.ofBytes (le_bytes 8 legacy_magic
                              ++ (dummy_header.bytes 0 ++ [])) with gpos := 3116 },
              md_ := dummy_header.metadata 0, md_size_ := 3116 } :=
  (legacy_magic_accepted (Stream.ofBytes (le_bytes 8 legacy_magic
    ++ (dummy_header.bytes 0 ++ []))) rfl dummy_header dummy_header_well_formed_v0 [] rfl).1

/-- An older version under the current magic, for a header none of whose strings is
empty: for every good stream that holds the current magic, then the 4-byte header version
0, then a header of version 0 whose strings hold 1 to their maximum of bytes (and any
bytes `rest` behind it), `Reader::open` succeeds; the metadata is that of the header read
at version 0, with the tool version `"1.0.0-prerelease"`, and `md_size` is
`12 + 3108 = 3120`, where the get cursor of the reader stands. `Writer::open` fails on
the same stream, with the `WriterError` of its version check. -/
theorem reader_accepts_older_version (s : Stream) (hs : s.fail = false) (h : WireHeader)
    (hwf : h.well_formed 0) (rest : List Byte)
    (hd : s.data = le_bytes 8 magic ++ (le_bytes 4 0 ++ (h.bytes 0 ++ rest))) :
    Reader.open s
        = .ok { stream_ := { s with gpos := 3120 }, md_ := h.metadata 0, md_size_ := 3120 }
      ∧ (h.metadata 0).tool_version_ = chars "1.0.0-prerelease"
      ∧ (h.metadata 0).type_ = to_u32 (le_value h.type_bytes)
      ∧ (h.metadata 0).format_version_ = h.format_version
      ∧ (h.metadata 0).tool_name_ = h.tool_name
      ∧ (h.metadata 0).tool_info_ = h.tool_info
      ∧ (h.metadata 0).generation_date_ = to_u64 (le_value h.generation_date_bytes)
      ∧ 12 + (h.bytes 0).length = 3120
      ∧ ({ s with gpos := 3120 } : Stream).remaining = rest
      ∧ Writer.open s = .error (.WriterError
          "Writer can't open resource with different metadata version than the current") := by
  obtain ⟨e1, e2, e3, -⟩ := resource_start magic 0 (h.bytes 0 ++ rest)
  have hl := WireHeader.bytes_length 0 h hwf
  have hsz : header_size 0 = 3108 := rfl
  refine ⟨?_, rfl, rfl, rfl, rfl, rfl, rfl, by rw [hl, hsz], ?_, ?_⟩
  · rw [Reader.open_of_current_magic s hs 0 (by decide) (h.bytes 0 ++ rest) hd,
      WireHeader.decode 0 h hwf rest]
    simp only [hsz]
  · simp only [Stream.remaining, hd]
    rw [← List.append_assoc, ← List.append_assoc]
    exact List.drop_left' (by simp only [List.length_append, le_bytes_length, hl, hsz])
  · rw [Writer.open_eq_writer_outcome]
    unfold Writer.open_outcome
    rw [hd, e1, e3, le_value_magic, le_value_version 0 (by decide), if_neg (by simp [hs]),
      if_pos rfl, if_neg (Nat.not_lt.2 e2), if_pos (by decide)]

/-- The current magic and the header version 0 followed by the header of the tests,
encoded without its tool version field. -/
theorem reader_accepts_older_version_witness :
    Reader.open (Stream.ofBytes (le_bytes 8 magic ++ (le_bytes 4 0
        ++ (dummy_header.bytes 0 ++ []))))
      = .ok { stream_ := { Stream.ofBytes (le_bytes 8 magic ++ (le_bytes 4 0
                              ++ (dummy_header.bytes 0 ++ []))) with gpos := 3120 },
              md_ := dummy_header.metadata 0, md_size_ := 3120 } :=
  (reader_accepts_older_version (Stream.ofBytes (le_bytes 8 magic ++ (le_bytes 4 0
    ++ (dummy_header.bytes 0 ++ [])))) rfl dummy_header dummy_header_well_formed_v0 [] rfl).1

/-! # The claims -/

/-- C1. Failing input of the round trip: the builder accepts the arguments of
`dummy_md()` with an empty format version, `Metadata::serialize` writes the `Metadata`,
and `Metadata::deserialize` at the current header version rejects the written bytes. -/
theorem round_trip_fails_on_empty_format_version :
    MetadataWriter.write 42 [] (chars "TestMetaDataWriter") (chars "1.0.0")
        (chars "Tests version 1.0.0") 42424242 = .ok empty_version_md
      ∧ (Metadata.deserialize metadata_version (empty_version_md.serialize Stream.empty)).1
          = .error (.ReadMetadataError "Can't read enough data for the format version") := by
  refine ⟨rfl, ?_⟩
  rw [serialize_empty_stream, (deserialize_of_good _ _ rfl).1]
  have := decode_outcome_wire_empty metadata_version empty_version_md rfl []
  simpa [Stream.remaining] using this

/-- C2. Wire layout: for every `Metadata` that satisfies the size invariant,
`Metadata::serialize` writes, with the put cursor moving once over them, exactly the bytes
of `Metadata.wire`: the 4-byte type, then for the format version, the tool name, the tool
version and the tool info an 8-byte size, the string and zero bytes up to 512, 512, 512
and 2048, then the 8-byte generation date, every integer least significant byte first.
On an empty stream these bytes are the whole content, and each string field takes
`8 + max` bytes. -/
theorem serialize_wire_layout (md : Metadata) (h : md.valid) :
    (∀ out : Stream, md.serialize out = out.write md.wire)
      ∧ (md.serialize Stream.empty).data
          = le_bytes 4 md.type_.val
            ++ (le_bytes 8 md.format_version_.length ++ (md.format_version_
                  ++ List.replicate (512 - md.format_version_.length) 0))
            ++ (le_bytes 8 md.tool_name_.length ++ (md.tool_name_
                  ++ List.replicate (512 - md.tool_name_.length) 0))
            ++ (le_bytes 8 md.tool_version_.length ++ (md.tool_version_
                  ++ List.replicate (512 - md.tool_version_.length) 0))
            ++ (le_bytes 8 md.tool_info_.length ++ (md.tool_info_
                  ++ List.replicate (2048 - md.tool_info_.length) 0))
            ++ le_bytes 8 md.generation_date_.val
      ∧ (md.format_version_ ++ List.replicate (512 - md.format_version_.length) (0 : Byte)).length
          = 512
      ∧ (md.tool_name_ ++ List.replicate (512 - md.tool_name_.length) (0 : Byte)).length = 512
      ∧ (md.tool_version_ ++ List.replicate (512 - md.tool_version_.length) (0 : Byte)).length
          = 512
      ∧ (md.tool_info_ ++ List.replicate (2048 - md.tool_info_.length) (0 : Byte)).length
          = 2048 := by
  obtain ⟨h1, h2, h3, h4⟩ := h
  simp only [format_version_max_size, tool_name_max_size, tool_version_max_size,
    tool_info_max_size] at h1 h2 h3 h4
  refine ⟨fun out => serialize_eq_write md out, ?_, ?_, ?_, ?_, ?_⟩
  · rw [serialize_eq_write]
    simp [Stream.write, Stream.empty, Metadata.wire, field_bytes, format_version_max_size,
      tool_name_max_size, tool_version_max_size, tool_info_max_size]
  · simp only [List.length_append, List.length_replicate]; omega
  · simp only [List.length_append, List.length_replicate]; omega
  · simp only [List.length_append, List.length_replicate]; omega
  · simp only [List.length_append, List.length_replicate]; omega

/-- C2 at the metadata of the tests. -/
theorem serialize_wire_layout_witness :
    (∀ out : Stream, dummy_md.serialize out = out.write dummy_md.wire)
      ∧ (dummy_md.format_version_
          ++ List.replicate (512 - dummy_md.format_version_.length) (0 : Byte)).length = 512 :=
  ⟨(serialize_wire_layout dummy_md dummy_md_valid).1,
    (serialize_wire_layout dummy_md dummy_md_valid).2.2.1⟩

/-- C3. Constant header size: for every `Metadata` that satisfies the size invariant,
`Metadata::serialize` on a good stream moves the put cursor by exactly 3628 bytes
(`4 + 3*(8+512) + (8+2048) + 8`), whatever the fields hold, and on an empty stream leaves
exactly 3628 bytes. -/
theorem serialize_constant_size (md : Metadata) (h : md.valid) :
    (∀ out : Stream, out.fail = false →
        (md.serialize out).ppos = out.ppos + (4 + 3 * (8 + 512) + (8 + 2048) + 8)
          ∧ (md.serialize out).tellp = out.tellp + 3628)
      ∧ (md.serialize Stream.empty).data.length = 3628 := by
  have hl := wire_length md h
  refine ⟨fun out hout => ?_, ?_⟩
  · rw [serialize_eq_write, Stream.tellp_of_good out hout,
      Stream.tellp_of_good _ (by rw [Stream.write_fail]; exact hout),
      Stream.write_ppos out _ hout, hl]
    exact ⟨rfl, by push_cast; rfl⟩
  · rw [serialize_eq_write]
    simp [Stream.write, Stream.empty, hl]

/-- C3 at the two metadata of the tests: both headers have the same size. -/
theorem serialize_constant_size_witness :
    (dummy_md.serialize Stream.empty).data.length = 3628
      ∧ (dummy_md2.serialize Stream.empty).data.length = 3628 :=
  ⟨(serialize_constant_size dummy_md dummy_md_valid).2,
    (serialize_constant_size dummy_md2 dummy_md2_valid).2⟩

/-- C4. Failing input of the end-to-end round trip: `Writer::create` succeeds on the
builder-accepted `Metadata` with an empty format version, 8 payload bytes are appended
through the stream of the writer, and `Reader::open` on the result fails. -/
theorem reader_rejects_created_empty_format_version :
    ∃ w, Writer.create Stream.empty empty_version_md = .ok w
      ∧ Reader.open (w.stream_.write (le_bytes 8 0x42424242424242))
          = .error (.ReaderError
              "While reading metadata: Can't read enough data for the format version") := by
  obtain ⟨w, hc, -, hw⟩ := create_then_write empty_version_md empty_version_md_valid
    (le_bytes 8 0x42424242424242)
  refine ⟨w, hc, ?_⟩
  rw [hw, Reader.open_of_current_magic _ rfl metadata_version (Nat.le_refl _) _ rfl,
    decode_outcome_wire_empty metadata_version empty_version_md rfl]
  rfl

/-- C5. Failing input of the frame of `set_metadata`: on a `std::stringstream` that holds
4000 characters `'x'` and has `eofbit` alone set, `Writer::create` passes its check
`!*stream`, writes no header (no `write` writes on a stream that is not good) and returns
a writer whose `md_size` is 0. After `clear()` on the stream of that writer,
`Writer::set_metadata` writes the header from offset 12 on, over bytes that lie at
`md_size` or above: the byte at offset 12 changes from `'x'` to 42. -/
theorem set_metadata_overwrites_payload_after_eof :
    ∃ w w2, EofWriter.create eof_long_stream dummy_md = .ok w
      ∧ w.md_size_ = 0
      ∧ w.stream_.stream.data = List.replicate 4000 120
      ∧ EofWriter.set_metadata { w with stream_ := w.stream_.clear } dummy_md = .ok w2
      ∧ w2.md_size_ = 0
      ∧ (w.stream_.stream.data.drop 12).head? = some 120
      ∧ (w2.stream_.stream.data.drop 12).head? = some 42 := by
  have hc := EofWriter.create_of_eof eof_long_stream dummy_md rfl rfl
  have hlen : 3640 ≤ (List.replicate 4000 (120 : Byte)).length := by
    rw [List.length_replicate]; decide
  have hset := Writer.set_metadata_of_good
    { stream_ := { data := List.replicate 4000 120, gpos := 4000, ppos := 0, fail := false },
      md_size_ := 0 } dummy_md dummy_md_valid rfl hlen (Nat.zero_le _)
  have hs := EofWriter.set_metadata_of_not_eof
    { data := List.replicate 4000 120, gpos := 4000, ppos := 0, fail := false } 0 dummy_md
  rw [hset] at hs
  refine ⟨_, _, hc, rfl, rfl, hs, rfl, rfl, ?_⟩
  show ((List.take 12 (List.replicate 4000 (120 : Byte))
    ++ (dummy_md.wire ++ List.drop 3640 (List.replicate 4000 (120 : Byte)))).drop 12).head?
      = some 42
  rw [List.drop_left' (by rw [List.length_take, List.length_replicate]; decide)]
  rfl

/-- C6. Failing input of the rewrite: the stream `Writer::create` produced for
`dummy_md()` is opened with `Writer::open`, `set_metadata` is called with the
builder-accepted `Metadata` that has an empty format version, and `Reader::open` on the
resulting stream fails instead of returning that `Metadata`. -/
theorem reader_rejects_rewritten_empty_format_version :
    ∃ w1 w2, Writer.create Stream.empty dummy_md = .ok w1
      ∧ Writer.open w1.stream_ = .ok w2
      ∧ Reader.open (w2.set_metadata empty_version_md).stream_
          = .error (.ReaderError
              "While reading metadata: Can't read enough data for the format version") := by
  have hl := resource_header_length dummy_md dummy_md_valid
  have hopen : Writer.open dummy_writer.stream_
      = .ok { stream_ := { dummy_writer.stream_ with gpos := 3640, ppos := 3640 },
              md_size_ := 3640 } := by
    rw [Writer.reopen_of_current_magic dummy_writer.stream_ rfl (dummy_md.wire ++ [])
      (by simp only [dummy_writer, resource_header, List.drop_nil, List.append_assoc]),
      decode_outcome_wire metadata_version (Nat.le_refl _) dummy_md dummy_md_valid
        dummy_md_nonempty []]
  refine ⟨dummy_writer, _, dummy_writer_created, hopen, ?_⟩
  rw [Writer.set_metadata_of_good _ _ empty_version_md_valid rfl
    (by simp only [dummy_writer, List.drop_nil, List.append_nil, hl]; exact Nat.le_refl _)
    (by simp only [dummy_writer, List.drop_nil, List.append_nil, hl]; exact Nat.le_refl _)]
  have hd : (resource_header dummy_md ++ ([] : List Byte)).drop 3640 = [] :=
    List.drop_eq_nil_of_le (by rw [List.append_nil, hl])
  rw [Reader.open_of_current_magic _ rfl metadata_version (Nat.le_refl _)
    (empty_version_md.wire ++ [])
    (by
      simp only [dummy_writer, List.drop_nil]
      rw [resource_header_take, hd]
      simp only [List.append_assoc]),
    decode_outcome_wire_empty metadata_version empty_version_md rfl]
  rfl

/-- C7. Failing input of the cursor of `set_metadata`: on a `std::stringstream` that holds
the two characters `"ab"` and has `eofbit` alone set, `Writer::create` passes its check
`!*stream`, writes no header and returns a writer whose `md_size` is 0 and whose
`tellp()` is 0. `Writer::set_metadata` on that writer cannot seek to offset 12 of a
stream of 2 bytes, which sets `failbit`, and `tellp()` after the call is -1, not the 0 it
was before. -/
theorem set_metadata_loses_cursor_after_eof :
    ∃ w w2, EofWriter.create eof_short_stream dummy_md = .ok w
      ∧ w.md_size_ = 0
      ∧ w.stream_.stream.data = [97, 98]
      ∧ w.stream_.tellp = 0
      ∧ EofWriter.set_metadata w dummy_md = .ok w2
      ∧ w2.stream_.tellp = -1 := by
  have hc := EofWriter.create_of_eof eof_short_stream dummy_md rfl rfl
  refine ⟨_, { stream_ := { stream := { data := [97, 98], gpos := 2, ppos := 0, fail := true },
                            eof := true },
               md_size_ := 0 }, hc, rfl, rfl, rfl, ?_, rfl⟩
  unfold EofWriter.set_metadata
  simp only [EofStream.seekp]
  rw [EofWriter.write_metadata_of_eof _ dummy_md rfl]
  rfl

/-- C8. The builder raises if and only if a string is too long: `MetadataWriter::write`
fails (and then with `WriteMetadataError`) exactly when the format version, the tool name
or the tool version is longer than 512 bytes or the tool info is longer than 2048 bytes;
otherwise it returns a `Metadata` that carries the six arguments unchanged. A string of
exactly the maximum is accepted and one of one byte more is refused. -/
theorem builder_raises_iff (type : U32) (format_version tool_name tool_version tool_info : List Byte)
    (generation_date : U64) :
    ((∃ msg, MetadataWriter.write type format_version tool_name tool_version tool_info
          generation_date = .error (.WriteMetadataError msg))
        ↔ (format_version.length > 512 ∨ tool_name.length > 512 ∨ tool_version.length > 512
            ∨ tool_info.length > 2048))
      ∧ (∀ e, MetadataWriter.write type format_version tool_name tool_version tool_info
            generation_date = .error e → ∃ msg, e = .WriteMetadataError msg)
      ∧ (¬ (format_version.length > 512 ∨ tool_name.length > 512 ∨ tool_version.length > 512
            ∨ tool_info.length > 2048) →
          MetadataWriter.write type format_version tool_name tool_version tool_info
            generation_date
            = .ok { type_ := type, format_version_ := format_version, tool_name_ := tool_name,
                    tool_version_ := tool_version, tool_info_ := tool_info,
                    generation_date_ := generation_date })
      ∧ (∀ b : Byte, ∃ md, MetadataWriter.write type (List.replicate 512 b)
            (List.replicate 512 b) (List.replicate 512 b) (List.replicate 2048 b)
            generation_date = .ok md)
      ∧ (∀ b : Byte,
          (∃ msg, MetadataWriter.write type (List.replicate 513 b) tool_name tool_version
            tool_info generation_date = .error (.WriteMetadataError msg))
          ∧ (∃ msg, MetadataWriter.write type format_version (List.replicate 513 b) tool_version
            tool_info generation_date = .error (.WriteMetadataError msg))
          ∧ (∃ msg, MetadataWriter.write type format_version tool_name (List.replicate 513 b)
            tool_info generation_date = .error (.WriteMetadataError msg))
          ∧ (∃ msg, MetadataWriter.write type format_version tool_name tool_version
            (List.replicate 2049 b) generation_date = .error (.WriteMetadataError msg))) := by
  have key : ∀ (fv tn tv ti : List Byte),
      ((∃ msg, MetadataWriter.write type fv tn tv ti generation_date
          = .error (.WriteMetadataError msg))
        ↔ (fv.length > 512 ∨ tn.length > 512 ∨ tv.length > 512 ∨ ti.length > 2048))
      ∧ (∀ e, MetadataWriter.write type fv tn tv ti generation_date = .error e →
          ∃ msg, e = .WriteMetadataError msg)
      ∧ (¬ (fv.length > 512 ∨ tn.length > 512 ∨ tv.length > 512 ∨ ti.length > 2048) →
          MetadataWriter.write type fv tn tv ti generation_date
            = .ok { type_ := type, format_version_ := fv, tool_name_ := tn,
                    tool_version_ := tv, tool_info_ := ti,
                    generation_date_ := generation_date }) := by
    intro fv tn tv ti
    unfold MetadataWriter.write
    simp only [format_version_max_size, tool_name_max_size, tool_version_max_size,
      tool_info_max_size]
    by_cases h1 : fv.length > 512
    · simp [h1]
    · by_cases h2 : tn.length > 512
      · simp [h1, h2]
      · by_cases h3 : tv.length > 512
        · simp [h1, h2, h3]
        · by_cases h4 : ti.length > 2048
          · simp [h1, h2, h3, h4]
          · simp [h1, h2, h3, h4]
  refine ⟨(key _ _ _ _).1, (key _ _ _ _).2.1, (key _ _ _ _).2.2, fun b => ?_, fun b => ?_⟩
  · exact ⟨_, (key _ _ _ _).2.2 (by simp only [List.length_replicate]; omega)⟩
  · exact ⟨(key _ _ _ _).1.2 (Or.inl (by simp only [List.length_replicate]; omega)),
      (key _ _ _ _).1.2 (Or.inr (Or.inl (by simp only [List.length_replicate]; omega))),
      (key _ _ _ _).1.2 (Or.inr (Or.inr (Or.inl (by simp only [List.length_replicate]; omega)))),
      (key _ _ _ _).1.2 (Or.inr (Or.inr (Or.inr (by simp only [List.length_replicate]; omega))))⟩

/-- C9. Truncation is always rejected: for every header version and every well-formed
encoded header of that version (which `Metadata::deserialize` accepts), the decoder fails
with `ReadMetadataError` on the first `k` bytes of the header, for every `k` below its
length: cut before the type, before or inside a size, inside a string, inside a padding,
before or inside the generation date. The same holds on any stream whose bytes left
from the get cursor are such a strict prefix, and on any stream with fewer bytes left
than the header has. -/
theorem truncation_rejected (v : Nat) (h : WireHeader) (hwf : h.well_formed v) (k : Nat)
    (hk : k < (h.bytes v).length) :
    (Metadata.deserialize v (Stream.ofBytes (h.bytes v))).1 = .ok (h.metadata v)
      ∧ (∃ msg, (Metadata.deserialize v (Stream.ofBytes ((h.bytes v).take k))).1
            = .error (.ReadMetadataError msg))
      ∧ (∀ s : Stream, s.remaining = (h.bytes v).take k →
          ∃ msg, (Metadata.deserialize v s).1 = .error (.ReadMetadataError msg))
      ∧ (h.bytes v).length = header_size v
      ∧ (∀ s : Stream, s.remaining.length < header_size v →
          ∃ msg, (Metadata.deserialize v s).1 = .error (.ReadMetadataError msg)) := by
  have hl := WireHeader.bytes_length v h hwf
  have hshort : ∀ s : Stream, s.remaining = (h.bytes v).take k →
      ∃ msg, (Metadata.deserialize v s).1 = .error (.ReadMetadataError msg) := by
    intro s hs
    apply deserialize_short
    rw [hs, List.length_take]
    omega
  refine ⟨?_, hshort _ (Stream.ofBytes_remaining _), hshort, hl,
    fun s hs => deserialize_short v s hs⟩
  rw [(deserialize_ok_iff v _ _).2]
  refine ⟨rfl, ?_⟩
  rw [Stream.ofBytes_remaining]
  have := WireHeader.decode v h hwf []
  rwa [List.append_nil] at this

/-- C9 at the header of the tests, cut after the type. -/
theorem truncation_rejected_witness :
    (Metadata.deserialize 1 (Stream.ofBytes (dummy_header.bytes 1))).1
        = .ok (dummy_header.metadata 1)
      ∧ (∃ msg, (Metadata.deserialize 1 (Stream.ofBytes ((dummy_header.bytes 1).take 4))).1
            = .error (.ReadMetadataError msg)) :=
  ⟨(truncation_rejected 1 dummy_header dummy_header_well_formed 4
      (by rw [WireHeader.bytes_length 1 dummy_header dummy_header_well_formed]; decide)).1,
    (truncation_rejected 1 dummy_header dummy_header_well_formed 4
      (by rw [WireHeader.bytes_length 1 dummy_header dummy_header_well_formed]; decide)).2.1⟩

/-- C10. An oversized size is rejected before the content is read: for each string field
present at the header version, when the fields before it are well formed and its 8-byte
size (an unsigned 64-bit value) is above the maximum of the field, `Metadata::deserialize`
fails with `ReadMetadataError` (the message names the field), whatever bytes `rest` follow
the size and however many; the get cursor is left right behind the size. -/
theorem oversized_size_rejected (v : Nat) (s : Stream) (hs : s.fail = false)
    (t size_bytes rest : List Byte) (ht : t.length = 4) (hlen : size_bytes.length = 8)
    (fv p1 tn p2 tv p3 : List Byte) :
    (le_value size_bytes > 512 → s.remaining = t ++ (size_bytes ++ rest) →
        Metadata.deserialize v s
          = (.error (.ReadMetadataError "Format version size is greater than the maximum value"),
              s.advance (4 + 8)))
      ∧ (le_value size_bytes > 512 → field_ok 512 fv p1 →
          s.remaining = t ++ (field_bytes fv p1 ++ (size_bytes ++ rest)) →
          Metadata.deserialize v s
            = (.error (.ReadMetadataError "Tool name size is greater than the maximum value"),
                s.advance (4 + (8 + 512) + 8)))
      ∧ (v ≥ 1 → le_value size_bytes > 512 → field_ok 512 fv p1 → field_ok 512 tn p2 →
          s.remaining = t ++ (field_bytes fv p1 ++ (field_bytes tn p2 ++ (size_bytes ++ rest))) →
          Metadata.deserialize v s
            = (.error (.ReadMetadataError "Tool version size is greater than the maximum value"),
                s.advance (4 + (8 + 512) + (8 + 512) + 8)))
      ∧ (v ≥ 1 → le_value size_bytes > 2048 → field_ok 512 fv p1 → field_ok 512 tn p2 →
          field_ok 512 tv p3 →
          s.remaining = t ++ (field_bytes fv p1 ++ (field_bytes tn p2 ++ (field_bytes tv p3
            ++ (size_bytes ++ rest)))) →
          Metadata.deserialize v s
            = (.error (.ReadMetadataError "Tool info size is greater than the maximum value"),
                s.advance (4 + (8 + 512) + (8 + 512) + (8 + 512) + 8)))
      ∧ (v = 0 → le_value size_bytes > 2048 → field_ok 512 fv p1 → field_ok 512 tn p2 →
          s.remaining = t ++ (field_bytes fv p1 ++ (field_bytes tn p2 ++ (size_bytes ++ rest))) →
          Metadata.deserialize v s
            = (.error (.ReadMetadataError "Tool info size is greater than the maximum value"),
                s.advance (4 + (8 + 512) + (8 + 512) + 8))) := by
  refine ⟨?_, ?_, ?_, ?_, ?_⟩
  · intro hbig hr
    obtain ⟨e0, f0, r0⟩ := Stream.read_type s hs t _ hr ht
    unfold Metadata.deserialize
    rw [e0]
    simp only [ht, ne_eq, not_true_eq_false, if_false]
    rw [deserialize_string_oversize format_version_max_size _ _ _ _ _ f0 _ _ r0 hlen hbig,
      Stream.advance_advance]
  · intro hbig k1 hr
    obtain ⟨e0, f0, r0⟩ := Stream.read_type s hs t _ hr ht
    unfold Metadata.deserialize
    rw [e0]
    simp only [ht, ne_eq, not_true_eq_false, if_false]
    obtain ⟨e1, f1, r1⟩ := deserialize_string_field format_version_max_size
      "Can't read enough data for the format version size"
      "Format version size is greater than the maximum value"
      "Can't read enough data for the format version"
      "Can't read enough data for the padding of the format version" _ f0 _ _ _ r0 k1 (by decide)
    rw [e1]
    simp only
    rw [deserialize_string_oversize tool_name_max_size _ _ _ _ _ f1 _ _ r1 hlen hbig]
    simp only [Stream.advance_advance, format_version_max_size]
  · intro hv hbig k1 k2 hr
    obtain ⟨e0, f0, r0⟩ := Stream.read_type s hs t _ hr ht
    unfold Metadata.deserialize
    rw [e0]
    simp only [ht, ne_eq, not_true_eq_false, if_false]
    obtain ⟨e1, f1, r1⟩ := deserialize_string_field format_version_max_size
      "Can't read enough data for the format version size"
      "Format version size is greater than the maximum value"
      "Can't read enough data for the format version"
      "Can't read enough data for the padding of the format version" _ f0 _ _ _ r0 k1 (by decide)
    rw [e1]
    simp only
    obtain ⟨e2, f2, r2⟩ := deserialize_string_field tool_name_max_size
      "Can't read enough data for the tool name size"
      "Tool name size is greater than the maximum value"
      "Can't read enough data for the tool name"
      "Can't read enough data for the padding of the tool name" _ f1 _ _ _ r1 k2 (by decide)
    rw [e2]
    simp only [if_pos hv]
    rw [deserialize_string_oversize tool_version_max_size _ _ _ _ _ f2 _ _ r2 hlen hbig]
    simp only [Stream.advance_advance, format_version_max_size, tool_name_max_size]
  · intro hv hbig k1 k2 k3 hr
    obtain ⟨e0, f0, r0⟩ := Stream.read_type s hs t _ hr ht
    unfold Metadata.deserialize
    rw [e0]
    simp only [ht, ne_eq, not_true_eq_false, if_false]
    obtain ⟨e1, f1, r1⟩ := deserialize_string_field format_version_max_size
      "Can't read enough data for the format version size"
      "Format version size is greater than the maximum value"
      "Can't read enough data for the format version"
      "Can't read enough data for the padding of the format version" _ f0 _ _ _ r0 k1 (by decide)
    rw [e1]
    simp only
    obtain ⟨e2, f2, r2⟩ := deserialize_string_field tool_name_max_size
      "Can't read enough data for the tool name size"
      "Tool name size is greater than the maximum value"
      "Can't read enough data for the tool name"
      "Can't read enough data for the padding of the tool name" _ f1 _ _ _ r1 k2 (by decide)
    rw [e2]
    simp only [if_pos hv]
    obtain ⟨e3, f3, r3⟩ := deserialize_string_field tool_version_max_size
      "Can't read enough data for the tool version size"
      "Tool version size is greater than the maximum value"
      "Can't read enough data for the tool version"
      "Can't read enough data for the padding of the tool version" _ f2 _ _ _ r2 k3 (by decide)
    rw [e3]
    simp only
    rw [deserialize_string_oversize tool_info_max_size _ _ _ _ _ f3 _ _ r3 hlen hbig]
    simp only [Stream.advance_advance, format_version_max_size, tool_name_max_size,
      tool_version_max_size]
  · intro hv hbig k1 k2 hr
    subst hv
    obtain ⟨e0, f0, r0⟩ := Stream.read_type s hs t _ hr ht
    unfold Metadata.deserialize
    rw [e0]
    simp only [ht, ne_eq, not_true_eq_false, if_false]
    obtain ⟨e1, f1, r1⟩ := deserialize_string_field format_version_max_size
      "Can't read enough data for the format version size"
      "Format version size is greater than the maximum value"
      "Can't read enough data for the format version"
      "Can't read enough data for the padding of the format version" _ f0 _ _ _ r0 k1 (by decide)
    rw [e1]
    simp only
    obtain ⟨e2, f2, r2⟩ := deserialize_string_field tool_name_max_size
      "Can't read enough data for the tool name size"
      "Tool name size is greater than the maximum value"
      "Can't read enough data for the tool name"
      "Can't read enough data for the padding of the tool name" _ f1 _ _ _ r1 k2 (by decide)
    rw [e2]
    have hv0 : ¬ (0 ≥ 1) := by decide
    simp only [if_neg hv0]
    rw [deserialize_string_oversize tool_info_max_size _ _ _ _ _ f2 _ _ r2 hlen hbig]
    simp only [Stream.advance_advance, format_version_max_size, tool_name_max_size]

/-- C10 at the stream of the tests: the type, then a format version size of 513. -/
theorem oversized_size_rejected_witness :
    Metadata.deserialize 1 (Stream.ofBytes (le_bytes 4 42 ++ (le_bytes 8 513 ++ [])))
      = (.error (.ReadMetadataError "Format version size is greater than the maximum value"),
          (Stream.ofBytes (le_bytes 4 42 ++ (le_bytes 8 513 ++ []))).advance (4 + 8)) :=
  (oversized_size_rejected 1 (Stream.ofBytes (le_bytes 4 42 ++ (le_bytes 8 513 ++ []))) rfl
    (le_bytes 4 42) (le_bytes 8 513) [] rfl rfl [] [] [] [] [] []).1 (by decide) rfl

/-- C11. Version gating: `Metadata::deserialize` at header version 0 reads no tool version
from the stream. Every `Metadata` it returns has the tool version `"1.0.0-prerelease"`;
its type, format version, tool name, tool info and generation date are the values found
in the stream, the size of the tool info standing at offset `4 + 520 + 520 = 1044`, right
behind the tool name field, and the generation date at offset 3100; the get cursor has
moved by 3108 bytes, a header without a tool version field. -/
theorem version_zero_defaults_tool_version (s : Stream) (md : Metadata)
    (h : (Metadata.deserialize 0 s).1 = .ok md) :
    md.tool_version_ = chars "1.0.0-prerelease"
      ∧ md.type_ = to_u32 (le_value (s.remaining.take 4))
      ∧ md.format_version_
          = (s.remaining.drop (4 + 8)).take (le_value ((s.remaining.drop 4).take 8))
      ∧ md.tool_name_
          = (s.remaining.drop (524 + 8)).take (le_value ((s.remaining.drop 524).take 8))
      ∧ md.tool_info_
          = (s.remaining.drop (1044 + 8)).take (le_value ((s.remaining.drop 1044).take 8))
      ∧ md.generation_date_ = to_u64 (le_value ((s.remaining.drop 3100).take 8))
      ∧ (Metadata.deserialize 0 s).2 = s.advance 3108 := by
  obtain ⟨hs, hdec⟩ := (deserialize_ok_iff 0 s md).1 h
  obtain ⟨-, h0, h1, h2, h3, h4, h5⟩ := (decode_outcome_ok_iff 0 _ md).1 hdec
  have hsz : header_size 0 = 3108 := rfl
  rw [hsz] at h4 h5
  have hv0 : ¬ (0 ≥ 1) := by decide
  rw [if_neg hv0] at h3
  simp only [Except.ok.injEq, Nat.reduceSub] at h3 h4 h5
  have e1 := ((string_outcome_ok_iff _ _ _ _ _ _ _).1 h1).2.2.2
  have e2 := ((string_outcome_ok_iff _ _ _ _ _ _ _).1 h2).2.2.2
  have e4 := ((string_outcome_ok_iff _ _ _ _ _ _ _).1 h4).2.2.2
  rw [List.drop_drop] at e1 e2 e4
  refine ⟨h3.symm, h0, ?_, ?_, ?_, h5, ?_⟩
  · rw [e1]
  · rw [e2]
  · rw [e4]
  · rw [deserialize_eq_of_ok 0 s md hs hdec]
    rfl

/-- C11 at the header of the tests, encoded without its tool version field. -/
theorem version_zero_defaults_tool_version_witness :
    (dummy_header.metadata 0).tool_version_ = chars "1.0.0-prerelease"
      ∧ (Metadata.deserialize 0 (Stream.ofBytes (dummy_header.bytes 0))).2
          = (Stream.ofBytes (dummy_header.bytes 0)).advance 3108 :=
  ⟨(version_zero_defaults_tool_version (Stream.ofBytes (dummy_header.bytes 0))
      (dummy_header.metadata 0) dummy_header_decoded_v0).1,
    (version_zero_defaults_tool_version (Stream.ofBytes (dummy_header.bytes 0))
      (dummy_header.metadata 0) dummy_header_decoded_v0).2.2.2.2.2.2⟩

/-- C12. Wrong magic: for every stream of at least 8 bytes whose first 8 bytes, as a
64-bit value, are neither the current magic `0x72766e62696e7273` nor the legacy magic
`0x7262696e72737263`, `Reader::open` fails with `ReaderError` and `Writer::open` fails
with `WriterError`, whatever bytes follow; on a good stream the message is
`"Wrong magic"`. -/
theorem wrong_magic_rejected (s : Stream) (_ : 8 ≤ s.data.length)
    (hm : le_value (s.data.take 8) ≠ 0x72766e62696e7273)
    (hl : le_value (s.data.take 8) ≠ 0x7262696e72737263) :
    (∃ msg, Reader.open s = .error (.ReaderError msg))
      ∧ (∃ msg, Writer.open s = .error (.WriterError msg))
      ∧ (s.fail = false →
          Reader.open s = .error (.ReaderError "Wrong magic")
            ∧ Writer.open s = .error (.WriterError "Wrong magic")) := by
  have hm2 : ¬ le_value (s.data.take 8) = magic := hm
  have hl2 : ¬ le_value (s.data.take 8) = legacy_magic := hl
  rcases Bool.eq_false_or_eq_true s.fail with hs | hs
  · exact ⟨⟨_, Reader.open_of_fail s hs⟩, ⟨_, Writer.reopen_of_fail s hs⟩,
      fun h => absurd (hs.symm.trans h) (by decide)⟩
  · have hr : Reader.open s = .error (.ReaderError "Wrong magic") := by
      rw [Reader.open_eq_reader_outcome]
      unfold Reader.open_outcome
      rw [if_neg (by simp [hs]), if_neg hm2, if_neg hl2]
    have hw : Writer.open s = .error (.WriterError "Wrong magic") := by
      rw [Writer.open_eq_writer_outcome]
      unfold Writer.open_outcome
      rw [if_neg (by simp [hs]), if_neg hm2, if_neg hl2]
    exact ⟨⟨_, hr⟩, ⟨_, hw⟩, fun _ => ⟨hr, hw⟩⟩

/-- C12 at the stream of the tests, which holds the 8 bytes of `0x42424242424242`. -/
theorem wrong_magic_rejected_witness :
    Reader.open (Stream.ofBytes (le_bytes 8 0x42424242424242))
        = .error (.ReaderError "Wrong magic")
      ∧ Writer.open (Stream.ofBytes (le_bytes 8 0x42424242424242))
        = .error (.WriterError "Wrong magic") :=
  (wrong_magic_rejected (Stream.ofBytes (le_bytes 8 0x42424242424242)) (by decide) (by decide)
    (by decide)).2.2 rfl

/-- C13. A version from the future is rejected by the reader: for every stream that
begins with the current magic and a 4-byte header version above the current version 1,
`Reader::open` fails with `ReaderError`, whatever the bytes `rest` behind the version;
on a good stream the message is `"Metadata version in the future"`, not one of the
decoder: no metadata is decoded. -/
theorem future_version_rejected (s : Stream) (v : Nat) (rest : List Byte)
    (hv : v > metadata_version) (hv32 : v < 2 ^ 32)
    (hd : s.data = le_bytes 8 magic ++ (le_bytes 4 v ++ rest)) :
    (∃ msg, Reader.open s = .error (.ReaderError msg))
      ∧ (s.fail = false →
          Reader.open s = .error (.ReaderError "Metadata version in the future")) := by
  obtain ⟨e1, e2, e3, -⟩ := resource_start magic v rest
  rcases Bool.eq_false_or_eq_true s.fail with hs | hs
  · exact ⟨⟨_, Reader.open_of_fail s hs⟩, fun h => absurd (hs.symm.trans h) (by decide)⟩
  · have hr : Reader.open s = .error (.ReaderError "Metadata version in the future") := by
      rw [Reader.open_eq_reader_outcome]
      unfold Reader.open_outcome
      rw [hd, e1, e3, le_value_magic, le_value_version v hv32, if_neg (by simp [hs]),
        if_pos rfl, if_neg (Nat.not_lt.2 e2), if_pos hv]
    exact ⟨⟨_, hr⟩, fun _ => hr⟩

/-- C13 at the stream of the tests: the current magic, then the version 2. -/
theorem future_version_rejected_witness :
    Reader.open (Stream.ofBytes (le_bytes 8 magic ++ (le_bytes 4 2 ++ [])))
      = .error (.ReaderError "Metadata version in the future") :=
  (future_version_rejected (Stream.ofBytes (le_bytes 8 magic ++ (le_bytes 4 2 ++ []))) 2 []
    (by decide) (by decide) rfl).2 rfl

/-- C14. Failing input of the legacy magic: the header of version 0 of the tests with an
empty tool info (the size 0, then 2048 bytes of padding) is in the layout of the
specification and takes 3108 bytes; on the legacy magic followed by that header
`Reader::open` fails instead of returning the metadata, because the decoder treats the
content read of zero characters as a short read. -/
theorem legacy_reader_rejects_empty_tool_info :
    empty_info_header.in_layout 0
      ∧ (empty_info_header.bytes 0).length = 3108
      ∧ Reader.open (Stream.ofBytes (le_bytes 8 legacy_magic ++ (empty_info_header.bytes 0 ++ [])))
          = .error (.ReaderError
              "While reading metadata: Can't read enough data for the tool info") := by
  refine ⟨empty_info_header_in_layout, empty_info_header_length, ?_⟩
  obtain ⟨e1, e2⟩ := legacy_resource_start (empty_info_header.bytes 0 ++ [])
  have key : ∀ s : Stream, s.fail = false →
      s.data = le_bytes 8 legacy_magic ++ (empty_info_header.bytes 0 ++ []) →
      Reader.open s = .error (.ReaderError
        "While reading metadata: Can't read enough data for the tool info") := by
    intro s hs hd
    rw [Reader.open_eq_reader_outcome]
    unfold Reader.open_outcome
    rw [hd, e1, e2, le_value_legacy_magic, if_neg (by simp [hs]),
      if_neg (Ne.symm magic_ne_legacy), if_pos rfl, decode_outcome_empty_info_header []]
    rfl
  exact key _ rfl rfl

/-- C15. `Writer::open` requires the exact current version: for every stream that begins
with the current magic and a 4-byte header version other than 1, smaller or greater,
`Writer::open` fails with `WriterError`, whatever the bytes `rest` behind the version; on
a good stream the message is that of the version check. -/
theorem writer_open_requires_current_version (s : Stream) (v : Nat) (rest : List Byte)
    (hv : v ≠ metadata_version) (hv32 : v < 2 ^ 32)
    (hd : s.data = le_bytes 8 magic ++ (le_bytes 4 v ++ rest)) :
    (∃ msg, Writer.open s = .error (.WriterError msg))
      ∧ (s.fail = false →
          Writer.open s = .error (.WriterError
            "Writer can't open resource with different metadata version than the current")) := by
  obtain ⟨e1, e2, e3, -⟩ := resource_start magic v rest
  rcases Bool.eq_false_or_eq_true s.fail with hs | hs
  · exact ⟨⟨_, Writer.reopen_of_fail s hs⟩, fun h => absurd (hs.symm.trans h) (by decide)⟩
  · have hr : Writer.open s = .error (.WriterError
        "Writer can't open resource with different metadata version than the current") := by
      rw [Writer.open_eq_writer_outcome]
      unfold Writer.open_outcome
      rw [hd, e1, e3, le_value_magic, le_value_version v hv32, if_neg (by simp [hs]),
        if_pos rfl, if_neg (Nat.not_lt.2 e2), if_pos hv]
    exact ⟨⟨_, hr⟩, fun _ => hr⟩

/-- C15 at the two streams of the tests: the current magic, then the version 0 (from the
past) or the version 2 (from the future). -/
theorem writer_open_requires_current_version_witness :
    Writer.open (Stream.ofBytes (le_bytes 8 magic ++ (le_bytes 4 0 ++ [])))
        = .error (.WriterError
            "Writer can't open resource with different metadata version than the current")
      ∧ Writer.open (Stream.ofBytes (le_bytes 8 magic ++ (le_bytes 4 2 ++ [])))
        = .error (.WriterError
            "Writer can't open resource with different metadata version than the current") :=
  ⟨(writer_open_requires_current_version
      (Stream.ofBytes (le_bytes 8 magic ++ (le_bytes 4 0 ++ []))) 0 [] (by decide) (by decide)
      rfl).2 rfl,
    (writer_open_requires_current_version
      (Stream.ofBytes (le_bytes 8 magic ++ (le_bytes 4 2 ++ []))) 2 [] (by decide) (by decide)
      rfl).2 rfl⟩

/-- C16. Failing input of the cursor of `Writer::open`: `Writer::create` succeeds on the
builder-accepted `Metadata` with an empty format version, and `Writer::open` on the
stream it produced (with no payload behind the header) fails instead of returning a
writer positioned at `md_size`. -/
theorem writer_open_rejects_created_empty_format_version :
    MetadataWriter.write 42 [] (chars "TestMetaDataWriter") (chars "1.0.0")
        (chars "Tests version 1.0.0") 42424242 = .ok empty_version_md
      ∧ ∃ w, Writer.create Stream.empty empty_version_md = .ok w
        ∧ Writer.open (w.stream_.write [])
            = .error (.WriterError
                "While reading metadata: Can't read enough data for the format version") := by
  obtain ⟨w, hc, -, hw⟩ := create_then_write empty_version_md empty_version_md_valid []
  refine ⟨rfl, w, hc, ?_⟩
  rw [hw, Writer.reopen_of_current_magic _ rfl _ rfl,
    decode_outcome_wire_empty metadata_version empty_version_md rfl]
  rfl

/-- C17. `Writer::open` writes nothing: for every stream on which `Writer::open`
succeeds, the bytes of the stream after the call are those before the call, so the
payload bytes at the offsets from `md_size` on are unchanged and are what a read from the
stream of the writer delivers. -/
theorem writer_open_writes_nothing (s : Stream) (w : Writer) (h : Writer.open s = .ok w) :
    w.stream_.data = s.data
      ∧ (∀ i : Nat, w.stream_.data[i]? = s.data[i]?)
      ∧ w.stream_.data.drop w.md_size_ = s.data.drop w.md_size_
      ∧ (∀ n, (w.stream_.read n).1 = (s.data.drop w.md_size_).take n) := by
  obtain ⟨hs, -, -, -, -, rfl⟩ := Writer.open_ok s w h
  refine ⟨rfl, fun _ => rfl, rfl, fun n => ?_⟩
  exact Stream.read_fst { data := s.data, gpos := 3640, ppos := 3640, fail := s.fail } n hs

/-- C17 at the stream of the writer created in the tests. -/
theorem writer_open_writes_nothing_witness :
    ({ stream_ := { dummy_writer.stream_ with gpos := 3640, ppos := 3640 },
       md_size_ := 3640 } : Writer).stream_.data = dummy_writer.stream_.data :=
  (writer_open_writes_nothing dummy_writer.stream_ _ dummy_writer_reopened).1

/-- C18. Output of `Writer::create`: for every `Metadata` the builder returns,
`Writer::create` on an empty good stream succeeds and leaves exactly the bytes of the
current magic (8), of the current header version 1 (4) and those `Metadata::serialize`
writes; `md_size` is `12 + 3628 = 3640`, the length of the stream, and the put cursor
stands at `md_size`, so that bytes written next through the stream are appended: they
take the offsets from `md_size` on, and the cursor ends behind them. -/
theorem writer_create_output (type : U32)
    (format_version tool_name tool_version tool_info : List Byte) (generation_date : U64)
    (md : Metadata)
    (hmd : MetadataWriter.write type format_version tool_name tool_version tool_info
      generation_date = .ok md) :
    ∃ w, Writer.create Stream.empty md = .ok w
      ∧ w.stream_.data
          = le_bytes 8 magic ++ (le_bytes 4 metadata_version ++ (md.serialize Stream.empty).data)
      ∧ w.md_size_ = 12 + 3628
      ∧ w.stream_.data.length = w.md_size_
      ∧ w.stream_.tellp = w.md_size_
      ∧ ∀ payload : List Byte,
          (w.stream_.write payload).data = w.stream_.data ++ payload
            ∧ (w.stream_.write payload).data.drop w.md_size_ = payload
            ∧ (w.stream_.write payload).tellp = w.md_size_ + payload.length := by
  have hv := MetadataWriter.write_valid _ _ _ _ _ _ _ hmd
  have hc := Writer.create_of_good Stream.empty md rfl hv
  have hl := resource_header_length md hv
  have hdata : resource_header md ++ ([] : List Byte).drop 3640
      = le_bytes 8 magic ++ (le_bytes 4 metadata_version ++ (md.serialize Stream.empty).data) := by
    rw [serialize_empty_stream]
    simp only [resource_header, List.drop_nil, List.append_assoc, List.append_nil]
  have hlen : (resource_header md ++ ([] : List Byte).drop 3640).length = 3640 := by
    rw [List.drop_nil, List.append_nil, hl]
  refine ⟨_, hc, hdata, rfl, hlen, rfl, fun payload => ?_⟩
  obtain ⟨w2, hc2, -, hw⟩ := create_then_write md hv payload
  rw [hc] at hc2
  simp only [Except.ok.injEq] at hc2
  subst hc2
  rw [hw]
  refine ⟨?_, ?_, ?_⟩
  · simp only [Stream.empty, resource_header, List.drop_nil, List.append_nil, List.append_assoc]
  · exact resource_bytes_drop _ _ (wire_length md hv)
  · simp only [Stream.tellp, Bool.false_eq_true, if_false]
    push_cast
    rfl

/-- C18 at the metadata of the tests. -/
theorem writer_create_output_witness :
    ∃ w, Writer.create Stream.empty dummy_md = .ok w
      ∧ w.stream_.data
          = le_bytes 8 magic
            ++ (le_bytes 4 metadata_version ++ (dummy_md.serialize Stream.empty).data)
      ∧ w.md_size_ = 12 + 3628
      ∧ w.stream_.data.length = w.md_size_
      ∧ w.stream_.tellp = w.md_size_
      ∧ ∀ payload : List Byte,
          (w.stream_.write payload).data = w.stream_.data ++ payload
            ∧ (w.stream_.write payload).data.drop w.md_size_ = payload
            ∧ (w.stream_.write payload).tellp = w.md_size_ + payload.length :=
  writer_create_output 42 (chars "1.0.0-dummy") (chars "TestMetaDataWriter") (chars "1.0.0")
    (chars "Tests version 1.0.0") 42424242 dummy_md rfl

/-- C19. Position bookkeeping of the reader: after every successful `Reader::open` the
read position of the stream is `md_size`, and `md_size` is the length of the whole
header: 3640 with the current magic and the header version 1, 3120 with the current magic
and the header version 0, 3116 with the legacy magic. The stream holds at least that many
bytes, its bytes are those handed in, and the next bytes read from the stream of the
reader are the payload bytes behind the header. -/
theorem reader_position_bookkeeping (s : Stream) (r : Reader) (h : Reader.open s = .ok r) :
    r.stream_.tellg = r.md_size_
      ∧ r.stream_.gpos = r.md_size_
      ∧ r.stream_.data = s.data
      ∧ ((le_value (s.data.take 8) = magic ∧ le_value ((s.data.drop 8).take 4) = 1
            ∧ r.md_size_ = 3640)
          ∨ (le_value (s.data.take 8) = magic ∧ le_value ((s.data.drop 8).take 4) = 0
            ∧ r.md_size_ = 3120)
          ∨ (le_value (s.data.take 8) = legacy_magic ∧ r.md_size_ = 3116))
      ∧ r.md_size_ ≤ s.data.length
      ∧ (∀ n, (r.stream_.read n).1 = (s.data.drop r.md_size_).take n) := by
  obtain ⟨hs, hcase⟩ := Reader.open_ok_cases s r h
  rcases hcase with ⟨hm, h12, hv, hdec, hr⟩ | ⟨hl, hdec, hr⟩
  · have hlen := decode_outcome_ok_length_aux _ _ _ hdec
    rw [List.length_drop] at hlen
    have hread : ∀ n, (({ s with
        gpos := 12 + header_size (le_value ((s.data.drop 8).take 4)) } : Stream).read n).1
          = (s.data.drop (12 + header_size (le_value ((s.data.drop 8).take 4)))).take n :=
      fun n => Stream.read_fst _ n hs
    have hsz : (le_value ((s.data.drop 8).take 4) = 1
          ∧ 12 + header_size (le_value ((s.data.drop 8).take 4)) = 3640)
        ∨ (le_value ((s.data.drop 8).take 4) = 0
          ∧ 12 + header_size (le_value ((s.data.drop 8).take 4)) = 3120) := by
      unfold metadata_version at hv
      rcases Nat.le_one_iff_eq_zero_or_eq_one.1 hv with h0 | h1
      · exact Or.inr ⟨h0, by rw [h0]; rfl⟩
      · exact Or.inl ⟨h1, by rw [h1]; rfl⟩
    rw [hr]
    refine ⟨by simp [Stream.tellg, hs], rfl, rfl, ?_, by simp only; omega, hread⟩
    rcases hsz with ⟨h1, h2⟩ | ⟨h0, h2⟩
    · exact Or.inl ⟨hm, h1, h2⟩
    · exact Or.inr (Or.inl ⟨hm, h0, h2⟩)
  · have hlen := decode_outcome_ok_length_aux _ _ _ hdec
    rw [List.length_drop] at hlen
    have hread : ∀ n, (({ s with gpos := 8 + header_size 0 } : Stream).read n).1
          = (s.data.drop (8 + header_size 0)).take n :=
      fun n => Stream.read_fst _ n hs
    rw [hr]
    refine ⟨by simp [Stream.tellg, hs], rfl, rfl, Or.inr (Or.inr ⟨hl, rfl⟩), ?_, hread⟩
    have hsz : header_size 0 = 3108 := rfl
    have h8 : 8 ≤ s.data.length := by
      by_contra hc
      exact (le_value_short_ne_magic (s.data.take 8)
        (by rw [List.length_take]; omega)).2 hl
    simp only
    omega

/-- C19 at the stream of the writer created in the tests. -/
theorem reader_position_bookkeeping_witness :
    ({ dummy_writer.stream_ with gpos := 3640 } : Stream).tellg = (3640 : Nat)
      ∧ ({ dummy_writer.stream_ with gpos := 3640 } : Stream).gpos = 3640 :=
  ⟨(reader_position_bookkeeping dummy_writer.stream_ _ dummy_writer_read).1,
    (reader_position_bookkeeping dummy_writer.stream_ _ dummy_writer_read).2.1⟩

/-- C20. Size invariant of every obtainable `Metadata`: a `Metadata` returned by
`MetadataWriter::write`, or by a successful `Metadata::deserialize` at any header
version, has a format version, a tool name and a tool version of at most 512 bytes and a
tool info of at most 2048 bytes. All six fields hold a value: a decoded `Metadata` has no
empty string, and below header version 1 its tool version is the default
`"1.0.0-prerelease"` of 16 bytes. -/
theorem obtainable_metadata_valid (md : Metadata) :
    (∀ (type : U32) (format_version tool_name tool_version tool_info : List Byte)
        (generation_date : U64),
        MetadataWriter.write type format_version tool_name tool_version tool_info
            generation_date = .ok md →
          md.format_version_.length ≤ 512 ∧ md.tool_name_.length ≤ 512
            ∧ md.tool_version_.length ≤ 512 ∧ md.tool_info_.length ≤ 2048
            ∧ md = { type_ := type, format_version_ := format_version, tool_name_ := tool_name,
                     tool_version_ := tool_version, tool_info_ := tool_info,
                     generation_date_ := generation_date })
      ∧ (∀ (v : Nat) (s : Stream), (Metadata.deserialize v s).1 = .ok md →
          (md.format_version_.length ≤ 512 ∧ md.tool_name_.length ≤ 512
            ∧ md.tool_version_.length ≤ 512 ∧ md.tool_info_.length ≤ 2048)
            ∧ (1 ≤ md.format_version_.length ∧ 1 ≤ md.tool_name_.length
              ∧ 1 ≤ md.tool_version_.length ∧ 1 ≤ md.tool_info_.length)
            ∧ (v < 1 → md.tool_version_ = chars "1.0.0-prerelease"
                ∧ md.tool_version_.length = 16)) := by
  refine ⟨fun type fv tn tv ti gd h => ?_, fun v s h => ?_⟩
  · obtain ⟨⟨h1, h2, h3, h4⟩, rfl⟩ := (MetadataWriter.write_ok_iff _ _ _ _ _ _ _).1 h
    exact ⟨h1, h2, h3, h4, rfl⟩
  · obtain ⟨-, hdec⟩ := (deserialize_ok_iff v s md).1 h
    obtain ⟨hvalid, hne⟩ := decode_outcome_valid v _ md hdec
    refine ⟨hvalid, hne, fun hv => ?_⟩
    obtain ⟨-, -, -, -, h3, -, -⟩ := (decode_outcome_ok_iff v _ md).1 hdec
    rw [if_neg (by omega)] at h3
    simp only [Except.ok.injEq] at h3
    rw [← h3]
    exact ⟨rfl, chars_prerelease_length⟩

/-- C20 at the metadata of the tests, built and read back, and at the header of the
tests read at version 0. -/
theorem obtainable_metadata_valid_witness :
    (dummy_md.format_version_.length ≤ 512 ∧ dummy_md.tool_name_.length ≤ 512
        ∧ dummy_md.tool_version_.length ≤ 512 ∧ dummy_md.tool_info_.length ≤ 2048)
      ∧ (dummy_header.metadata 0).tool_version_.length ≤ 512 :=
  ⟨((obtainable_metadata_valid dummy_md).2 metadata_version (dummy_md.serialize Stream.empty)
      (round_trip_of_nonempty metadata_version (Nat.le_refl _) dummy_md dummy_md_valid
        dummy_md_nonempty)).1,
    ((obtainable_metadata_valid (dummy_header.metadata 0)).2 0
      (Stream.ofBytes (dummy_header.bytes 0)) dummy_header_decoded_v0).1.2.2.1⟩

/-- C21. A short read of the header version is fatal: for every stream that consists of
the current magic followed by fewer than 4 further bytes, `Reader::open` fails with
`ReaderError` and `Writer::open` fails with `WriterError`; on a good stream the message
is `"Can't read enough data for the metadata version"`. -/
theorem short_version_rejected (s : Stream) (tail : List Byte) (ht : tail.length < 4)
    (hd : s.data = le_bytes 8 magic ++ tail) :
    (∃ msg, Reader.open s = .error (.ReaderError msg))
      ∧ (∃ msg, Writer.open s = .error (.WriterError msg))
      ∧ (s.fail = false →
          Reader.open s
              = .error (.ReaderError "Can't read enough data for the metadata version")
            ∧ Writer.open s
              = .error (.WriterError "Can't read enough data for the metadata version")) := by
  obtain ⟨e1, e2⟩ := short_version_start tail ht
  rcases Bool.eq_false_or_eq_true s.fail with hs | hs
  · exact ⟨⟨_, Reader.open_of_fail s hs⟩, ⟨_, Writer.reopen_of_fail s hs⟩,
      fun h => absurd (hs.symm.trans h) (by decide)⟩
  · have hr : Reader.open s
        = .error (.ReaderError "Can't read enough data for the metadata version") := by
      rw [Reader.open_eq_reader_outcome]
      unfold Reader.open_outcome
      rw [hd, e1, le_value_magic, if_neg (by simp [hs]), if_pos rfl, if_pos e2]
    have hw : Writer.open s
        = .error (.WriterError "Can't read enough data for the metadata version") := by
      rw [Writer.open_eq_writer_outcome]
      unfold Writer.open_outcome
      rw [hd, e1, le_value_magic, if_neg (by simp [hs]), if_pos rfl, if_pos e2]
    exact ⟨⟨_, hr⟩, ⟨_, hw⟩, fun _ => ⟨hr, hw⟩⟩

/-- C21 at the stream of the tests, which holds the current magic and nothing else. -/
theorem short_version_rejected_witness :
    Reader.open (Stream.ofBytes (le_bytes 8 magic ++ []))
        = .error (.ReaderError "Can't read enough data for the metadata version")
      ∧ Writer.open (Stream.ofBytes (le_bytes 8 magic ++ []))
        = .error (.WriterError "Can't read enough data for the metadata version") :=
  (short_version_rejected (Stream.ofBytes (le_bytes 8 magic ++ [])) [] (by decide) rfl).2.2 rfl

/-- C22. A bad stream is rejected up front: for every stream that is already in a failed
state, `Reader::open` fails with `ReaderError`, and `Writer::create` and `Writer::open`
fail with `WriterError`, each with the message `"Bad stream"` of the check that stands
before the first read or write. The seeks of the constructors, the only stream
operations made before that check, leave the stream as it is, and no read or write on
such a stream transfers a byte: its content is unchanged. -/
theorem bad_stream_rejected (s : Stream) (hs : s.fail = true) (md : Metadata) :
    Reader.open s = .error (.ReaderError "Bad stream")
      ∧ Writer.create s md = .error (.WriterError "Bad stream")
      ∧ Writer.open s = .error (.WriterError "Bad stream")
      ∧ s.seekg 0 = s ∧ s.seekp 0 = s
      ∧ (∀ n, s.read n = ([], s)) ∧ (∀ bytes, s.write bytes = s) :=
  ⟨Reader.open_of_fail s hs, Writer.create_of_fail s md hs, Writer.reopen_of_fail s hs,
    Stream.seekg_of_fail s 0 hs, Stream.seekp_of_fail s 0 hs,
    fun n => Stream.read_of_fail s n hs, fun bytes => Stream.write_of_fail s bytes hs⟩

/-- C22 at the stream of the tests: an empty stream after `seekg(50000)`. -/
theorem bad_stream_rejected_witness :
    (Stream.empty.seekg 50000).fail = true
      ∧ Reader.open (Stream.empty.seekg 50000) = .error (.ReaderError "Bad stream")
      ∧ Writer.create (Stream.empty.seekg 50000) dummy_md = .error (.WriterError "Bad stream")
      ∧ Writer.open (Stream.empty.seekg 50000) = .error (.WriterError "Bad stream") :=
  ⟨by decide,
    (bad_stream_rejected (Stream.empty.seekg 50000) (by decide) dummy_md).1,
    (bad_stream_rejected (Stream.empty.seekg 50000) (by decide) dummy_md).2.1,
    (bad_stream_rejected (Stream.empty.seekg 50000) (by decide) dummy_md).2.2.1⟩

/-- C23. Decode failures are wrapped by the reader and by the writer: whenever
`Metadata::deserialize` fails with an exception `e` inside `Reader::open` (after the
current magic and a version field, or after the legacy magic) or inside `Writer::open`,
the operation fails with a `ReaderError`, respectively a `WriterError`, whose message is
the context `"While reading metadata: "` followed by the message of `e`. No
`ReadMetadataError` leaves either function: every exception of `Reader::open` is a
`ReaderError` and every exception of `Writer::open` a `WriterError`. -/
theorem decode_failures_wrapped (s : Stream) (hs : s.fail = false) (v : Nat)
    (hv : v ≤ metadata_version) (body : List Byte)
    (hd : s.data = le_bytes 8 magic ++ (le_bytes 4 v ++ body)) (e : Error)
    (he : (Metadata.deserialize v { s with gpos := 8 + 4 }).1 = .error e) :
    Reader.open s = .error (.ReaderError ("While reading metadata: " ++ e.what))
      ∧ (v = metadata_version →
          Writer.open s = .error (.WriterError ("While reading metadata: " ++ e.what)))
      ∧ (∃ msg, e = .ReadMetadataError msg)
      ∧ (∀ (s2 : Stream) (body2 : List Byte) (e2 : Error), s2.fail = false →
          s2.data = le_bytes 8 legacy_magic ++ body2 →
          (Metadata.deserialize 0 { s2 with gpos := 8 }).1 = .error e2 →
          Reader.open s2 = .error (.ReaderError ("While reading metadata: " ++ e2.what)))
      ∧ (∀ (s2 : Stream) (e2 : Error), Reader.open s2 = .error e2 →
          ∃ msg, e2 = .ReaderError msg)
      ∧ (∀ (s2 : Stream) (e2 : Error), Writer.open s2 = .error e2 →
          ∃ msg, e2 = .WriterError msg) := by
  obtain ⟨-, -, -, e4⟩ := resource_start magic v body
  have hdec : decode_outcome v body = .error e := by
    rw [(deserialize_of_good v { s with gpos := 8 + 4 } hs).1] at he
    simpa [Stream.remaining, hd, e4] using he
  refine ⟨?_, fun hv1 => ?_, deserialize_error_kind _ _ e he, fun s2 body2 e2 hs2 hd2 he2 => ?_,
    Reader.open_error_kind, Writer.reopen_error_kind⟩
  · rw [Reader.open_of_current_magic s hs v hv body hd, hdec]
  · subst hv1
    rw [Writer.reopen_of_current_magic s hs body hd, hdec]
  · obtain ⟨l1, l2⟩ := legacy_resource_start body2
    have hdec2 : decode_outcome 0 body2 = .error e2 := by
      rw [(deserialize_of_good 0 { s2 with gpos := 8 } hs2).1] at he2
      simpa [Stream.remaining, hd2, l2] using he2
    rw [Reader.open_eq_reader_outcome]
    unfold Reader.open_outcome
    rw [hd2, l1, l2, le_value_legacy_magic, if_neg (by simp [hs2]),
      if_neg (Ne.symm magic_ne_legacy), if_pos rfl, hdec2]

/-- C23 at the stream of the tests: the current magic, the current version, and no
metadata. -/
theorem decode_failures_wrapped_witness :
    Reader.open (Stream.ofBytes (le_bytes 8 magic ++ (le_bytes 4 metadata_version ++ [])))
        = .error (.ReaderError ("While reading metadata: "
            ++ (Error.ReadMetadataError "Can't read enough data for the type").what))
      ∧ Writer.open (Stream.ofBytes (le_bytes 8 magic ++ (le_bytes 4 metadata_version ++ [])))
        = .error (.WriterError ("While reading metadata: "
            ++ (Error.ReadMetadataError "Can't read enough data for the type").what)) :=
  ⟨(decode_failures_wrapped
      (Stream.ofBytes (le_bytes 8 magic ++ (le_bytes 4 metadata_version ++ []))) rfl
      metadata_version (Nat.le_refl _) [] rfl
      (.ReadMetadataError "Can't read enough data for the type") rfl).1,
    (decode_failures_wrapped
      (Stream.ofBytes (le_bytes 8 magic ++ (le_bytes 4 metadata_version ++ []))) rfl
      metadata_version (Nat.le_refl _) [] rfl
      (.ReadMetadataError "Can't read enough data for the type") rfl).2.1 rfl⟩

/-- C24. I/O failures are re-wrapped at the codec boundary, on every stream `io` whose
`write` and `read` may throw `std::ios_base::failure`. A failure with the text `what`
thrown during `Metadata::serialize` (inside its `try` block: by its first `write`, or by
any later one) makes the call fail with `WriteMetadataError` and the message
`"IO error: " ++ what`; every exception of `Metadata::serialize` is such a
`WriteMetadataError`, for a failure that a `write` of the stream threw. A failure thrown
during `Metadata::deserialize` makes the call fail with `ReadMetadataError` and the
message `"IO error: " ++ what`; every exception of `Metadata::deserialize` is a
`ReadMetadataError`, either that one or one the decoder threw itself. So no raw stream
failure leaves either function. On a stream that throws nothing the two functions are
those embedded for the default mask. On a failed `std::stringstream` whose mask is
`failbit`, the stream of the tests, `Metadata::deserialize` throws its wrapped error: the
first `read` calls `setstate(failbit)`. On that stream `Metadata::serialize` writes
nothing and returns: `write` on a stream whose `failbit` is set calls no `setstate`, so
no failure is thrown and there is nothing to wrap. -/
theorem io_failures_rewrapped {σ : Type} (io : ThrowingStream σ) (md : Metadata)
    (out input : σ) (v : Nat) :
    (∀ what, md.serialize_try io out = .error (.failure what) →
        md.serialize_throwing io out
          = .error (.error (.WriteMetadataError ("IO error: " ++ what))))
      ∧ (∀ what, io.write out (le_bytes 4 md.type_.val) = .error what →
          md.serialize_throwing io out
            = .error (.error (.WriteMetadataError ("IO error: " ++ what))))
      ∧ (∀ t, md.serialize_throwing io out = .error t →
          ∃ what s bytes, io.write s bytes = .error what
            ∧ t = .error (.WriteMetadataError ("IO error: " ++ what)))
      ∧ (∀ what, Metadata.deserialize_try io v input = .error (.failure what) →
          Metadata.deserialize_throwing io v input
            = .error (.error (.ReadMetadataError ("IO error: " ++ what))))
      ∧ (∀ what, io.read input 4 = .error what →
          Metadata.deserialize_throwing io v input
            = .error (.error (.ReadMetadataError ("IO error: " ++ what))))
      ∧ (∀ t, Metadata.deserialize_throwing io v input = .error t →
          (∃ msg, t = .error (.ReadMetadataError msg))
            ∧ ((∃ what s n, io.read s n = .error what
                  ∧ t = .error (.ReadMetadataError ("IO error: " ++ what)))
                ∨ Metadata.deserialize_try io v input = .error t))
      ∧ (∀ s : Stream, md.serialize_throwing Stream.quiet s = .ok (md.serialize s))
      ∧ (∀ s : Stream,
          Metadata.deserialize_throwing Stream.quiet v s = as_thrown (Metadata.deserialize v s))
      ∧ (∀ (what : String) (s : Stream), s.fail = true →
          md.serialize_throwing (Stream.failbit_mask what) s = .ok s
            ∧ Metadata.deserialize_throwing (Stream.failbit_mask what) v s
              = .error (.error (.ReadMetadataError ("IO error: " ++ what))))
      ∧ (Stream.empty.seekg 50000).fail = true := by
  refine ⟨?_, ?_, ?_, ?_, ?_, ?_, ?_, ?_, ?_, ?_⟩
  · intro what h
    exact serialize_throwing_of_failure io md out what h
  · intro what h
    exact serialize_throwing_of_failure io md out what
      (serialize_try_first_write io md out what h)
  · intro t h
    exact serialize_throwing_error io md out t h
  · intro what h
    exact deserialize_throwing_of_failure io v input what h
  · intro what h
    exact deserialize_throwing_of_failure io v input what
      (deserialize_try_first_read io v input what h)
  · intro t h
    rcases deserialize_throwing_error io v input t h with ⟨what, s, n, hw, -, ht⟩ | ⟨msg, hb, ht⟩
    · exact ⟨⟨_, ht⟩, Or.inl ⟨what, s, n, hw, ht⟩⟩
    · exact ⟨⟨_, ht⟩, Or.inr (by rw [hb, ht])⟩
  · intro s
    exact serialize_throwing_quiet md s
  · intro s
    exact deserialize_throwing_quiet v s
  · intro what s hs
    exact ⟨by rw [serialize_throwing_failbit_mask, serialize_of_fail md s hs],
      deserialize_throwing_of_failure _ v s what
        (deserialize_try_first_read _ v s what (failbit_mask_of_fail what s hs 4))⟩
  · decide

/-- C25. Empty strings cannot be decoded: for every header version and every good stream
in which the 8-byte size of a string field present at that version holds 0, the fields
before it being well formed, `Metadata::deserialize` fails with `ReadMetadataError`,
whatever bytes `rest` follow the size and however many: the content read of zero
characters is treated as a short read (the message is the one of a content that cannot be
read). In particular the bytes `serialize` writes for a `Metadata` within the size limits
that has an empty string are rejected at the versions that have its four fields, also
when more bytes `rest` follow them. -/
theorem empty_string_rejected (v : Nat) (s : Stream) (hs : s.fail = false)
    (t size_bytes rest : List Byte) (ht : t.length = 4) (hlen : size_bytes.length = 8)
    (hz : le_value size_bytes = 0) (fv p1 tn p2 tv p3 : List Byte) :
    (s.remaining = t ++ (size_bytes ++ rest) →
        (Metadata.deserialize v s).1
          = .error (.ReadMetadataError "Can't read enough data for the format version"))
      ∧ (field_ok 512 fv p1 →
          s.remaining = t ++ (field_bytes fv p1 ++ (size_bytes ++ rest)) →
          (Metadata.deserialize v s).1
            = .error (.ReadMetadataError "Can't read enough data for the tool name"))
      ∧ (v ≥ 1 → field_ok 512 fv p1 → field_ok 512 tn p2 →
          s.remaining = t ++ (field_bytes fv p1 ++ (field_bytes tn p2 ++ (size_bytes ++ rest))) →
          (Metadata.deserialize v s).1
            = .error (.ReadMetadataError "Can't read enough data for the tool version"))
      ∧ (v ≥ 1 → field_ok 512 fv p1 → field_ok 512 tn p2 → field_ok 512 tv p3 →
          s.remaining = t ++ (field_bytes fv p1 ++ (field_bytes tn p2 ++ (field_bytes tv p3
            ++ (size_bytes ++ rest)))) →
          (Metadata.deserialize v s).1
            = .error (.ReadMetadataError "Can't read enough data for the tool info"))
      ∧ (v = 0 → field_ok 512 fv p1 → field_ok 512 tn p2 →
          s.remaining = t ++ (field_bytes fv p1 ++ (field_bytes tn p2 ++ (size_bytes ++ rest))) →
          (Metadata.deserialize v s).1
            = .error (.ReadMetadataError "Can't read enough data for the tool info"))
      ∧ (v ≥ 1 → ∀ md : Metadata, md.valid → ¬ md.nonempty →
          ∃ msg, (Metadata.deserialize v ((md.serialize Stream.empty).write rest)).1
            = .error (.ReadMetadataError msg)) := by
  refine ⟨?_, ?_, ?_, ?_, ?_, ?_⟩
  · intro hr
    rw [(deserialize_of_good v s hs).1, hr]
    exact decode_outcome_at_format_version v _ _ _ ht (string_outcome_zero _ _ _ _ _ _ _ hlen hz)
  · intro k1 hr
    rw [(deserialize_of_good v s hs).1, hr]
    exact decode_outcome_at_tool_name v _ _ _ _ _ ht k1
      (string_outcome_zero _ _ _ _ _ _ _ hlen hz)
  · intro hv k1 k2 hr
    rw [(deserialize_of_good v s hs).1, hr]
    exact decode_outcome_at_tool_version v hv _ _ _ _ _ _ _ ht k1 k2
      (string_outcome_zero _ _ _ _ _ _ _ hlen hz)
  · intro hv k1 k2 k3 hr
    rw [(deserialize_of_good v s hs).1, hr]
    exact decode_outcome_at_tool_info v hv _ _ _ _ _ _ _ _ _ ht k1 k2 k3
      (string_outcome_zero _ _ _ _ _ _ _ hlen hz)
  · intro hv k1 k2 hr
    subst hv
    rw [(deserialize_of_good 0 s hs).1, hr]
    exact decode_outcome_at_tool_info_v0 _ _ _ _ _ _ _ ht k1 k2
      (string_outcome_zero _ _ _ _ _ _ _ hlen hz)
  · intro hv md hmd hne
    rw [serialize_then_write, (deserialize_of_good v _ rfl).1]
    exact decode_outcome_wire_some_empty v hv md hmd hne rest

/-- C25 at the stream of a complete header whose format version size is 0, and at the
bytes written for the `Metadata` of the tests with its format version emptied. -/
theorem empty_string_rejected_witness :
    (Metadata.deserialize 1 (Stream.ofBytes (le_bytes 4 42
        ++ (le_bytes 8 0 ++ List.replicate 3616 0)))).1
        = .error (.ReadMetadataError "Can't read enough data for the format version")
      ∧ ∃ msg, (Metadata.deserialize 1 ((empty_version_md.serialize Stream.empty).write
          (List.replicate 3616 0))).1 = .error (.ReadMetadataError msg) :=
  ⟨(empty_string_rejected 1 (Stream.ofBytes (le_bytes 4 42
        ++ (le_bytes 8 0 ++ List.replicate 3616 0))) rfl (le_bytes 4 42) (le_bytes 8 0)
      (List.replicate 3616 0) rfl rfl (by decide) [] [] [] [] [] []).1 rfl,
    (empty_string_rejected 1 (Stream.ofBytes (le_bytes 4 42
        ++ (le_bytes 8 0 ++ List.replicate 3616 0))) rfl (le_bytes 4 42) (le_bytes 8 0)
      (List.replicate 3616 0) rfl rfl (by decide) [] [] [] [] [] []).2.2.2.2.2 (by decide)
      empty_version_md empty_version_md_valid (by decide)⟩

/-- C26. Round trip with trailing data: for every `Metadata` `m` whose four strings each
have a length between 1 and the maximum of the field, and every byte string `R`, the
stream that `serialize` wrote from empty and that `R` was written behind holds the header
bytes of `m` followed by `R`; `Metadata::deserialize` at header version 1 succeeds on it,
returns `m` itself (all six fields), moves the get cursor by 3628 bytes and leaves exactly
`R` unread, on a stream that is still good. -/
theorem round_trip_with_trailing_data (m : Metadata) (h : m.valid) (hne : m.nonempty)
    (R : List Byte) :
    ((m.serialize Stream.empty).write R).data = (m.serialize Stream.empty).data ++ R
      ∧ Metadata.deserialize 1 ((m.serialize Stream.empty).write R)
          = (.ok m, ((m.serialize Stream.empty).write R).advance 3628)
      ∧ (Metadata.deserialize 1 ((m.serialize Stream.empty).write R)).2.remaining = R
      ∧ (Metadata.deserialize 1 ((m.serialize Stream.empty).write R)).2.fail = false := by
  have hd : Metadata.deserialize 1 ((m.serialize Stream.empty).write R)
      = (.ok m, ((m.serialize Stream.empty).write R).advance 3628) := by
    rw [serialize_then_write]
    exact deserialize_eq_of_ok 1 _ m rfl (decode_outcome_wire 1 (by decide) m h hne R)
  refine ⟨?_, hd, ?_, ?_⟩
  · rw [serialize_then_write, serialize_empty_stream]
  · rw [hd, serialize_then_write]
    simp only [Stream.advance, Stream.remaining, Nat.zero_add]
    exact List.drop_left' (wire_length m h)
  · rw [hd, serialize_then_write]
    rfl

/-- C26 at the `Metadata` of the tests, followed by four bytes. -/
theorem round_trip_with_trailing_data_witness :
    Metadata.deserialize 1 ((dummy_md.serialize Stream.empty).write [1, 2, 3, 4])
        = (.ok dummy_md, ((dummy_md.serialize Stream.empty).write [1, 2, 3, 4]).advance 3628)
      ∧ (Metadata.deserialize 1
          ((dummy_md.serialize Stream.empty).write [1, 2, 3, 4])).2.remaining = [1, 2, 3, 4] :=
  ⟨(round_trip_with_trailing_data dummy_md dummy_md_valid dummy_md_nonempty [1, 2, 3, 4]).2.1,
    (round_trip_with_trailing_data dummy_md dummy_md_valid dummy_md_nonempty
      [1, 2, 3, 4]).2.2.1⟩

/-- C27. Exact acceptance condition of the decoder. `Metadata::deserialize` at a header
version of 1 or later succeeds if and only if the stream is good (a failed stream delivers
no byte), at least 3628 bytes remain from the get cursor, and the four 8-byte sizes at the
relative offsets 4, 524, 1044 and 1564 hold values between 1 and 512, 512, 512 and 2048
respectively. At header version 0 it succeeds if and only if the stream is good, at least
3108 bytes remain, and the three sizes at the relative offsets 4, 524 and 1044 hold values
between 1 and 512, 512 and 2048. -/
theorem decoder_acceptance_condition (v : Nat) (s : Stream) :
    (v ≥ 1 →
        ((∃ md, (Metadata.deserialize v s).1 = .ok md) ↔
          s.fail = false ∧ 3628 ≤ s.remaining.length
            ∧ (1 ≤ le_value ((s.remaining.drop 4).take 8)
                ∧ le_value ((s.remaining.drop 4).take 8) ≤ 512)
            ∧ (1 ≤ le_value ((s.remaining.drop 524).take 8)
                ∧ le_value ((s.remaining.drop 524).take 8) ≤ 512)
            ∧ (1 ≤ le_value ((s.remaining.drop 1044).take 8)
                ∧ le_value ((s.remaining.drop 1044).take 8) ≤ 512)
            ∧ (1 ≤ le_value ((s.remaining.drop 1564).take 8)
                ∧ le_value ((s.remaining.drop 1564).take 8) ≤ 2048)))
      ∧ (v = 0 →
        ((∃ md, (Metadata.deserialize v s).1 = .ok md) ↔
          s.fail = false ∧ 3108 ≤ s.remaining.length
            ∧ (1 ≤ le_value ((s.remaining.drop 4).take 8)
                ∧ le_value ((s.remaining.drop 4).take 8) ≤ 512)
            ∧ (1 ≤ le_value ((s.remaining.drop 524).take 8)
                ∧ le_value ((s.remaining.drop 524).take 8) ≤ 512)
            ∧ (1 ≤ le_value ((s.remaining.drop 1044).take 8)
                ∧ le_value ((s.remaining.drop 1044).take 8) ≤ 2048))) := by
  constructor
  · intro hv
    rw [← decode_outcome_accepts_iff v hv]
    constructor
    · rintro ⟨md, h⟩
      exact ⟨((deserialize_ok_iff v s md).1 h).1, md, ((deserialize_ok_iff v s md).1 h).2⟩
    · rintro ⟨hs, md, h⟩
      exact ⟨md, (deserialize_ok_iff v s md).2 ⟨hs, h⟩⟩
  · intro hv
    subst hv
    rw [← decode_outcome_accepts_iff_v0]
    constructor
    · rintro ⟨md, h⟩
      exact ⟨((deserialize_ok_iff 0 s md).1 h).1, md, ((deserialize_ok_iff 0 s md).1 h).2⟩
    · rintro ⟨hs, md, h⟩
      exact ⟨md, (deserialize_ok_iff 0 s md).2 ⟨hs, h⟩⟩

/-- C28. Fixed consumption: a successful `Metadata::deserialize` leaves the stream with
its get cursor moved by exactly 3628 bytes when the header version is 1 or later and by
exactly 3108 bytes when it is 0, whatever sizes the strings declare. Consequently, on the
stream of a writer that `Writer::create` returned, a successful `Metadata::deserialize`
started at offset 12 ends with `tellg()` equal to `md_size`; and for a `Metadata` whose
strings are not empty that decoding does succeed. -/
theorem fixed_consumption (v : Nat) (s : Stream) (md : Metadata)
    (h : (Metadata.deserialize v s).1 = .ok md) :
    (v ≥ 1 → (Metadata.deserialize v s).2 = s.advance 3628)
      ∧ (v = 0 → (Metadata.deserialize v s).2 = s.advance 3108)
      ∧ (∀ (s0 : Stream) (md0 md1 : Metadata) (w : Writer), md0.valid →
          Writer.create s0 md0 = .ok w →
          (Metadata.deserialize metadata_version (w.stream_.seekg 12)).1 = .ok md1 →
          (Metadata.deserialize metadata_version (w.stream_.seekg 12)).2.tellg = w.md_size_)
      ∧ (∀ md0 : Metadata, md0.valid → md0.nonempty →
          ∃ w, Writer.create Stream.empty md0 = .ok w
            ∧ (Metadata.deserialize metadata_version (w.stream_.seekg 12)).1 = .ok md0
            ∧ (Metadata.deserialize metadata_version (w.stream_.seekg 12)).2.tellg
                = w.md_size_) := by
  obtain ⟨hs, hdec⟩ := (deserialize_ok_iff v s md).1 h
  have key : ∀ (s0 : Stream) (md0 md1 : Metadata) (w : Writer), md0.valid →
      Writer.create s0 md0 = .ok w →
      (Metadata.deserialize metadata_version (w.stream_.seekg 12)).1 = .ok md1 →
      (Metadata.deserialize metadata_version (w.stream_.seekg 12)).2.tellg = w.md_size_ := by
    intro s0 md0 md1 w hmd hc hd
    obtain ⟨f, g, -, m⟩ := Writer.created_seekg s0 md0 w hmd hc
    obtain ⟨-, hd1⟩ := (deserialize_ok_iff _ _ md1).1 hd
    rw [deserialize_eq_of_ok _ _ md1 f hd1]
    show ((w.stream_.seekg 12).advance (header_size metadata_version)).tellg = _
    rw [Stream.tellg_of_good ((w.stream_.seekg 12).advance (header_size metadata_version)) f, m]
    simp only [Stream.advance, g]
    rfl
  refine ⟨?_, ?_, key, ?_⟩
  · intro hv
    rw [deserialize_eq_of_ok v s md hs hdec, header_size_of_ge v hv]
  · intro hv
    subst hv
    rw [deserialize_eq_of_ok 0 s md hs hdec]
    rfl
  · intro md0 hmd hne
    have hc := Writer.create_of_good Stream.empty md0 rfl hmd
    obtain ⟨f, -, r, -⟩ := Writer.created_seekg Stream.empty md0 _ hmd hc
    have hd : (Metadata.deserialize metadata_version
        (({ Stream.empty with data := resource_header md0 ++ Stream.empty.data.drop 3640,
                              ppos := 3640 } : Stream).seekg 12)).1 = .ok md0 := by
      rw [(deserialize_ok_iff _ _ md0).2]
      refine ⟨f, ?_⟩
      rw [r]
      exact decode_outcome_wire _ (by decide) md0 hmd hne _
    exact ⟨_, hc, hd, key _ _ _ _ hmd hc hd⟩

/-- C28 at the header of the tests: decoding it at version 1 moves the cursor by 3628. -/
theorem fixed_consumption_witness :
    (Metadata.deserialize 1 (Stream.ofBytes (dummy_header.bytes 1))).2
      = (Stream.ofBytes (dummy_header.bytes 1)).advance 3628 :=
  (fixed_consumption 1 (Stream.ofBytes (dummy_header.bytes 1)) (dummy_header.metadata 1)
    ((deserialize_ok_iff 1 _ _).2 ⟨rfl, by
      have h := WireHeader.decode 1 dummy_header dummy_header_well_formed []
      rwa [List.append_nil] at h⟩)).1 (by decide)

/-- C29. In-place rewrite equals fresh creation: for all `Metadata` `md1`, `md2` within
the size limits (as every `Metadata` of the builder is) and every payload `P`, the stream
after `Writer::create(md1)`, writing `P` and `set_metadata(md2)` is the stream after
`Writer::create(md2)` and writing `P`: the same bytes (the magic, the header version, the
header bytes of `md2`, then `P`), the same cursors and state. The rewritten header
occupies exactly the byte span `[12, md_size)` of the old one: the 12 bytes before it and
the bytes from `md_size` on are those of the stream before the rewrite, and `md_size`
stays 3640. -/
theorem rewrite_equals_fresh_creation (md1 md2 : Metadata) (h1 : md1.valid) (h2 : md2.valid)
    (P : List Byte) :
    ∃ w1 w2, Writer.create Stream.empty md1 = .ok w1
      ∧ Writer.create Stream.empty md2 = .ok w2
      ∧ (Writer.set_metadata { w1 with stream_ := w1.stream_.write P } md2).stream_
          = w2.stream_.write P
      ∧ (Writer.set_metadata { w1 with stream_ := w1.stream_.write P } md2).stream_.data
          = le_bytes 8 magic ++ (le_bytes 4 metadata_version ++ (md2.wire ++ P))
      ∧ ((Writer.set_metadata { w1 with stream_ := w1.stream_.write P } md2).stream_.data.drop
            12).take (w1.md_size_ - 12) = md2.wire
      ∧ (Writer.set_metadata { w1 with stream_ := w1.stream_.write P } md2).stream_.data.take 12
          = (w1.stream_.write P).data.take 12
      ∧ (Writer.set_metadata { w1 with stream_ := w1.stream_.write P } md2).stream_.data.drop
            w1.md_size_ = (w1.stream_.write P).data.drop w1.md_size_
      ∧ (w1.stream_.write P).data.drop w1.md_size_ = P
      ∧ w1.md_size_ = 3640
      ∧ (Writer.set_metadata { w1 with stream_ := w1.stream_.write P } md2).md_size_
          = w1.md_size_ := by
  obtain ⟨w1, hc1, hsz1, hw1⟩ := create_then_write md1 h1 P
  obtain ⟨w2, hc2, -, hw2⟩ := create_then_write md2 h2 P
  have hl1 := wire_length md1 h1
  have hl2 := wire_length md2 h2
  have hlen : 3640 + P.length ≤ (le_bytes 8 magic
      ++ (le_bytes 4 metadata_version ++ (md1.wire ++ P))).length := by
    simp only [List.length_append, le_bytes_length, hl1]; omega
  have hset := Writer.set_metadata_of_good
    { stream_ := { data := le_bytes 8 magic ++ (le_bytes 4 metadata_version
                      ++ (md1.wire ++ P)),
                   gpos := 0, ppos := 3640 + P.length, fail := false },
      md_size_ := 3640 } md2 h2 rfl (Nat.le_trans (Nat.le_add_right _ _) hlen) hlen
  simp only [resource_bytes_take, resource_bytes_drop _ _ hl1, List.append_assoc] at hset
  refine ⟨w1, w2, hc1, hc2, ?_⟩
  rw [hw1, hw2, hsz1, hset]
  refine ⟨rfl, rfl, ?_, ?_, ?_, ?_, rfl, rfl⟩
  · simp only [(resource_start magic metadata_version _).2.2.2]
    exact List.take_left' hl2
  · rw [resource_bytes_take, resource_bytes_take]
  · simp only [resource_bytes_drop _ _ hl1, resource_bytes_drop _ _ hl2]
  · simp only [resource_bytes_drop _ _ hl1]

/-- C29 at the two `Metadata` of the tests, with a payload of four bytes. -/
theorem rewrite_equals_fresh_creation_witness :
    ∃ w1 w2, Writer.create Stream.empty dummy_md = .ok w1
      ∧ Writer.create Stream.empty dummy_md2 = .ok w2
      ∧ (Writer.set_metadata { w1 with stream_ := w1.stream_.write [1, 2, 3, 4] }
          dummy_md2).stream_ = w2.stream_.write [1, 2, 3, 4] := by
  obtain ⟨w1, w2, a, b, c, -⟩ :=
    rewrite_equals_fresh_creation dummy_md dummy_md2 dummy_md_valid dummy_md2_valid [1, 2, 3, 4]
  exact ⟨w1, w2, a, b, c⟩

/-- C30. Decode errors name the first truncated field: on a good stream that holds, from
the get cursor on, only the first `k` bytes of a well-formed header of version 1 (its
strings are not empty), `k` below the 3628 bytes of the header, `Metadata::deserialize`
fails with `ReadMetadataError` and the message of the region that holds the offset `k` in
wire order: the type for `k < 4`; for each string field its size when `k` is inside the
8-byte size, its content when `k` is inside the string, its padding when `k` is inside
the padding; the generation date for `3620 ≤ k < 3628`. An empty stream gives the message
of the type, a stream holding only the type gives the message of the format version
size. -/
theorem truncated_header_message (h : WireHeader) (hwf : h.well_formed 1) (k : Nat)
    (hk : k < 3628) (s : Stream) (hs : s.fail = false)
    (hr : s.remaining = (h.bytes 1).take k) :
    (Metadata.deserialize 1 s).1 = .error (.ReadMetadataError (region_message h k))
      ∧ (k < 4 → region_message h k = "Can't read enough data for the type")
      ∧ (3620 ≤ k → region_message h k = "Can't read enough data for the generation date")
      ∧ (Metadata.deserialize 1 (Stream.ofBytes [])).1
          = .error (.ReadMetadataError "Can't read enough data for the type")
      ∧ (Metadata.deserialize 1 (Stream.ofBytes h.type_bytes)).1
          = .error (.ReadMetadataError "Can't read enough data for the format version size") := by
  refine ⟨?_, ?_, ?_, ?_, ?_⟩
  · rw [(deserialize_of_good 1 s hs).1, hr]
    exact decode_outcome_truncated h hwf k hk
  · intro c
    unfold region_message
    rw [if_pos c]
  · intro c
    unfold region_message
    rw [if_neg (by omega), if_neg (by omega), if_neg (by omega), if_neg (by omega),
      if_neg (by omega)]
  · rw [(deserialize_of_good 1 _ rfl).1, Stream.ofBytes_remaining]
    rfl
  · have h4 : (h.bytes 1).take 4 = h.type_bytes := List.take_left' hwf.1
    rw [(deserialize_of_good 1 _ rfl).1, Stream.ofBytes_remaining, ← h4]
    exact decode_outcome_truncated h hwf 4 (by decide)

/-- C30 at the header of the tests cut after 20 bytes, inside the format version, and
after 3000 bytes, inside the padding of the tool info. -/
theorem truncated_header_message_witness :
    (Metadata.deserialize 1 (Stream.ofBytes ((dummy_header.bytes 1).take 20))).1
        = .error (.ReadMetadataError "Can't read enough data for the format version")
      ∧ (Metadata.deserialize 1 (Stream.ofBytes ((dummy_header.bytes 1).take 3000))).1
        = .error (.ReadMetadataError
            "Can't read enough data for the padding of the tool info") :=
  ⟨(truncated_header_message dummy_header dummy_header_well_formed 20 (by decide)
      (Stream.ofBytes ((dummy_header.bytes 1).take 20)) rfl
      (Stream.ofBytes_remaining _)).1,
    (truncated_header_message dummy_header dummy_header_well_formed 3000 (by decide)
      (Stream.ofBytes ((dummy_header.bytes 1).take 3000)) rfl
      (Stream.ofBytes_remaining _)).1⟩

/-- C31. Padding is discarded, not validated: for every header version, two streams in the
same state whose bytes from the get cursor on have the same length and differ only at
offsets lying in padding regions (behind the declared content of a string field, before
the end of the field) give the same result of `Metadata::deserialize`: both fail, with
the same exception, or both succeed with equal `Metadata`. Two well-formed headers with
the same type, strings and generation date are such a pair whatever their padding bytes,
and both decode to the same `Metadata`: padding bytes other than zero are accepted. -/
theorem padding_discarded (v : Nat) (s1 s2 : Stream) (hf : s1.fail = s2.fail)
    (h : differ_only_in_padding v s1.remaining s2.remaining) :
    (Metadata.deserialize v s1).1 = (Metadata.deserialize v s2).1
      ∧ ((∃ e, (Metadata.deserialize v s1).1 = .error e
              ∧ (Metadata.deserialize v s2).1 = .error e)
          ∨ (∃ md, (Metadata.deserialize v s1).1 = .ok md
              ∧ (Metadata.deserialize v s2).1 = .ok md))
      ∧ (∀ g k : WireHeader, g.well_formed v → k.well_formed v →
          k.type_bytes = g.type_bytes → k.format_version = g.format_version →
          k.tool_name = g.tool_name → k.tool_version = g.tool_version →
          k.tool_info = g.tool_info → k.generation_date_bytes = g.generation_date_bytes →
          differ_only_in_padding v (g.bytes v) (k.bytes v)
            ∧ (Metadata.deserialize v (Stream.ofBytes (g.bytes v))).1 = .ok (g.metadata v)
            ∧ (Metadata.deserialize v (Stream.ofBytes (k.bytes v))).1 = .ok (g.metadata v)) := by
  have key : (Metadata.deserialize v s1).1 = (Metadata.deserialize v s2).1 := by
    rcases Bool.eq_false_or_eq_true s1.fail with hs | hs
    · rw [deserialize_of_fail v s1 hs, deserialize_of_fail v s2 (hf ▸ hs)]
    · rw [(deserialize_of_good v s1 hs).1, (deserialize_of_good v s2 (hf ▸ hs)).1]
      exact decode_outcome_padding v _ _ h
  refine ⟨key, ?_, ?_⟩
  · cases hr : (Metadata.deserialize v s1).1 with
    | error e => exact Or.inl ⟨e, rfl, by rw [← key, hr]⟩
    | ok md => exact Or.inr ⟨md, rfl, by rw [← key, hr]⟩
  · intro g k gwf kwf e0 e1 e2 e3 e4 e5
    have hg : (Metadata.deserialize v (Stream.ofBytes (g.bytes v))).1 = .ok (g.metadata v) := by
      rw [(deserialize_of_good v _ rfl).1, Stream.ofBytes_remaining]
      have := WireHeader.decode v g gwf []
      rwa [List.append_nil] at this
    have hk : (Metadata.deserialize v (Stream.ofBytes (k.bytes v))).1 = .ok (k.metadata v) := by
      rw [(deserialize_of_good v _ rfl).1, Stream.ofBytes_remaining]
      have := WireHeader.decode v k kwf []
      rwa [List.append_nil] at this
    have hm : k.metadata v = g.metadata v := by
      simp only [WireHeader.metadata, e0, e1, e2, e3, e4, e5]
    exact ⟨WireHeader.bytes_differ_only_in_padding v g k gwf kwf e0 e1 e2 e3 e4 e5, hg,
      hm ▸ hk⟩

/-- C31 at the header of the tests and at the same header with every padding byte set to
`0xff`: the two byte strings differ at offset 23, and decoding gives the same. -/
theorem padding_discarded_witness :
    ((dummy_header.bytes 1).drop 23).head? = some 0
      ∧ ((dummy_header_ff.bytes 1).drop 23).head? = some 255
      ∧ (Metadata.deserialize 1 (Stream.ofBytes (dummy_header.bytes 1))).1
        = (Metadata.deserialize 1 (Stream.ofBytes (dummy_header_ff.bytes 1))).1 :=
  ⟨rfl, rfl,
    (padding_discarded 1 (Stream.ofBytes (dummy_header.bytes 1))
      (Stream.ofBytes (dummy_header_ff.bytes 1)) rfl (by
        rw [Stream.ofBytes_remaining, Stream.ofBytes_remaining]
        exact WireHeader.bytes_differ_only_in_padding 1 dummy_header dummy_header_ff
          dummy_header_well_formed dummy_header_ff_well_formed rfl rfl rfl rfl rfl rfl)).1⟩

/-- C32. `Writer::open` never opens a legacy resource: for every stream whose first 8
bytes hold the legacy magic `0x7262696e72737263`, `Writer::open` fails with `WriterError`,
whatever follows the magic; on a good stream the message is that of the version check
(the header version 0 of a legacy resource is not the current one). This includes the
streams on which `Reader::open` succeeds, such as the legacy magic followed by a
well-formed header of version 0. -/
theorem writer_open_rejects_legacy (s : Stream)
    (hm : le_value (s.data.take 8) = 0x7262696e72737263) :
    (∃ msg, Writer.open s = .error (.WriterError msg))
      ∧ (s.fail = false →
          Writer.open s = .error (.WriterError
            "Writer can't open resource with different metadata version than the current"))
      ∧ (∀ r, Reader.open s = .ok r →
          Writer.open s = .error (.WriterError
            "Writer can't open resource with different metadata version than the current"))
      ∧ (∀ (h : WireHeader) (rest : List Byte), h.well_formed 0 → s.fail = false →
          s.data = le_bytes 8 legacy_magic ++ (h.bytes 0 ++ rest) →
          Reader.open s
              = .ok { stream_ := { s with gpos := 3116 }, md_ := h.metadata 0, md_size_ := 3116 }
            ∧ Writer.open s = .error (.WriterError
                "Writer can't open resource with different metadata version than the current")) := by
  have hl : le_value (s.data.take 8) = legacy_magic := hm
  have hne : ¬ le_value (s.data.take 8) = magic := by
    rw [hl]
    exact Ne.symm magic_ne_legacy
  have good : s.fail = false →
      Writer.open s = .error (.WriterError
        "Writer can't open resource with different metadata version than the current") := by
    intro hs
    rw [Writer.open_eq_writer_outcome]
    unfold Writer.open_outcome
    rw [if_neg (by simp [hs]), if_neg hne, if_pos hl]
  refine ⟨?_, good, ?_, ?_⟩
  · rcases Bool.eq_false_or_eq_true s.fail with hs | hs
    · exact ⟨_, Writer.reopen_of_fail s hs⟩
    · exact ⟨_, good hs⟩
  · intro r hr
    exact good (Reader.open_ok_cases s r hr).1
  · intro h rest hwf hs hd
    refine ⟨?_, good hs⟩
    obtain ⟨e1, e2⟩ := legacy_resource_start (h.bytes 0 ++ rest)
    have hsz : header_size 0 = 3108 := rfl
    rw [Reader.open_eq_reader_outcome]
    unfold Reader.open_outcome
    rw [hd, e1, e2, le_value_legacy_magic, if_neg (by simp [hs]),
      if_neg (Ne.symm magic_ne_legacy), if_pos rfl, WireHeader.decode 0 h hwf rest]
    simp only [hsz]

/-- C32 at the legacy resource of the header of the tests: the reader opens it, the
writer does not. -/
theorem writer_open_rejects_legacy_witness :
    Reader.open (Stream.ofBytes (le_bytes 8 legacy_magic ++ (dummy_header.bytes 0 ++ [])))
        = .ok { stream_ := { Stream.ofBytes (le_bytes 8 legacy_magic
                                ++ (dummy_header.bytes 0 ++ [])) with gpos := 3116 },
                md_ := dummy_header.metadata 0, md_size_ := 3116 }
      ∧ Writer.open (Stream.ofBytes (le_bytes 8 legacy_magic ++ (dummy_header.bytes 0 ++ [])))
        = .error (.WriterError
            "Writer can't open resource with different metadata version than the current") :=
  (writer_open_rejects_legacy
    (Stream.ofBytes (le_bytes 8 legacy_magic ++ (dummy_header.bytes 0 ++ [])))
    (by
      show le_value ((le_bytes 8 legacy_magic ++ (dummy_header.bytes 0 ++ [])).take 8) = _
      rw [(legacy_resource_start _).1]
      rfl)).2.2.2 dummy_header [] dummy_header_well_formed_v0 rfl rfl

/-- C33. Failing input of the older version under the current magic: on the current
magic, then the 4-byte header version 0, then the header of version 0 of the tests with an
empty tool info (in the layout of the specification, 3108 bytes), `Reader::open` fails
instead of returning the metadata, because the decoder treats the content read of zero
characters as a short read. `Writer::open` fails on the same stream, as the claim says. -/
theorem older_version_reader_rejects_empty_tool_info :
    empty_info_header.in_layout 0
      ∧ (empty_info_header.bytes 0).length = 3108
      ∧ Reader.open (Stream.ofBytes (le_bytes 8 magic ++ (le_bytes 4 0
            ++ (empty_info_header.bytes 0 ++ []))))
          = .error (.ReaderError
              "While reading metadata: Can't read enough data for the tool info")
      ∧ Writer.open (Stream.ofBytes (le_bytes 8 magic ++ (le_bytes 4 0
            ++ (empty_info_header.bytes 0 ++ []))))
          = .error (.WriterError
              "Writer can't open resource with different metadata version than the current") := by
  obtain ⟨e1, e2, e3, -⟩ := resource_start magic 0 (empty_info_header.bytes 0 ++ [])
  refine ⟨empty_info_header_in_layout, empty_info_header_length, ?_, ?_⟩
  · rw [Reader.open_of_current_magic _ rfl 0 (by decide) (empty_info_header.bytes 0 ++ []) rfl,
      decode_outcome_empty_info_header []]
    rfl
  · have key : ∀ s : Stream, s.fail = false →
        s.data = le_bytes 8 magic ++ (le_bytes 4 0 ++ (empty_info_header.bytes 0 ++ [])) →
        Writer.open s = .error (.WriterError
          "Writer can't open resource with different metadata version than the current") := by
      intro s hs hd
      rw [Writer.open_eq_writer_outcome]
      unfold Writer.open_outcome
      rw [hd, e1, e3, le_value_magic, le_value_version 0 (by decide), if_neg (by simp [hs]),
        if_pos rfl, if_neg (Nat.not_lt.2 e2), if_pos (by decide)]
    exact key _ rfl rfl

/-- C34. `set_metadata` is last-write-wins: for every writer obtained from
`Writer::create` or `Writer::open` (and used through its stream since) and all `Metadata`
`m1`, `m2` within the size limits (as every `Metadata` of the builder is),
`set_metadata(m1)` followed by `set_metadata(m2)` leaves the writer that `set_metadata(m2)`
alone leaves: the same stream (bytes, cursors, state) and the same `md_size`. In
particular `set_metadata(m)` applied twice is `set_metadata(m)` applied once. The same
holds for every writer whose stream holds at least 3640 bytes with its put cursor inside
the stream. -/
theorem set_metadata_last_write_wins (w : Writer) (hw : Writer.Reachable w)
    (m1 m2 : Metadata) (h1 : m1.valid) (h2 : m2.valid) :
    (w.set_metadata m1).set_metadata m2 = w.set_metadata m2
      ∧ ((w.set_metadata m1).set_metadata m2).stream_.data = (w.set_metadata m2).stream_.data
      ∧ ((w.set_metadata m1).set_metadata m2).stream_.tellp = (w.set_metadata m2).stream_.tellp
      ∧ ((w.set_metadata m1).set_metadata m2).md_size_ = (w.set_metadata m2).md_size_
      ∧ (w.set_metadata m1).set_metadata m1 = w.set_metadata m1
      ∧ (∀ w2 : Writer, 3640 ≤ w2.stream_.data.length →
          w2.stream_.ppos ≤ w2.stream_.data.length →
          (w2.set_metadata m1).set_metadata m2 = w2.set_metadata m2) := by
  obtain ⟨-, hlen, hp⟩ := Writer.Reachable.invariant w hw
  have key := Writer.set_metadata_twice w m1 m2 h1 h2 hlen hp
  refine ⟨key, by rw [key], by rw [key], by rw [key],
    Writer.set_metadata_twice w m1 m1 h1 h1 hlen hp, ?_⟩
  intro w2 hlen2 hp2
  exact Writer.set_metadata_twice w2 m1 m2 h1 h2 hlen2 hp2

/-- C34 at the writer created in the tests and the two `Metadata` of the tests. -/
theorem set_metadata_last_write_wins_witness :
    (dummy_writer.set_metadata dummy_md).set_metadata dummy_md2
        = dummy_writer.set_metadata dummy_md2
      ∧ (dummy_writer.set_metadata dummy_md2).set_metadata dummy_md2
        = dummy_writer.set_metadata dummy_md2 :=
  ⟨(set_metadata_last_write_wins dummy_writer dummy_writer_reachable dummy_md dummy_md2
      dummy_md_valid dummy_md2_valid).1,
    (set_metadata_last_write_wins dummy_writer dummy_writer_reachable dummy_md2 dummy_md2
      dummy_md2_valid dummy_md2_valid).1⟩

/-- C35. A stream too short to hold a magic is rejected as wrong magic: for every good
stream that holds fewer than 8 bytes, the empty stream included, `Reader::open` fails with
`ReaderError` and `Writer::open` with `WriterError`, both with the message
`"Wrong magic"`. The short read is not checked: the bytes read (fewer than 8) are stored
into the magic variable, which was initialised to zero, and its value is then neither the
current magic nor the legacy magic, whatever the bytes. -/
theorem short_stream_wrong_magic (s : Stream) (hs : s.fail = false)
    (hlen : s.data.length < 8) :
    Reader.open s = .error (.ReaderError "Wrong magic")
      ∧ Writer.open s = .error (.WriterError "Wrong magic")
      ∧ ((s.seekg 0).read 8).1 = s.data
      ∧ le_value ((s.seekg 0).read 8).1 ≠ magic
      ∧ le_value ((s.seekg 0).read 8).1 ≠ legacy_magic
      ∧ (∀ bs : List Byte, bs.length < 8 → le_value bs ≠ magic ∧ le_value bs ≠ legacy_magic) := by
  have ht : s.data.take 8 = s.data := List.take_of_length_le (by omega)
  obtain ⟨n1, n2⟩ := le_value_short_ne_magic s.data hlen
  have hread : ((s.seekg 0).read 8).1 = s.data := by
    rw [Stream.seekg_zero s hs, Stream.read_fst { s with gpos := 0 } 8 hs]
    simp only [Stream.remaining, List.drop_zero]
    exact ht
  refine ⟨?_, ?_, hread, by rw [hread]; exact n1, by rw [hread]; exact n2,
    fun bs hb => le_value_short_ne_magic bs hb⟩
  · rw [Reader.open_eq_reader_outcome]
    unfold Reader.open_outcome
    rw [ht, if_neg (by simp [hs]), if_neg n1, if_neg n2]
  · rw [Writer.open_eq_writer_outcome]
    unfold Writer.open_outcome
    rw [ht, if_neg (by simp [hs]), if_neg n1, if_neg n2]

/-- C35 at the empty stream and at a stream that holds the first 7 bytes of the current
magic. -/
theorem short_stream_wrong_magic_witness :
    (Reader.open Stream.empty = .error (.ReaderError "Wrong magic")
        ∧ Writer.open Stream.empty = .error (.WriterError "Wrong magic"))
      ∧ (Reader.open (Stream.ofBytes ((le_bytes 8 magic).take 7))
          = .error (.ReaderError "Wrong magic")
        ∧ Writer.open (Stream.ofBytes ((le_bytes 8 magic).take 7))
          = .error (.WriterError "Wrong magic")) :=
  ⟨⟨(short_stream_wrong_magic Stream.empty rfl (by decide)).1,
      (short_stream_wrong_magic Stream.empty rfl (by decide)).2.1⟩,
    ⟨(short_stream_wrong_magic (Stream.ofBytes ((le_bytes 8 magic).take 7)) rfl (by decide)).1,
      (short_stream_wrong_magic (Stream.ofBytes ((le_bytes 8 magic).take 7)) rfl
        (by decide)).2.1⟩⟩

end reven.binresource
